import Mathlib

/-!
# Polymorphic envelope decoding in lc-sdk-go

A shallow embedding of `agent/structures.go` and `customer/structures.go`.

The two packages rely on Go's `encoding/json`.  Its decoder is embedded at the
level of JSON values: a payload is a `JSON` tree, a `json.RawMessage` is either
`nil`, a byte string that is not one JSON value, or the JSON value it encodes.
Decoding a value into a Go variable follows `encoding/json`:

* `null` leaves a string, bool, int or struct untouched and resets a pointer,
  slice or map;
* a value of another kind than the target is a type error;
* object keys are looked up, in key order, by their folded name in the table
  of the struct's visible fields (`Fields`), so a repeated key is decoded again
  into the same field and a field hides the deeper fields of its name;
* an embedded pointer is allocated when the first key promoted through it is
  met.

A decode that reports an error is `none`: every caller in the two files
discards the target when `json.Unmarshal` reports an error.

Types of package `objects` and `time.Time` are parameters (`Objects`).
-/

set_option autoImplicit false

namespace LcSdk

/-! ## JSON values and `encoding/json` primitives -/

/-- A JSON value.  Numbers are split into integer literals (no fraction, no
exponent) and all other number literals; objects keep key order and repeated
keys. -/
inductive JSON where
  | null
  | bool (b : Bool)
  | int (i : Int)
  | float (lit : String)
  | str (s : String)
  | arr (xs : List JSON)
  | obj (kvs : List (String × JSON))

/-- A `json.RawMessage`: `nil`, bytes that do not form one JSON value, or an
encoded JSON value. -/
inductive RawMessage where
  | nil
  | invalid
  | valid (j : JSON)

/-- Folding of one rune for field lookup: ASCII letters to upper case, the long
s and the Kelvin sign to `S` and `K`.  Other runes never fold to an ASCII
letter, and every field name of the two packages is ASCII. -/
def foldRune (c : Char) : Char :=
  if 'a'.toNat ≤ c.toNat ∧ c.toNat ≤ 'z'.toNat then Char.ofNat (c.toNat - 32)
  else if c.toNat = 0x17F then 'S'
  else if c.toNat = 0x212A then 'K'
  else c

/-- The folded name under which `encoding/json` looks an object key up. -/
def foldName (s : String) : String := String.mk (s.data.map foldRune)

/-- Decoding by `json.Unmarshal` of a JSON value into a `string`. -/
def unmarshalString (j : JSON) (cur : String) : Option String :=
  match j with
  | .null => some cur
  | .str s => some s
  | _ => none

/-- Decoding by `json.Unmarshal` of a JSON value into a `bool`. -/
def unmarshalBool (j : JSON) (cur : Bool) : Option Bool :=
  match j with
  | .null => some cur
  | .bool b => some b
  | _ => none

/-- Decoding by `json.Unmarshal` of a JSON value into an `int` (64 bits). -/
def unmarshalInt (j : JSON) (cur : Int) : Option Int :=
  match j with
  | .null => some cur
  | .int i => if -(2 : Int) ^ 63 ≤ i ∧ i < (2 : Int) ^ 63 then some i else none
  | _ => none

/-- The visible fields of a struct: folded JSON name and decoder of the field,
shallower fields first. -/
abbrev Fields (σ : Type) := List (String × (JSON → σ → Option σ))

/-- The field setter of a struct: the first field of that folded name decodes
the value, a key without a field is skipped. -/
def Fields.set {σ : Type} (fs : Fields σ) (fk : String) (v : JSON) (s : σ) : Option σ :=
  match fs.lookup fk with
  | some dec => dec v s
  | none => some s

/-- The fields promoted through an embedded pointer, which is allocated when
one of them is decoded. -/
def Fields.viaPtr {σ τ : Type} (fs : Fields τ) (zero : τ) (get : σ → Option τ)
    (put : σ → τ → σ) : Fields σ :=
  fs.map (fun p => (p.1, fun v s => (p.2 v ((get s).getD zero)).map (put s)))

/-- Decoding by `json.Unmarshal` of an object into a struct: the keys are handed, folded
and in order, to the struct's field setter. -/
def unmarshalFields {σ : Type} (setField : String → JSON → σ → Option σ)
    (kvs : List (String × JSON)) (init : σ) : Option σ :=
  kvs.foldlM (fun s kv => setField (foldName kv.1) kv.2 s) init

/-- Decoding by `json.Unmarshal` of a JSON value into a struct. -/
def unmarshalStruct {σ : Type} (setField : String → JSON → σ → Option σ)
    (j : JSON) (cur : σ) : Option σ :=
  match j with
  | .null => some cur
  | .obj kvs => unmarshalFields setField kvs cur
  | _ => none

/-- Decoding by `json.Unmarshal` of a JSON value into a pointer to a struct. -/
def unmarshalPtr {σ : Type} (setField : String → JSON → σ → Option σ) (zero : σ)
    (j : JSON) (cur : Option σ) : Option (Option σ) :=
  match j with
  | .null => some none
  | .obj kvs => (unmarshalFields setField kvs (cur.getD zero)).map some
  | _ => none

/-- A Go slice: the contents of its backing array and its length.  `nil` and
the empty slice are not told apart. -/
structure Slice (α : Type) where
  store : List α
  len : Nat

/-- The empty slice. -/
def Slice.empty {α : Type} : Slice α := ⟨[], 0⟩

/-- The elements of a slice. -/
def Slice.toList {α : Type} (s : Slice α) : List α := s.store.take s.len

/-- The elements of a JSON array decoded one by one, element `i` into slot `i`
of the backing array (a fresh zero value past its end). -/
def unmarshalElems {α : Type} (elem : JSON → α → Option α) (zero : α) :
    List JSON → List α → Option (List α)
  | [], _ => some []
  | x :: xs, st =>
    match elem x (st.headD zero) with
    | none => none
    | some e =>
      match unmarshalElems elem zero xs st.tail with
      | none => none
      | some es => some (e :: es)

/-- Decoding by `json.Unmarshal` of a JSON value into a slice. -/
def unmarshalSlice {α : Type} (elem : JSON → α → Option α) (zero : α)
    (j : JSON) (cur : Slice α) : Option (Slice α) :=
  match j with
  | .null => some Slice.empty
  | .arr [] => some Slice.empty
  | .arr xs =>
    (unmarshalElems elem zero xs cur.store).map
      (fun es => ⟨es ++ cur.store.drop xs.length, xs.length⟩)
  | _ => none

/-- A Go map with string keys, as an association list with one entry per key.
The order of the entries is not the iteration order of the Go map, which is
unspecified; `nil` and the empty map are not told apart. -/
abbrev GoMap (α : Type) := List (String × α)

/-- Go `m[k] = v`. -/
def GoMap.insert {α : Type} (m : GoMap α) (k : String) (v : α) : GoMap α :=
  (k, v) :: m.filter (fun p => decide (p.1 ≠ k))

/-- Go `v, ok := m[k]`. -/
def GoMap.lookup {α : Type} (m : GoMap α) (k : String) : Option α :=
  (m.find? (fun p => decide (p.1 = k))).map Prod.snd

/-- The keys of a map. -/
def GoMap.keys {α : Type} (m : GoMap α) : List String := m.map Prod.fst

/-- Go `len(m)`. -/
def GoMap.len {α : Type} (m : GoMap α) : Nat := m.length

/-- Decoding by `json.Unmarshal` of a JSON value into a `map[string]string`. -/
def unmarshalStringMap (j : JSON) (cur : GoMap String) : Option (GoMap String) :=
  match j with
  | .null => some []
  | .obj kvs =>
    kvs.foldlM (fun m kv => (unmarshalString kv.2 "").map (fun s => GoMap.insert m kv.1 s)) cur
  | _ => none

/-- Decoding by `json.Unmarshal(raw, &target)`: bytes that are empty or not one JSON value
are a syntax error. -/
def Unmarshal {α : Type} (dec : JSON → α → Option α) (raw : RawMessage) (cur : α) : Option α :=
  match raw with
  | .valid j => dec j cur
  | _ => none

/-- The types of package `objects` and `time.Time`, with their zero values and
their JSON decoders. -/
structure Objects where
  Time : Type
  Visit : Type
  Properties : Type
  Access : Type
  Thread : Type
  zeroTime : Time
  zeroVisit : Visit
  zeroProperties : Properties
  zeroAccess : Access
  zeroThread : Thread
  unmarshalTime : JSON → Time → Option Time
  unmarshalVisit : JSON → Visit → Option Visit
  unmarshalProperties : JSON → Properties → Option Properties
  unmarshalAccess : JSON → Access → Option Access
  unmarshalThread : JSON → Thread → Option Thread

/-! ## Package `agent`: users -/

namespace agent

/-- The variant-specific fields of a user, kept as raw fragments
(`userSpecific`). -/
structure userSpecific where
  RoutingStatus : RawMessage
  LastVisit : RawMessage
  Statistics : RawMessage
  AgentLastEventCreatedAt : RawMessage
  CustomerLastEventCreatedAt : RawMessage
  SessionFields : RawMessage
  Followed : RawMessage
  Online : RawMessage
  State : RawMessage
  GroupIDs : RawMessage
  EmailVerified : RawMessage
  CreatedAt : RawMessage
  Visibility : RawMessage

/-- The base of both Customer and Agent (`User`); `Type_` is the Go field
`Type`. -/
structure User (O : Objects) extends userSpecific where
  ID : String
  Type_ : String
  Name : String
  Avatar : String
  Email : String
  Present : Bool
  EventsSeenUpTo : O.Time

/-- The zero value of `userSpecific`. -/
def userSpecific.zero : userSpecific :=
  ⟨.nil, .nil, .nil, .nil, .nil, .nil, .nil, .nil, .nil, .nil, .nil, .nil, .nil⟩

/-- The zero value of `User`. -/
def User.zero (O : Objects) : User O :=
  { userSpecific.zero with
    ID := "", Type_ := "", Name := "", Avatar := "", Email := "", Present := false,
    EventsSeenUpTo := O.zeroTime }

/-- The fields of `User`: the common fields are decoded, the fields of the
embedded `userSpecific` store the encoded value as it is. -/
def User.fields (O : Objects) : Fields (User O) :=
  [("ID", fun v u => (unmarshalString v u.ID).map (fun s => { u with ID := s })),
   ("TYPE", fun v u => (unmarshalString v u.Type_).map (fun s => { u with Type_ := s })),
   ("NAME", fun v u => (unmarshalString v u.Name).map (fun s => { u with Name := s })),
   ("AVATAR", fun v u => (unmarshalString v u.Avatar).map (fun s => { u with Avatar := s })),
   ("EMAIL", fun v u => (unmarshalString v u.Email).map (fun s => { u with Email := s })),
   ("PRESENT", fun v u => (unmarshalBool v u.Present).map (fun b => { u with Present := b })),
   ("EVENTS_SEEN_UP_TO", fun v u =>
      (O.unmarshalTime v u.EventsSeenUpTo).map (fun t => { u with EventsSeenUpTo := t })),
   ("ROUTING_STATUS", fun v u => some { u with RoutingStatus := .valid v }),
   ("LAST_VISIT", fun v u => some { u with LastVisit := .valid v }),
   ("STATISTICS", fun v u => some { u with Statistics := .valid v }),
   ("AGENT_LAST_EVENT_CREATED_AT", fun v u =>
      some { u with AgentLastEventCreatedAt := .valid v }),
   ("CUSTOMER_LAST_EVENT_CREATED_AT", fun v u =>
      some { u with CustomerLastEventCreatedAt := .valid v }),
   ("SESSION_FIELDS", fun v u => some { u with SessionFields := .valid v }),
   ("FOLLOWED", fun v u => some { u with Followed := .valid v }),
   ("ONLINE", fun v u => some { u with Online := .valid v }),
   ("STATE", fun v u => some { u with State := .valid v }),
   ("GROUP_IDS", fun v u => some { u with GroupIDs := .valid v }),
   ("EMAIL_VERIFIED", fun v u => some { u with EmailVerified := .valid v }),
   ("CREATED_AT", fun v u => some { u with CreatedAt := .valid v }),
   ("VISIBILITY", fun v u => some { u with Visibility := .valid v })]

/-- The field setter of `User`. -/
def User.setField (O : Objects) : String → JSON → User O → Option (User O) :=
  (User.fields O).set

/-- Decoding by `json.Unmarshal` of a JSON value into a `User`. -/
def unmarshalUser (O : Objects) (j : JSON) (cur : User O) : Option (User O) :=
  unmarshalStruct (User.setField O) j cur

/-- A LiveChat agent (`Agent`): the embedded `*User` and the typed fields. -/
structure Agent (O : Objects) where
  User : Option (User O)
  RoutingStatus : String
  Visibility : String

/-- The anonymous struct of `Customer.Statistics`. -/
structure Statistics where
  VisitsCount : Int
  ThreadsCount : Int
  ChatsCount : Int
  PageViewsCount : Int
  GreetingsShownCount : Int
  GreetingsAcceptedCount : Int

/-- A LiveChat customer (`Customer`): the embedded `*User` and the typed
fields. -/
structure Customer (O : Objects) where
  User : Option (User O)
  EmailVerified : Bool
  LastVisit : O.Visit
  Statistics : Statistics
  AgentLastEventCreatedAt : O.Time
  CustomerLastEventCreatedAt : O.Time
  CreatedAt : O.Time
  SessionFields : Slice (GoMap String)
  Followed : Bool
  Online : Bool
  State : String
  GroupIDs : Slice Int

/-- The zero value of `Agent`. -/
def Agent.zero (O : Objects) : Agent O := ⟨none, "", ""⟩

/-- The zero value of the statistics struct. -/
def Statistics.zero : Statistics := ⟨0, 0, 0, 0, 0, 0⟩

/-- The zero value of `Customer`. -/
def Customer.zero (O : Objects) : Customer O :=
  { User := none, EmailVerified := false, LastVisit := O.zeroVisit,
    Statistics := Statistics.zero, AgentLastEventCreatedAt := O.zeroTime,
    CustomerLastEventCreatedAt := O.zeroTime, CreatedAt := O.zeroTime,
    SessionFields := Slice.empty, Followed := false, Online := false, State := "",
    GroupIDs := Slice.empty }

/-- The field setter of the statistics struct. -/
def Statistics.setField (fk : String) (v : JSON) (s : Statistics) : Option Statistics :=
  if fk = "VISITS_COUNT" then
    (unmarshalInt v s.VisitsCount).map (fun n => { s with VisitsCount := n })
  else if fk = "THREADS_COUNT" then
    (unmarshalInt v s.ThreadsCount).map (fun n => { s with ThreadsCount := n })
  else if fk = "CHATS_COUNT" then
    (unmarshalInt v s.ChatsCount).map (fun n => { s with ChatsCount := n })
  else if fk = "PAGE_VIEWS_COUNT" then
    (unmarshalInt v s.PageViewsCount).map (fun n => { s with PageViewsCount := n })
  else if fk = "GREETINGS_SHOWN_COUNT" then
    (unmarshalInt v s.GreetingsShownCount).map (fun n => { s with GreetingsShownCount := n })
  else if fk = "GREETINGS_ACCEPTED_COUNT" then
    (unmarshalInt v s.GreetingsAcceptedCount).map
      (fun n => { s with GreetingsAcceptedCount := n })
  else some s

/-- Decoding by `json.Unmarshal` into the statistics struct. -/
def unmarshalStatistics (j : JSON) (cur : Statistics) : Option Statistics :=
  unmarshalStruct Statistics.setField j cur

/-- Decoding by `json.Unmarshal` into a `[]map[string]string`. -/
def unmarshalSessionFields (j : JSON) (cur : Slice (GoMap String)) :
    Option (Slice (GoMap String)) :=
  unmarshalSlice unmarshalStringMap [] j cur

/-- Decoding by `json.Unmarshal` into a `[]int`. -/
def unmarshalInts (j : JSON) (cur : Slice Int) : Option (Slice Int) :=
  unmarshalSlice unmarshalInt 0 j cur

/-- Method `User.Agent`: converts the user to an `Agent` if its type is "agent";
`none` is the `nil` result. -/
def User.Agent {O : Objects} (u : User O) : Option (Agent O) :=
  if u.Type_ ≠ "agent" then none
  else
    match Unmarshal unmarshalString u.RoutingStatus "" with
    | none => none
    | some rs =>
      match Unmarshal unmarshalString u.Visibility "" with
      | none => none
      | some vis => some { User := some u, RoutingStatus := rs, Visibility := vis }

/-- Method `User.Customer`: converts the user to a `Customer` if its type is
"customer"; `none` is the `nil` result.  The source decodes ten fragments, in
this order, and leaves `GroupIDs` at its zero value. -/
def User.Customer {O : Objects} (u : User O) : Option (Customer O) :=
  if u.Type_ ≠ "customer" then none
  else
    match Unmarshal O.unmarshalVisit u.LastVisit O.zeroVisit with
    | none => none
    | some lastVisit =>
    match Unmarshal unmarshalStatistics u.Statistics Statistics.zero with
    | none => none
    | some statistics =>
    match Unmarshal O.unmarshalTime u.AgentLastEventCreatedAt O.zeroTime with
    | none => none
    | some agentLast =>
    match Unmarshal O.unmarshalTime u.CustomerLastEventCreatedAt O.zeroTime with
    | none => none
    | some customerLast =>
    match Unmarshal unmarshalBool u.EmailVerified false with
    | none => none
    | some emailVerified =>
    match Unmarshal O.unmarshalTime u.CreatedAt O.zeroTime with
    | none => none
    | some createdAt =>
    match Unmarshal unmarshalBool u.Followed false with
    | none => none
    | some followed =>
    match Unmarshal unmarshalBool u.Online false with
    | none => none
    | some online =>
    match Unmarshal unmarshalString u.State "" with
    | none => none
    | some state =>
    match Unmarshal unmarshalSessionFields u.SessionFields Slice.empty with
    | none => none
    | some sessionFields =>
      some { User := some u, EmailVerified := emailVerified, LastVisit := lastVisit,
             Statistics := statistics, AgentLastEventCreatedAt := agentLast,
             CustomerLastEventCreatedAt := customerLast, CreatedAt := createdAt,
             SessionFields := sessionFields, Followed := followed, Online := online,
             State := state, GroupIDs := Slice.empty }

/-! ### Decoding a chat and its users -/

/-- The fields of `Agent`: `routing_status` and `visibility` are its typed
fields, which hide the fragments of the same name; the fields of `User` are
promoted through the embedded `*User`. -/
def Agent.fields (O : Objects) : Fields (Agent O) :=
  [("ROUTING_STATUS", fun v a =>
      (unmarshalString v a.RoutingStatus).map (fun s => { a with RoutingStatus := s })),
   ("VISIBILITY", fun v a =>
      (unmarshalString v a.Visibility).map (fun s => { a with Visibility := s }))]
  ++ (User.fields O).viaPtr (User.zero O) (fun a => a.User) (fun a u => { a with User := some u })

/-- The field setter of `Agent`. -/
def Agent.setField (O : Objects) : String → JSON → Agent O → Option (Agent O) :=
  (Agent.fields O).set

/-- The fields of `Customer`: its eleven typed fields hide the fragments of the
same name; the fields of `User` are promoted through the embedded `*User`. -/
def Customer.fields (O : Objects) : Fields (Customer O) :=
  [("EMAIL_VERIFIED", fun v c =>
      (unmarshalBool v c.EmailVerified).map (fun b => { c with EmailVerified := b })),
   ("LAST_VISIT", fun v c =>
      (O.unmarshalVisit v c.LastVisit).map (fun x => { c with LastVisit := x })),
   ("STATISTICS", fun v c =>
      (unmarshalStatistics v c.Statistics).map (fun x => { c with Statistics := x })),
   ("AGENT_LAST_EVENT_CREATED_AT", fun v c =>
      (O.unmarshalTime v c.AgentLastEventCreatedAt).map
        (fun t => { c with AgentLastEventCreatedAt := t })),
   ("CUSTOMER_LAST_EVENT_CREATED_AT", fun v c =>
      (O.unmarshalTime v c.CustomerLastEventCreatedAt).map
        (fun t => { c with CustomerLastEventCreatedAt := t })),
   ("CREATED_AT", fun v c =>
      (O.unmarshalTime v c.CreatedAt).map (fun t => { c with CreatedAt := t })),
   ("SESSION_FIELDS", fun v c =>
      (unmarshalSessionFields v c.SessionFields).map (fun x => { c with SessionFields := x })),
   ("FOLLOWED", fun v c => (unmarshalBool v c.Followed).map (fun b => { c with Followed := b })),
   ("ONLINE", fun v c => (unmarshalBool v c.Online).map (fun b => { c with Online := b })),
   ("STATE", fun v c => (unmarshalString v c.State).map (fun x => { c with State := x })),
   ("GROUP_IDS", fun v c =>
      (unmarshalInts v c.GroupIDs).map (fun x => { c with GroupIDs := x }))]
  ++ (User.fields O).viaPtr (User.zero O) (fun c => c.User) (fun c u => { c with User := some u })

/-- The field setter of `Customer`. -/
def Customer.setField (O : Objects) : String → JSON → Customer O → Option (Customer O) :=
  (Customer.fields O).set

/-- Decoding by `json.Unmarshal(u, &a)` for a fresh `var a Agent`. -/
def unmarshalAgent (O : Objects) (j : JSON) : Option (Agent O) :=
  unmarshalStruct (Agent.setField O) j (Agent.zero O)

/-- Decoding by `json.Unmarshal(u, &cu)` for a fresh `var cu Customer`. -/
def unmarshalCustomer (O : Objects) (j : JSON) : Option (Customer O) :=
  unmarshalStruct (Customer.setField O) j (Customer.zero O)

/-- A LiveChat chat (`Chat`); a `nil` entry of a map is `none`. -/
structure Chat (O : Objects) where
  ID : String
  Properties : O.Properties
  Access : O.Access
  Thread : O.Thread
  Threads : Slice O.Thread
  IsFollowed : Bool
  Agents : GoMap (Option (Agent O))
  Customers : GoMap (Option (Customer O))

/-- The zero value of `Chat`. -/
def Chat.zero (O : Objects) : Chat O :=
  { ID := "", Properties := O.zeroProperties, Access := O.zeroAccess, Thread := O.zeroThread,
    Threads := Slice.empty, IsFollowed := false, Agents := [], Customers := [] }

/-- Decoding by `json.Unmarshal` into a map of pointers: every value is decoded into a
fresh element, then stored under its key. -/
def unmarshalPtrMap {σ : Type} (setField : String → JSON → σ → Option σ) (zero : σ)
    (j : JSON) (cur : GoMap (Option σ)) : Option (GoMap (Option σ)) :=
  match j with
  | .null => some []
  | .obj kvs =>
    kvs.foldlM
      (fun m kv => (unmarshalPtr setField zero kv.2 none).map (fun p => GoMap.insert m kv.1 p))
      cur
  | _ => none

/-- The fields of `ChatAlias`, the method-less copy of `Chat` that the default
struct decoding fills; `Agents` and `Customers` carry no tag and go by their Go
names. -/
def Chat.fields (O : Objects) : Fields (Chat O) :=
  [("ID", fun v c => (unmarshalString v c.ID).map (fun s => { c with ID := s })),
   ("PROPERTIES", fun v c =>
      (O.unmarshalProperties v c.Properties).map (fun x => { c with Properties := x })),
   ("ACCESS", fun v c => (O.unmarshalAccess v c.Access).map (fun x => { c with Access := x })),
   ("THREAD", fun v c => (O.unmarshalThread v c.Thread).map (fun x => { c with Thread := x })),
   ("THREADS", fun v c =>
      (unmarshalSlice O.unmarshalThread O.zeroThread v c.Threads).map
        (fun x => { c with Threads := x })),
   ("IS_FOLLOWED", fun v c =>
      (unmarshalBool v c.IsFollowed).map (fun b => { c with IsFollowed := b })),
   ("AGENTS", fun v c =>
      (unmarshalPtrMap (Agent.setField O) (Agent.zero O) v c.Agents).map
        (fun m => { c with Agents := m })),
   ("CUSTOMERS", fun v c =>
      (unmarshalPtrMap (Customer.setField O) (Customer.zero O) v c.Customers).map
        (fun m => { c with Customers := m }))]

/-- The local struct `cs` of `Chat.UnmarshalJSON`: the embedded `*ChatAlias`
and the raw elements of `users`. -/
structure CS (O : Objects) where
  ChatAlias : Option (Chat O)
  Users : List JSON

/-- Decoding by `json.Unmarshal` into a `[]json.RawMessage`: every element, `null`
included, is stored as its encoded value. -/
def unmarshalRawMessages (j : JSON) : Option (List JSON) :=
  match j with
  | .null => some []
  | .arr xs => some xs
  | _ => none

/-- The fields of `cs`: `users` is its own field, the fields of `Chat` are
promoted through the embedded `*ChatAlias`. -/
def CS.fields (O : Objects) : Fields (CS O) :=
  [("USERS", fun v cs => (unmarshalRawMessages v).map (fun us => { cs with Users := us }))]
  ++ (Chat.fields O).viaPtr (Chat.zero O) (fun cs => cs.ChatAlias)
      (fun cs c => { cs with ChatAlias := some c })

/-- The field setter of `cs`. -/
def CS.setField (O : Objects) : String → JSON → CS O → Option (CS O) :=
  (CS.fields O).set

/-- Decoding by `json.Unmarshal(data, &cs)` for the fresh `cs`. -/
def unmarshalCS (O : Objects) (data : RawMessage) : Option (CS O) :=
  Unmarshal (unmarshalStruct (CS.setField O)) data ⟨none, []⟩

/-- The field setter of the local struct `t`, whose only field is `Type`. -/
def tagSetField (fk : String) (v : JSON) (t : String) : Option String :=
  if fk = "TYPE" then unmarshalString v t else some t

/-- Decoding by `json.Unmarshal(u, &t)`: `t` is declared before the loop, so `cur` is the
type left there by the elements decoded so far. -/
def unmarshalTag (u : JSON) (cur : String) : Option String :=
  unmarshalStruct tagSetField u cur

/-- How a call ends: it returns a value, it returns an error, or it panics on
a nil pointer dereference. -/
inductive Outcome (α : Type) where
  | ok (a : α)
  | error
  | panic

/-- The variables the loop over `cs.Users` updates: `t.Type`, `c.Agents` and
`c.Customers`. -/
structure LoopState (O : Objects) where
  Type_ : String
  Agents : GoMap (Option (Agent O))
  Customers : GoMap (Option (Customer O))

/-- One iteration of the loop over `cs.Users`.  Reading `a.ID` or `cu.ID`
dereferences the embedded `*User`. -/
def usersStep (O : Objects) (st : LoopState O) (u : JSON) : Outcome (LoopState O) :=
  match unmarshalTag u st.Type_ with
  | none => .error
  | some ty =>
    if ty = "agent" then
      match unmarshalAgent O u with
      | none => .error
      | some a =>
        match a.User with
        | none => .panic
        | some usr => .ok { st with Type_ := ty, Agents := st.Agents.insert usr.ID (some a) }
    else if ty = "customer" then
      match unmarshalCustomer O u with
      | none => .error
      | some cu =>
        match cu.User with
        | none => .panic
        | some usr =>
          .ok { st with Type_ := ty, Customers := st.Customers.insert usr.ID (some cu) }
    else .ok { st with Type_ := ty }

/-- The loop `for _, u := range cs.Users`. -/
def usersLoop (O : Objects) : LoopState O → List JSON → Outcome (LoopState O)
  | st, [] => .ok st
  | st, u :: us =>
    match usersStep O st u with
    | .ok st1 => usersLoop O st1 us
    | .error => .error
    | .panic => .panic

/-- Method `Chat.UnmarshalJSON`: the chat it stores in `*c` when it returns `nil`.
`*cs.ChatAlias` dereferences the embedded pointer.  What `*c` holds when an
error is returned is not part of the outcome. -/
def Chat.UnmarshalJSON (O : Objects) (data : RawMessage) : Outcome (Chat O) :=
  match unmarshalCS O data with
  | none => .error
  | some cs =>
    match cs.ChatAlias with
    | none => .panic
    | some ca =>
      match usersLoop O ⟨"", [], []⟩ cs.Users with
      | .ok st => .ok { ca with Agents := st.Agents, Customers := st.Customers }
      | .error => .error
      | .panic => .panic

/-- One `for _, a := range m` loop of `Chat.Users` over the entries in the
order `range` visits them: the embedded `*User` of every entry is appended;
reading it dereferences the entry. -/
def rangeUsers {O : Objects} {α : Type} (user : α → Option (User O)) :
    List (String × Option α) → List (Option (User O)) → Outcome (List (Option (User O)))
  | [], acc => .ok acc
  | (_, none) :: _, _ => .panic
  | (_, some a) :: rest, acc => rangeUsers user rest (acc ++ [user a])

/-- Method `Chat.Users`: the receiver after the call and the returned slice.
The order in which `range` visits a Go map is unspecified: `agents` and
`customers` are the entries of `c.Agents` and `c.Customers` in the order of the
visit. -/
def Chat.Users {O : Objects} (c : Chat O) (agents : List (String × Option (Agent O)))
    (customers : List (String × Option (Customer O))) :
    Outcome (Chat O × List (Option (User O))) :=
  match rangeUsers (fun a => a.User) agents [] with
  | .ok u =>
    match rangeUsers (fun cu => cu.User) customers u with
    | .ok u1 => .ok (c, u1)
    | .error => .error
    | .panic => .panic
  | .error => .error
  | .panic => .panic

/-- The embedded `*User` of every entry of the two maps of a chat. -/
def Chat.embeddedUsers {O : Objects} (c : Chat O) : List (Option (User O)) :=
  c.Agents.map (fun p => p.2.bind (fun a => a.User)) ++
    c.Customers.map (fun p => p.2.bind (fun cu => cu.User))

end agent

/-! ## Package `customer`: events -/

namespace customer

/-- Function `unmarshalOptionalRawField`: a `nil` source leaves the target as it is. -/
def unmarshalOptionalRawField {α : Type} (dec : JSON → α → Option α) (source : RawMessage)
    (cur : α) : Option α :=
  match source with
  | .nil => some cur
  | _ => Unmarshal dec source cur

/-- The variant-specific fields of an event, kept as raw fragments
(`eventSpecific`). -/
structure eventSpecific where
  Text : RawMessage
  Fields : RawMessage
  ContentType : RawMessage
  URL : RawMessage
  Width : RawMessage
  Height : RawMessage
  Name : RawMessage
  TemplateID : RawMessage
  Elements : RawMessage
  Postback : RawMessage
  AlternativeText : RawMessage

/-- The base of all chat events (`Event`); `Type_` is the Go field `Type`. -/
structure Event (O : Objects) extends eventSpecific where
  ID : String
  CustomID : String
  CreatedAt : O.Time
  AuthorID : String
  Properties : O.Properties
  Recipients : String
  Type_ : String

/-- The zero value of `Event`. -/
def Event.zero (O : Objects) : Event O :=
  { Text := .nil, Fields := .nil, ContentType := .nil, URL := .nil, Width := .nil,
    Height := .nil, Name := .nil, TemplateID := .nil, Elements := .nil, Postback := .nil,
    AlternativeText := .nil, ID := "", CustomID := "", CreatedAt := O.zeroTime, AuthorID := "",
    Properties := O.zeroProperties, Recipients := "", Type_ := "" }

/-- The fields of `Event`: the common fields are decoded, the fields of the
embedded `eventSpecific` store the encoded value as it is. -/
def Event.fields (O : Objects) : Fields (Event O) :=
  [("ID", fun v e => (unmarshalString v e.ID).map (fun s => { e with ID := s })),
   ("CUSTOM_ID", fun v e =>
      (unmarshalString v e.CustomID).map (fun s => { e with CustomID := s })),
   ("CREATED_AT", fun v e =>
      (O.unmarshalTime v e.CreatedAt).map (fun t => { e with CreatedAt := t })),
   ("AUTHOR_ID", fun v e =>
      (unmarshalString v e.AuthorID).map (fun s => { e with AuthorID := s })),
   ("PROPERTIES", fun v e =>
      (O.unmarshalProperties v e.Properties).map (fun x => { e with Properties := x })),
   ("RECIPIENTS", fun v e =>
      (unmarshalString v e.Recipients).map (fun s => { e with Recipients := s })),
   ("TYPE", fun v e => (unmarshalString v e.Type_).map (fun s => { e with Type_ := s })),
   ("TEXT", fun v e => some { e with Text := .valid v }),
   ("FIELDS", fun v e => some { e with Fields := .valid v }),
   ("CONTENT_TYPE", fun v e => some { e with ContentType := .valid v }),
   ("URL", fun v e => some { e with URL := .valid v }),
   ("WIDTH", fun v e => some { e with Width := .valid v }),
   ("HEIGHT", fun v e => some { e with Height := .valid v }),
   ("NAME", fun v e => some { e with Name := .valid v }),
   ("TEMPLATE_ID", fun v e => some { e with TemplateID := .valid v }),
   ("ELEMENTS", fun v e => some { e with Elements := .valid v }),
   ("POSTBACK", fun v e => some { e with Postback := .valid v }),
   ("ALTERNATIVE_TEXT", fun v e => some { e with AlternativeText := .valid v })]

/-- The field setter of `Event`. -/
def Event.setField (O : Objects) : String → JSON → Event O → Option (Event O) :=
  (Event.fields O).set

/-- Decoding by `json.Unmarshal` of a JSON value into an `Event`. -/
def unmarshalEvent (O : Objects) (j : JSON) (cur : Event O) : Option (Event O) :=
  unmarshalStruct (Event.setField O) j cur

/-- One entry of `FilledForm.Fields`. -/
structure FilledFormField where
  Label : String
  Type_ : String
  Value : String

/-- The field setter of an entry of `FilledForm.Fields`. -/
def FilledFormField.setField (fk : String) (v : JSON) (f : FilledFormField) :
    Option FilledFormField :=
  if fk = "LABEL" then (unmarshalString v f.Label).map (fun s => { f with Label := s })
  else if fk = "TYPE" then (unmarshalString v f.Type_).map (fun s => { f with Type_ := s })
  else if fk = "VALUE" then (unmarshalString v f.Value).map (fun s => { f with Value := s })
  else some f

/-- A filled form event (`FilledForm`). -/
structure FilledForm (O : Objects) where
  Fields : Slice FilledFormField
  Event : Event O

/-- Method `Event.FilledForm`: converts the event to a `FilledForm` if its type is
"filled_form"; `none` is the `nil` result. -/
def Event.FilledForm {O : Objects} (e : Event O) : Option (FilledForm O) :=
  if e.Type_ ≠ "filled_form" then none
  else
    match Unmarshal (unmarshalSlice (unmarshalStruct FilledFormField.setField) ⟨"", "", ""⟩)
        e.Fields Slice.empty with
    | none => none
    | some fields => some { Fields := fields, Event := e }

/-- Postback data of a message event (`Postback`). -/
structure Postback where
  ID : String
  ThreadID : String
  EventID : String
  Type_ : String
  Value : String

/-- The field setter of `Postback`. -/
def Postback.setField (fk : String) (v : JSON) (p : Postback) : Option Postback :=
  if fk = "ID" then (unmarshalString v p.ID).map (fun s => { p with ID := s })
  else if fk = "THREAD_ID" then (unmarshalString v p.ThreadID).map (fun s => { p with ThreadID := s })
  else if fk = "EVENT_ID" then (unmarshalString v p.EventID).map (fun s => { p with EventID := s })
  else if fk = "TYPE" then (unmarshalString v p.Type_).map (fun s => { p with Type_ := s })
  else if fk = "VALUE" then (unmarshalString v p.Value).map (fun s => { p with Value := s })
  else some p

/-- A message event (`Message`). -/
structure Message (O : Objects) where
  Event : Event O
  Text : String
  Postback : Option Postback

/-- Method `Event.Message`: converts the event to a `Message` if its type is
"message"; `none` is the `nil` result. -/
def Event.Message {O : Objects} (e : Event O) : Option (Message O) :=
  if e.Type_ ≠ "message" then none
  else
    match Unmarshal unmarshalString e.Text "" with
    | none => none
    | some text =>
      match unmarshalOptionalRawField (unmarshalPtr Postback.setField ⟨"", "", "", "", ""⟩)
          e.Postback none with
      | none => none
      | some postback => some { Event := e, Text := text, Postback := postback }

/-- A system message event (`SystemMessage`); the source has no function that
converts an `Event` to it. -/
structure SystemMessage (O : Objects) where
  Event : Event O
  Type_ : String
  Text : String
  TextVars : GoMap String

/-- A file event (`File`). -/
structure File (O : Objects) where
  Event : Event O
  ContentType : String
  URL : String
  Width : Int
  Height : Int
  Name : String
  AlternativeText : String

/-- Method `Event.File`: converts the event to a `File` if its type is "file";
`none` is the `nil` result. -/
def Event.File {O : Objects} (e : Event O) : Option (File O) :=
  if e.Type_ ≠ "file" then none
  else
    match Unmarshal unmarshalString e.ContentType "" with
    | none => none
    | some contentType =>
    match Unmarshal unmarshalString e.URL "" with
    | none => none
    | some url =>
    match unmarshalOptionalRawField unmarshalInt e.Width 0 with
    | none => none
    | some width =>
    match unmarshalOptionalRawField unmarshalInt e.Height 0 with
    | none => none
    | some height =>
    match Unmarshal unmarshalString e.Name "" with
    | none => none
    | some name =>
    match unmarshalOptionalRawField unmarshalString e.AlternativeText "" with
    | none => none
    | some alt =>
      some { Event := e, ContentType := contentType, URL := url, Width := width,
             Height := height, Name := name, AlternativeText := alt }

/-- A button of a rich message (`RichMessageButton`). -/
structure RichMessageButton where
  Text : String
  Type_ : String
  UserIds : Slice String
  Value : String
  PostbackID : String
  WebviewHeight : String
  Target : String

/-- The image of a rich message element (`RichMessageImage`). -/
structure RichMessageImage where
  Name : String
  URL : String
  ContentType : String
  Size : Int
  Width : Int
  Height : Int
  AlternativeText : String

/-- An element of a rich message (`RichMessageElement`). -/
structure RichMessageElement where
  Buttons : Slice RichMessageButton
  Title : String
  Subtitle : String
  Image : Option RichMessageImage

/-- The field setter of `RichMessageButton`. -/
def RichMessageButton.setField (fk : String) (v : JSON) (b : RichMessageButton) :
    Option RichMessageButton :=
  if fk = "TEXT" then (unmarshalString v b.Text).map (fun s => { b with Text := s })
  else if fk = "TYPE" then (unmarshalString v b.Type_).map (fun s => { b with Type_ := s })
  else if fk = "USER_IDS" then
    (unmarshalSlice unmarshalString "" v b.UserIds).map (fun x => { b with UserIds := x })
  else if fk = "VALUE" then (unmarshalString v b.Value).map (fun s => { b with Value := s })
  else if fk = "POSTBACK_ID" then
    (unmarshalString v b.PostbackID).map (fun s => { b with PostbackID := s })
  else if fk = "WEBVIEW_HEIGHT" then
    (unmarshalString v b.WebviewHeight).map (fun s => { b with WebviewHeight := s })
  else if fk = "TARGET" then (unmarshalString v b.Target).map (fun s => { b with Target := s })
  else some b

/-- The field setter of `RichMessageImage`. -/
def RichMessageImage.setField (fk : String) (v : JSON) (i : RichMessageImage) :
    Option RichMessageImage :=
  if fk = "NAME" then (unmarshalString v i.Name).map (fun s => { i with Name := s })
  else if fk = "URL" then (unmarshalString v i.URL).map (fun s => { i with URL := s })
  else if fk = "CONTENT_TYPE" then
    (unmarshalString v i.ContentType).map (fun s => { i with ContentType := s })
  else if fk = "SIZE" then (unmarshalInt v i.Size).map (fun n => { i with Size := n })
  else if fk = "WIDTH" then (unmarshalInt v i.Width).map (fun n => { i with Width := n })
  else if fk = "HEIGHT" then (unmarshalInt v i.Height).map (fun n => { i with Height := n })
  else if fk = "ALTERNATIVE_TEXT" then
    (unmarshalString v i.AlternativeText).map (fun s => { i with AlternativeText := s })
  else some i

/-- The field setter of `RichMessageElement`. -/
def RichMessageElement.setField (fk : String) (v : JSON) (e : RichMessageElement) :
    Option RichMessageElement :=
  if fk = "BUTTONS" then
    (unmarshalSlice (unmarshalStruct RichMessageButton.setField)
      ⟨"", "", Slice.empty, "", "", "", ""⟩ v e.Buttons).map (fun x => { e with Buttons := x })
  else if fk = "TITLE" then (unmarshalString v e.Title).map (fun s => { e with Title := s })
  else if fk = "SUBTITLE" then
    (unmarshalString v e.Subtitle).map (fun s => { e with Subtitle := s })
  else if fk = "IMAGE" then
    (unmarshalPtr RichMessageImage.setField ⟨"", "", "", 0, 0, 0, ""⟩ v e.Image).map
      (fun x => { e with Image := x })
  else some e

/-- A rich message event (`RichMessage`). -/
structure RichMessage (O : Objects) where
  Event : Event O
  TemplateID : String
  Elements : Slice RichMessageElement

/-- Method `Event.RichMessage`: converts the event to a `RichMessage` if its type is
"rich_message"; `none` is the `nil` result. -/
def Event.RichMessage {O : Objects} (e : Event O) : Option (RichMessage O) :=
  if e.Type_ ≠ "rich_message" then none
  else
    match Unmarshal unmarshalString e.TemplateID "" with
    | none => none
    | some templateID =>
      match Unmarshal
          (unmarshalSlice (unmarshalStruct RichMessageElement.setField)
            ⟨Slice.empty, "", "", none⟩)
          e.Elements Slice.empty with
      | none => none
      | some elements => some { Event := e, TemplateID := templateID, Elements := elements }

end customer

/-! ## Vocabulary of the statements -/

/-- A small instance of `Objects` for concrete payloads: a time is kept as its
text, the other types carry no data and accept `null` and objects. -/
def sampleObjects : Objects :=
  { Time := String, Visit := Unit, Properties := Unit, Access := Unit, Thread := Unit,
    zeroTime := "", zeroVisit := (), zeroProperties := (), zeroAccess := (), zeroThread := (),
    unmarshalTime := unmarshalString,
    unmarshalVisit := fun j c => match j with | .null => some c | .obj _ => some c | _ => none,
    unmarshalProperties := fun j c =>
      match j with | .null => some c | .obj _ => some c | _ => none,
    unmarshalAccess := fun j c => match j with | .null => some c | .obj _ => some c | _ => none,
    unmarshalThread := fun j c => match j with | .null => some c | .obj _ => some c | _ => none }

/-- The value has the shape of a string field: a string or `null`. -/
def JSON.stringShaped : JSON → Bool
  | .null => true
  | .str _ => true
  | _ => false

/-- The value has the shape of a bool field: a boolean or `null`. -/
def JSON.boolShaped : JSON → Bool
  | .null => true
  | .bool _ => true
  | _ => false

/-- The value has the shape of a slice field: an array or `null`. -/
def JSON.arrayShaped : JSON → Bool
  | .null => true
  | .arr _ => true
  | _ => false

/-- The value has the shape of a struct field: an object or `null`. -/
def JSON.objectShaped : JSON → Bool
  | .null => true
  | .obj _ => true
  | _ => false

/-- The value an object gives a field: the value of its last key that reads as
the folded name `name`. -/
def JSON.field (name : String) : JSON → Option JSON
  | .obj kvs => (kvs.reverse.find? (fun kv => decide (foldName kv.1 = name))).map Prod.snd
  | _ => none

/-- The fragment is absent (or is no JSON value at all), or it holds a value
that has not the given shape. -/
def RawMessage.lacks (shaped : JSON → Bool) : RawMessage → Bool
  | .valid j => !(shaped j)
  | _ => true

namespace agent

/-- The type tag an element of `users` carries by itself: what
`json.Unmarshal(u, &t)` leaves in a fresh `t`. -/
def elemType (u : JSON) : Option String := unmarshalTag u ""

/-- Some key of the object reads as `type` and holds a string. -/
def hasStringTag (kvs : List (String × JSON)) : Bool :=
  kvs.any (fun kv => decide (foldName kv.1 = "TYPE") && kv.2 matches .str _)

/-- The element is an object with a string under a key that reads as `type`. -/
def carriesType : JSON → Bool
  | .obj kvs => hasStringTag kvs
  | _ => false

/-- The element is an object with a key that reads as `id`. -/
def carriesID : JSON → Bool
  | .obj kvs => kvs.any (fun kv => decide (foldName kv.1 = "ID"))
  | _ => false

/-- The identity under which the element is stored when it is decoded as an
agent. -/
def agentKey (O : Objects) (u : JSON) : Option String :=
  match unmarshalAgent O u with
  | some a => a.User.map (fun usr => usr.ID)
  | none => none

/-- The identity under which the element is stored when it is decoded as a
customer. -/
def customerKey (O : Objects) (u : JSON) : Option String :=
  match unmarshalCustomer O u with
  | some cu => cu.User.map (fun usr => usr.ID)
  | none => none

/-- The element carries one of the two recognized type tags. -/
def recognized (u : JSON) : Bool :=
  decide (elemType u = some "agent") || decide (elemType u = some "customer")

/-- A variant-specific field of the wrong shape, for the variant of the given
tag: `fk` is the folded key, `v` its value. -/
def variantIllShaped (tag : String) (fk : String) (v : JSON) : Bool :=
  if tag = "agent" then
    decide (fk = "ROUTING_STATUS" ∨ fk = "VISIBILITY") && !v.stringShaped
  else if tag = "customer" then
    (decide (fk = "EMAIL_VERIFIED" ∨ fk = "FOLLOWED" ∨ fk = "ONLINE") && !v.boolShaped)
    || (decide (fk = "STATE") && !v.stringShaped)
    || (decide (fk = "SESSION_FIELDS" ∨ fk = "GROUP_IDS") && !v.arrayShaped)
    || (decide (fk = "STATISTICS") && !v.objectShaped)
  else false

/-- An ill-typed common field: `fk` is the folded key, `v` its value. -/
def commonIllTyped (fk : String) (v : JSON) : Bool :=
  (decide (fk = "ID" ∨ fk = "TYPE" ∨ fk = "NAME" ∨ fk = "AVATAR" ∨ fk = "EMAIL")
    && !v.stringShaped)
  || (decide (fk = "PRESENT") && !v.boolShaped)

/-- A structurally corrupt element: a boolean, number, string or array, or an
object that carries a recognized tag and has an ill-typed common field. -/
def corruptElement : JSON → Bool
  | .null => false
  | .obj kvs =>
    recognized (.obj kvs) && kvs.any (fun kv => commonIllTyped (foldName kv.1) kv.2)
  | _ => true

/-- Two elements of which one carries the tag "agent" and the other the tag
"customer" have different identities. -/
def apartAcross (O : Objects) (u v : JSON) : Prop :=
  (elemType u = some "agent" → elemType v = some "customer" →
    agentKey O u ≠ customerKey O v) ∧
  (elemType u = some "customer" → elemType v = some "agent" →
    customerKey O u ≠ agentKey O v)

/-- Two elements that carry the same recognized tag have different
identities. -/
def apartWithin (O : Objects) (u v : JSON) : Prop :=
  (elemType u = some "agent" → elemType v = some "agent" → agentKey O u ≠ agentKey O v) ∧
  (elemType u = some "customer" → elemType v = some "customer" →
    customerKey O u ≠ customerKey O v)

instance (O : Objects) (u v : JSON) : Decidable (apartAcross O u v) :=
  inferInstanceAs (Decidable
    ((elemType u = some "agent" → elemType v = some "customer" →
        agentKey O u ≠ customerKey O v) ∧
     (elemType u = some "customer" → elemType v = some "agent" →
        customerKey O u ≠ agentKey O v)))

instance (O : Objects) (u v : JSON) : Decidable (apartWithin O u v) :=
  inferInstanceAs (Decidable
    ((elemType u = some "agent" → elemType v = some "agent" → agentKey O u ≠ agentKey O v) ∧
     (elemType u = some "customer" → elemType v = some "customer" →
       customerKey O u ≠ customerKey O v)))

/-- The `cs` decoded from a payload over `sampleObjects`. -/
def sampleCS (data : RawMessage) : CS sampleObjects :=
  (unmarshalCS sampleObjects data).getD ⟨none, []⟩

/-- The chat decoded from a payload over `sampleObjects`. -/
def sampleChat (data : RawMessage) : Chat sampleObjects :=
  match Chat.UnmarshalJSON sampleObjects data with
  | .ok c => c
  | _ => Chat.zero sampleObjects

/-- The chat payload with the given `users`: `{"id":"ch1","users":[...]}`. -/
def chatPayload (users : List JSON) : RawMessage :=
  .valid (.obj [("id", .str "ch1"), ("users", .arr users)])

/-- The JSON value `{"type":"agent","id":"a1","routing_status":"accepting_chats"}` -/
def agentA1 : JSON :=
  .obj [("type", .str "agent"), ("id", .str "a1"), ("routing_status", .str "accepting_chats")]

/-- The JSON value `{"type":"agent","id":"a1","routing_status":"offline"}` -/
def agentA1Offline : JSON :=
  .obj [("type", .str "agent"), ("id", .str "a1"), ("routing_status", .str "offline")]

/-- The JSON value `{"type":"agent","id":"a2","routing_status":5}` -/
def agentA2Corrupt : JSON :=
  .obj [("type", .str "agent"), ("id", .str "a2"), ("routing_status", .int 5)]

/-- The JSON value `{"type":"agent","id":7}` -/
def agentNumericID : JSON := .obj [("type", .str "agent"), ("id", .int 7)]

/-- The JSON value `{"type":"customer","id":"c1","email_verified":true}` -/
def customerC1 : JSON :=
  .obj [("type", .str "customer"), ("id", .str "c1"), ("email_verified", .bool true)]

/-- The JSON value `{"type":"customer","id":"a1","email_verified":true}` -/
def customerA1 : JSON :=
  .obj [("type", .str "customer"), ("id", .str "a1"), ("email_verified", .bool true)]

/-- The JSON value `{"type":"unknown_future_type","id":"x1"}` -/
def unknownX1 : JSON := .obj [("type", .str "unknown_future_type"), ("id", .str "x1")]

/-- The JSON value `{"type":"unknown_future_type","id":5}` -/
def unknownNumericID : JSON := .obj [("type", .str "unknown_future_type"), ("id", .int 5)]

/-- The JSON value `{"id":"x1"}` -/
def untaggedX1 : JSON := .obj [("id", .str "x1")]

end agent

namespace customer

/-- The event decoded from a payload over `sampleObjects`. -/
def sampleEvent (j : JSON) : Event sampleObjects :=
  (unmarshalEvent sampleObjects j (Event.zero sampleObjects)).getD (Event.zero sampleObjects)

/-- The JSON value `{"type":"message","author_id":"u1","text":"hi"}` -/
def messageHi : JSON :=
  .obj [("type", .str "message"), ("author_id", .str "u1"), ("text", .str "hi")]

/-- The JSON value `{"type":"message","author_id":"u1","text":5}` -/
def messageNumericText : JSON :=
  .obj [("type", .str "message"), ("author_id", .str "u1"), ("text", .int 5)]

/-- The JSON value `{"type":"file","author_id":"u1","content_type":"image/png","url":"y.png","name":"y"}` -/
def fileNoSize : JSON :=
  .obj [("type", .str "file"), ("author_id", .str "u1"), ("content_type", .str "image/png"),
    ("url", .str "y.png"), ("name", .str "y")]

end customer

namespace agent

/-- The embedded `*User` of the element decoded as an agent. -/
def agentUser (O : Objects) (u : JSON) : Option (User O) :=
  (unmarshalAgent O u).bind (fun a => a.User)

/-- The embedded `*User` of the element decoded as a customer. -/
def customerUser (O : Objects) (u : JSON) : Option (User O) :=
  (unmarshalCustomer O u).bind (fun cu => cu.User)

end agent

/-! ### Envelopes and their fragments -/

/-- The object without the keys that do not read as one of `names`; a value
that is no object is left as it is. -/
def JSON.restrict (names : List String) : JSON → JSON
  | .obj kvs => .obj (kvs.filter (fun kv => decide (foldName kv.1 ∈ names)))
  | j => j

/-- No two keys of the object read as the same name. -/
def JSON.keysDistinct : JSON → Prop
  | .obj kvs => (kvs.map (fun kv => foldName kv.1)).Nodup
  | _ => True

namespace agent

/-- The folded JSON names of the common fields of `User`. -/
def User.commonNames : List String :=
  ["ID", "TYPE", "NAME", "AVATAR", "EMAIL", "PRESENT", "EVENTS_SEEN_UP_TO"]

/-- The folded JSON names of the fragments of `userSpecific`. -/
def User.fragmentNames : List String :=
  ["ROUTING_STATUS", "LAST_VISIT", "STATISTICS", "AGENT_LAST_EVENT_CREATED_AT",
   "CUSTOMER_LAST_EVENT_CREATED_AT", "SESSION_FIELDS", "FOLLOWED", "ONLINE", "STATE",
   "GROUP_IDS", "EMAIL_VERIFIED", "CREATED_AT", "VISIBILITY"]

/-- The common fields of a user. -/
def User.common {O : Objects} (u : User O) :
    String × String × String × String × String × Bool × O.Time :=
  (u.ID, u.Type_, u.Name, u.Avatar, u.Email, u.Present, u.EventsSeenUpTo)

/-- The fragment of `userSpecific` that goes by the folded JSON name `name`. -/
def userSpecific.fragment (name : String) (s : userSpecific) : RawMessage :=
  if name = "ROUTING_STATUS" then s.RoutingStatus
  else if name = "LAST_VISIT" then s.LastVisit
  else if name = "STATISTICS" then s.Statistics
  else if name = "AGENT_LAST_EVENT_CREATED_AT" then s.AgentLastEventCreatedAt
  else if name = "CUSTOMER_LAST_EVENT_CREATED_AT" then s.CustomerLastEventCreatedAt
  else if name = "SESSION_FIELDS" then s.SessionFields
  else if name = "FOLLOWED" then s.Followed
  else if name = "ONLINE" then s.Online
  else if name = "STATE" then s.State
  else if name = "GROUP_IDS" then s.GroupIDs
  else if name = "EMAIL_VERIFIED" then s.EmailVerified
  else if name = "CREATED_AT" then s.CreatedAt
  else if name = "VISIBILITY" then s.Visibility
  else .nil

end agent

namespace customer

/-- The folded JSON names of the common fields of `Event`. -/
def Event.commonNames : List String :=
  ["ID", "CUSTOM_ID", "CREATED_AT", "AUTHOR_ID", "PROPERTIES", "RECIPIENTS", "TYPE"]

/-- The folded JSON names of the fragments of `eventSpecific`. -/
def Event.fragmentNames : List String :=
  ["TEXT", "FIELDS", "CONTENT_TYPE", "URL", "WIDTH", "HEIGHT", "NAME", "TEMPLATE_ID",
   "ELEMENTS", "POSTBACK", "ALTERNATIVE_TEXT"]

/-- The common fields of an event. -/
def Event.common {O : Objects} (e : Event O) :
    String × String × O.Time × String × O.Properties × String × String :=
  (e.ID, e.CustomID, e.CreatedAt, e.AuthorID, e.Properties, e.Recipients, e.Type_)

/-- The fragment of `eventSpecific` that goes by the folded JSON name `name`. -/
def eventSpecific.fragment (name : String) (s : eventSpecific) : RawMessage :=
  if name = "TEXT" then s.Text
  else if name = "FIELDS" then s.Fields
  else if name = "CONTENT_TYPE" then s.ContentType
  else if name = "URL" then s.URL
  else if name = "WIDTH" then s.Width
  else if name = "HEIGHT" then s.Height
  else if name = "NAME" then s.Name
  else if name = "TEMPLATE_ID" then s.TemplateID
  else if name = "ELEMENTS" then s.Elements
  else if name = "POSTBACK" then s.Postback
  else if name = "ALTERNATIVE_TEXT" then s.AlternativeText
  else .nil

end customer

namespace agent

/-- The element `{"type":"agent","id":"a1","routing_status":"accepting_chats","visibility":"all"}`. -/
def agentFull : JSON :=
  .obj [("type", .str "agent"), ("id", .str "a1"), ("routing_status", .str "accepting_chats"),
    ("visibility", .str "all")]

/-- A customer element that carries every fragment, with `group_ids` `[1,2]`. -/
def customerFull : JSON :=
  .obj [("type", .str "customer"), ("id", .str "c1"), ("last_visit", .obj []),
    ("statistics", .obj [("chats_count", .int 3)]),
    ("agent_last_event_created_at", .str "2020-01-01T00:00:00Z"),
    ("customer_last_event_created_at", .str "2020-01-02T00:00:00Z"),
    ("email_verified", .bool true), ("created_at", .str "2019-12-31T00:00:00Z"),
    ("followed", .bool false), ("online", .bool true), ("state", .str "chatting"),
    ("session_fields", .arr [.obj [("k", .str "v")]]), ("group_ids", .arr [.int 1, .int 2])]

/-- The user decoded from a payload over `sampleObjects`. -/
def sampleUser (j : JSON) : User sampleObjects :=
  (unmarshalUser sampleObjects j (User.zero sampleObjects)).getD (User.zero sampleObjects)

end agent

instance JSON.instDecidableKeysDistinct (j : JSON) : Decidable j.keysDistinct :=
  match j with
  | .obj kvs => inferInstanceAs (Decidable ((kvs.map (fun kv : String × JSON => foldName kv.1)).Nodup))
  | .null => isTrue trivial
  | .bool _ => isTrue trivial
  | .int _ => isTrue trivial
  | .float _ => isTrue trivial
  | .str _ => isTrue trivial
  | .arr _ => isTrue trivial

/-! ## Encoding with the struct tags -/

/-- Encoding by `json.Marshal` of a `json.RawMessage`: `nil` is written as
`null`, an encoded value as it is, and bytes that are no JSON value are an
error. -/
def RawMessage.Marshal : RawMessage → Option JSON
  | .nil => some .null
  | .valid j => some j
  | .invalid => none

/-- The fragments that are not hidden by a shallower field of the same JSON
name, encoded in their order. -/
def marshalRaws (hidden : List String) : List (String × RawMessage) → Option (List (String × JSON))
  | [] => some []
  | (name, raw) :: rest =>
    if name ∈ hidden then marshalRaws hidden rest
    else
      match raw.Marshal with
      | none => none
      | some j =>
        match marshalRaws hidden rest with
        | none => none
        | some js => some ((name, j) :: js)

/-- The JSON encoders of `time.Time` and of `objects.Properties`, and the test
of `omitempty` for a value of `objects.Properties`. -/
structure Encoders (O : Objects) where
  marshalTime : O.Time → Option JSON
  marshalProperties : O.Properties → Option JSON
  emptyProperties : O.Properties → Bool

/-- The encoders that go with `sampleObjects`: a time is written as its text,
the properties are empty. -/
def sampleEncoders : Encoders sampleObjects :=
  { marshalTime := fun t => some (.str t),
    marshalProperties := fun _ => some (.obj []),
    emptyProperties := fun _ => true }

/-- A string field tagged `omitempty`. -/
def omitemptyString (name : String) (s : String) : List (String × JSON) :=
  if s = "" then [] else [(name, .str s)]

namespace agent

/-- The fragments of `userSpecific` with their JSON names, in the order of the
struct. -/
def userSpecific.rawFields (s : userSpecific) : List (String × RawMessage) :=
  [("routing_status", s.RoutingStatus), ("last_visit", s.LastVisit),
   ("statistics", s.Statistics),
   ("agent_last_event_created_at", s.AgentLastEventCreatedAt),
   ("customer_last_event_created_at", s.CustomerLastEventCreatedAt),
   ("session_fields", s.SessionFields), ("followed", s.Followed), ("online", s.Online),
   ("state", s.State), ("group_ids", s.GroupIDs), ("email_verified", s.EmailVerified),
   ("created_at", s.CreatedAt), ("visibility", s.Visibility)]

/-- The members that `json.Marshal` writes for a `User`, when the fragments
named in `hidden` are hidden by fields of the struct that embeds the user. -/
def User.marshalFields {O : Objects} (enc : Encoders O) (hidden : List String) (u : User O) :
    Option (List (String × JSON)) :=
  match enc.marshalTime u.EventsSeenUpTo with
  | none => none
  | some t =>
    match marshalRaws hidden u.touserSpecific.rawFields with
    | none => none
    | some raws =>
      some ([("id", .str u.ID), ("type", .str u.Type_), ("name", .str u.Name),
             ("avatar", .str u.Avatar), ("email", .str u.Email), ("present", .bool u.Present),
             ("events_seen_up_to", t)] ++ raws)

/-- Encoding by `json.Marshal` of an `Agent`: the members of the embedded user,
none if the pointer is nil, then `routing_status` and, unless it is empty,
`visibility`.  The two fragments of the user with these names are hidden. -/
def Agent.Marshal {O : Objects} (enc : Encoders O) (a : Agent O) : Option JSON :=
  match (match a.User with
         | none => some []
         | some u => User.marshalFields enc ["routing_status", "visibility"] u) with
  | none => none
  | some us =>
    some (.obj (us ++ [("routing_status", .str a.RoutingStatus)] ++
      omitemptyString "visibility" a.Visibility))

/-- The element `{"type":"agent","id":"a1","routing_status":"accepting_chats","visibility":""}`. -/
def agentEmptyVisibility : JSON :=
  .obj [("type", .str "agent"), ("id", .str "a1"), ("routing_status", .str "accepting_chats"),
    ("visibility", .str "")]

end agent

namespace customer

/-- The fragments of `eventSpecific` with their JSON names, in the order of the
struct. -/
def eventSpecific.rawFields (s : eventSpecific) : List (String × RawMessage) :=
  [("text", s.Text), ("fields", s.Fields), ("content_type", s.ContentType), ("url", s.URL),
   ("width", s.Width), ("height", s.Height), ("name", s.Name),
   ("template_id", s.TemplateID), ("elements", s.Elements), ("postback", s.Postback),
   ("alternative_text", s.AlternativeText)]

/-- The members that `json.Marshal` writes for an `Event`, when the fragments
named in `hidden` are hidden by fields of the struct that embeds the event.
A `time.Time` is a struct, so `omitempty` never drops `created_at`. -/
def Event.marshalFields {O : Objects} (enc : Encoders O) (hidden : List String) (e : Event O) :
    Option (List (String × JSON)) :=
  match enc.marshalTime e.CreatedAt with
  | none => none
  | some t =>
    match (if enc.emptyProperties e.Properties then some []
           else (enc.marshalProperties e.Properties).map (fun p => [("properties", p)])) with
    | none => none
    | some props =>
      match marshalRaws hidden e.toeventSpecific.rawFields with
      | none => none
      | some raws =>
        some (omitemptyString "id" e.ID ++ omitemptyString "custom_id" e.CustomID ++
          [("created_at", t), ("author_id", .str e.AuthorID)] ++ props ++
          omitemptyString "recipients" e.Recipients ++ omitemptyString "type" e.Type_ ++ raws)

/-- Encoding by `json.Marshal` of a `Postback`. -/
def Postback.Marshal (p : Postback) : JSON :=
  .obj ([("id", .str p.ID), ("thread_id", .str p.ThreadID), ("event_id", .str p.EventID)] ++
    omitemptyString "type" p.Type_ ++ omitemptyString "value" p.Value)

/-- Encoding by `json.Marshal` of a `Message`: the members of the embedded
event, then `text` unless it is empty and `postback` unless it is nil.  The two
fragments of the event with these names are hidden. -/
def Message.Marshal {O : Objects} (enc : Encoders O) (m : Message O) : Option JSON :=
  match Event.marshalFields enc ["text", "postback"] m.Event with
  | none => none
  | some es =>
    some (.obj (es ++ omitemptyString "text" m.Text ++
      (match m.Postback with
       | none => []
       | some p => [("postback", p.Marshal)])))

/-- The JSON value `{"type":"message","author_id":"u1","text":""}` -/
def messageEmptyText : JSON :=
  .obj [("type", .str "message"), ("author_id", .str "u1"), ("text", .str "")]

/-- The JSON value
`{"type":"system_message","author_id":"u1","system_message_type":"routing.assigned","text":"hi"}` -/
def systemMessageAssigned : JSON :=
  .obj [("type", .str "system_message"), ("author_id", .str "u1"),
    ("system_message_type", .str "routing.assigned"), ("text", .str "hi")]

end customer

namespace agent

/-- The user obtained by encoding an agent with `json.Marshal` and decoding the
result as a `User`. -/
def Agent.reUser {O : Objects} (enc : Encoders O) (a : Agent O) : Option (agent.User O) :=
  (a.Marshal enc).bind (fun j => unmarshalUser O j (User.zero O))

end agent

namespace customer

/-- The event obtained by encoding a message with `json.Marshal` and decoding
the result as an `Event`. -/
def Message.reEvent {O : Objects} (enc : Encoders O) (m : Message O) : Option (customer.Event O) :=
  (m.Marshal enc).bind (fun j => unmarshalEvent O j (Event.zero O))

end customer

/-! ## The promoters as calls on memory -/

/-- The memory a promoter call works on: the envelope that the receiver points
to, and the fresh value that the call declares and returns (`var a Agent`). -/
structure Frame (ε ρ : Type) where
  env : ε
  res : ρ

/-- How a statement of a promoter ends: it completes, it ends with an error, on
which the promoter returns nil, or it dereferences a nil pointer.  The memory
is the one the statement leaves. -/
inductive Exec (φ : Type) where
  | done (fr : φ)
  | failed (fr : φ)
  | panicked

/-- The end of a decode into a field of the fresh value: on an error the memory
is reported as before the statement, what the decoder wrote into the fresh
value by then is dropped with that value. -/
def Exec.ofOption {φ : Type} (fr : φ) : Option φ → Exec φ
  | some fr1 => .done fr1
  | none => .failed fr

/-- The statements of a body in sequence: the first error or panic ends
the call. -/
def Exec.run {φ : Type} : List (φ → Exec φ) → φ → Exec φ
  | [], fr => .done fr
  | s :: rest, fr =>
    match s fr with
    | .done fr1 => Exec.run rest fr1
    | .failed fr1 => .failed fr1
    | .panicked => .panicked

/-- What the caller has after the call: the envelope and the returned pointer,
`none` for nil.  No result is a panic. -/
def Exec.returned {ε ρ : Type} : Exec (Frame ε ρ) → Option (ε × Option ρ)
  | .done fr => some (fr.env, some fr.res)
  | .failed fr => some (fr.env, none)
  | .panicked => none

/-- The statement `json.Unmarshal(e.Fragment, &x.Selector)`: the fragment is
read from the envelope, `store` is the decode into the field that the selector
denotes. -/
def Frame.unmarshal {ε ρ : Type} (store : String → JSON → Frame ε ρ → Exec (Frame ε ρ))
    (src : ε → RawMessage) (sel : String) (fr : Frame ε ρ) : Exec (Frame ε ρ) :=
  match src fr.env with
  | .valid j => store sel j fr
  | _ => .failed fr

/-- The statement `unmarshalOptionalRawField(e.Fragment, &x.Selector)`: a nil
fragment is skipped. -/
def Frame.unmarshalOptionalRawField {ε ρ : Type}
    (store : String → JSON → Frame ε ρ → Exec (Frame ε ρ))
    (src : ε → RawMessage) (sel : String) (fr : Frame ε ρ) : Exec (Frame ε ρ) :=
  match src fr.env with
  | .nil => .done fr
  | .valid j => store sel j fr
  | .invalid => .failed fr

/-- Two calls in a row on the same receiver: the envelope after the second call
and the two returned pointers. -/
def callTwice {ε ρ : Type} (call : ε → Option (ε × Option ρ)) (e : ε) :
    Option (ε × Option ρ × Option ρ) :=
  match call e with
  | none => none
  | some (e1, r1) =>
    match call e1 with
    | none => none
    | some (e2, r2) => some (e2, r1, r2)

namespace agent

/-- The Go names of the fields of `User`, those of the embedded `userSpecific`
included, each with the folded JSON name under which `User.fields` decodes
it. -/
def User.selectors : List (String × String) :=
  [("ID", "ID"), ("Type", "TYPE"), ("Name", "NAME"), ("Avatar", "AVATAR"), ("Email", "EMAIL"),
   ("Present", "PRESENT"), ("EventsSeenUpTo", "EVENTS_SEEN_UP_TO"),
   ("RoutingStatus", "ROUTING_STATUS"), ("LastVisit", "LAST_VISIT"),
   ("Statistics", "STATISTICS"), ("AgentLastEventCreatedAt", "AGENT_LAST_EVENT_CREATED_AT"),
   ("CustomerLastEventCreatedAt", "CUSTOMER_LAST_EVENT_CREATED_AT"),
   ("SessionFields", "SESSION_FIELDS"), ("Followed", "FOLLOWED"), ("Online", "ONLINE"),
   ("State", "STATE"), ("GroupIDs", "GROUP_IDS"), ("EmailVerified", "EMAIL_VERIFIED"),
   ("CreatedAt", "CREATED_AT"), ("Visibility", "VISIBILITY")]

/-- A decode into `&x.Selector` when the selector is not a field of `x` itself
but is promoted from the embedded `*User`: the target is a field of the user
that the pointer leads to, which in a promoter is the envelope.  A nil pointer
is a panic; no statement of the source has a selector that is no field. -/
def storeThroughUser {O : Objects} {ρ : Type} (ptr : ρ → Option (agent.User O))
    (setPtr : ρ → agent.User O → ρ) (sel : String) (v : JSON) (fr : Frame (agent.User O) ρ) :
    Exec (Frame (agent.User O) ρ) :=
  match User.selectors.lookup sel with
  | none => .failed fr
  | some key =>
    match ptr fr.res with
    | none => .panicked
    | some _ =>
      match User.setField O key v fr.env with
      | none => .failed fr
      | some u => .done ⟨u, setPtr fr.res u⟩

/-- A decode into `&a.Selector` for `a` of type `Agent`: a field of `Agent`
itself comes before a field of the same name promoted from the embedded
`*User`. -/
def Agent.store (O : Objects) (sel : String) (v : JSON) (fr : Frame (agent.User O) (agent.Agent O)) :
    Exec (Frame (agent.User O) (agent.Agent O)) :=
  if sel = "RoutingStatus" then
    Exec.ofOption fr ((unmarshalString v fr.res.RoutingStatus).map
      (fun s => { fr with res := { fr.res with RoutingStatus := s } }))
  else if sel = "Visibility" then
    Exec.ofOption fr ((unmarshalString v fr.res.Visibility).map
      (fun s => { fr with res := { fr.res with Visibility := s } }))
  else storeThroughUser (fun a => a.User) (fun a u => { a with User := some u }) sel v fr

/-- A decode into `&c.Selector` for `c` of type `Customer`: a field of
`Customer` itself comes before a field of the same name promoted from the
embedded `*User`. -/
def Customer.store (O : Objects) (sel : String) (v : JSON)
    (fr : Frame (agent.User O) (agent.Customer O)) : Exec (Frame (agent.User O) (agent.Customer O)) :=
  if sel = "EmailVerified" then
    Exec.ofOption fr ((unmarshalBool v fr.res.EmailVerified).map
      (fun x => { fr with res := { fr.res with EmailVerified := x } }))
  else if sel = "LastVisit" then
    Exec.ofOption fr ((O.unmarshalVisit v fr.res.LastVisit).map
      (fun x => { fr with res := { fr.res with LastVisit := x } }))
  else if sel = "Statistics" then
    Exec.ofOption fr ((unmarshalStatistics v fr.res.Statistics).map
      (fun x => { fr with res := { fr.res with Statistics := x } }))
  else if sel = "AgentLastEventCreatedAt" then
    Exec.ofOption fr ((O.unmarshalTime v fr.res.AgentLastEventCreatedAt).map
      (fun x => { fr with res := { fr.res with AgentLastEventCreatedAt := x } }))
  else if sel = "CustomerLastEventCreatedAt" then
    Exec.ofOption fr ((O.unmarshalTime v fr.res.CustomerLastEventCreatedAt).map
      (fun x => { fr with res := { fr.res with CustomerLastEventCreatedAt := x } }))
  else if sel = "CreatedAt" then
    Exec.ofOption fr ((O.unmarshalTime v fr.res.CreatedAt).map
      (fun x => { fr with res := { fr.res with CreatedAt := x } }))
  else if sel = "SessionFields" then
    Exec.ofOption fr ((unmarshalSessionFields v fr.res.SessionFields).map
      (fun x => { fr with res := { fr.res with SessionFields := x } }))
  else if sel = "Followed" then
    Exec.ofOption fr ((unmarshalBool v fr.res.Followed).map
      (fun x => { fr with res := { fr.res with Followed := x } }))
  else if sel = "Online" then
    Exec.ofOption fr ((unmarshalBool v fr.res.Online).map
      (fun x => { fr with res := { fr.res with Online := x } }))
  else if sel = "State" then
    Exec.ofOption fr ((unmarshalString v fr.res.State).map
      (fun x => { fr with res := { fr.res with State := x } }))
  else if sel = "GroupIDs" then
    Exec.ofOption fr ((unmarshalInts v fr.res.GroupIDs).map
      (fun x => { fr with res := { fr.res with GroupIDs := x } }))
  else storeThroughUser (fun c => c.User) (fun c u => { c with User := some u }) sel v fr

/-- Method `User.Agent` as a call on memory: `var a Agent`, `a.User = u`, then
the two decodes; the envelope after the call and the returned pointer. -/
def User.AgentCall {O : Objects} (u : agent.User O) : Option (agent.User O × Option (agent.Agent O)) :=
  if u.Type_ ≠ "agent" then some (u, none)
  else
    Exec.returned (Exec.run
      [Frame.unmarshal (Agent.store O) (fun e => e.RoutingStatus) "RoutingStatus",
       Frame.unmarshal (Agent.store O) (fun e => e.Visibility) "Visibility"]
      ⟨u, { Agent.zero O with User := some u }⟩)

/-- Method `User.Customer` as a call on memory: `var c Customer`, `c.User = u`,
then the ten decodes in the order of the source; the envelope after the call
and the returned pointer. -/
def User.CustomerCall {O : Objects} (u : agent.User O) : Option (agent.User O × Option (agent.Customer O)) :=
  if u.Type_ ≠ "customer" then some (u, none)
  else
    Exec.returned (Exec.run
      [Frame.unmarshal (Customer.store O) (fun e => e.LastVisit) "LastVisit",
       Frame.unmarshal (Customer.store O) (fun e => e.Statistics) "Statistics",
       Frame.unmarshal (Customer.store O) (fun e => e.AgentLastEventCreatedAt)
         "AgentLastEventCreatedAt",
       Frame.unmarshal (Customer.store O) (fun e => e.CustomerLastEventCreatedAt)
         "CustomerLastEventCreatedAt",
       Frame.unmarshal (Customer.store O) (fun e => e.EmailVerified) "EmailVerified",
       Frame.unmarshal (Customer.store O) (fun e => e.CreatedAt) "CreatedAt",
       Frame.unmarshal (Customer.store O) (fun e => e.Followed) "Followed",
       Frame.unmarshal (Customer.store O) (fun e => e.Online) "Online",
       Frame.unmarshal (Customer.store O) (fun e => e.State) "State",
       Frame.unmarshal (Customer.store O) (fun e => e.SessionFields) "SessionFields"]
      ⟨u, { Customer.zero O with User := some u }⟩)

end agent

namespace customer

/-- The Go names of the fields of `Event`, those of the embedded
`eventSpecific` included, each with the folded JSON name under which
`Event.fields` decodes it. -/
def Event.selectors : List (String × String) :=
  [("ID", "ID"), ("CustomID", "CUSTOM_ID"), ("CreatedAt", "CREATED_AT"),
   ("AuthorID", "AUTHOR_ID"), ("Properties", "PROPERTIES"), ("Recipients", "RECIPIENTS"),
   ("Type", "TYPE"), ("Text", "TEXT"), ("Fields", "FIELDS"), ("ContentType", "CONTENT_TYPE"),
   ("URL", "URL"), ("Width", "WIDTH"), ("Height", "HEIGHT"), ("Name", "NAME"),
   ("TemplateID", "TEMPLATE_ID"), ("Elements", "ELEMENTS"), ("Postback", "POSTBACK"),
   ("AlternativeText", "ALTERNATIVE_TEXT")]

/-- A decode into `&x.Selector` when the selector is not a field of `x` itself
but is promoted from the embedded `Event`, which `x.Event = *e` copied from the
envelope: the target is a field of the copy.  The fragments of the copy are
slices over the bytes of the envelope, and `RawMessage.UnmarshalJSON` writes
into them (`append((*m)[0:0], data...)`): `shared env key v` is the envelope
that this leaves.  No statement of the source has a selector that is no
field. -/
def storeIntoEvent {O : Objects} {ρ : Type} (shared : Event O → String → JSON → Event O)
    (copy : ρ → Event O) (setCopy : ρ → Event O → ρ) (sel : String) (v : JSON)
    (fr : Frame (Event O) ρ) : Exec (Frame (Event O) ρ) :=
  match Event.selectors.lookup sel with
  | none => .failed fr
  | some key =>
    match Event.setField O key v (copy fr.res) with
    | none => .failed fr
    | some e =>
      .done ⟨if key ∈ Event.fragmentNames then shared fr.env key v else fr.env,
        setCopy fr.res e⟩

/-- A decode into `&f.Selector` for `f` of type `FilledForm`: a field of
`FilledForm` itself comes before a field of the same name promoted from the
embedded `Event`. -/
def FilledForm.store (O : Objects) (shared : customer.Event O → String → JSON → customer.Event O)
    (sel : String) (v : JSON) (fr : Frame (customer.Event O) (customer.FilledForm O)) :
    Exec (Frame (customer.Event O) (customer.FilledForm O)) :=
  if sel = "Fields" then
    Exec.ofOption fr
      ((unmarshalSlice (unmarshalStruct FilledFormField.setField) ⟨"", "", ""⟩ v
          fr.res.Fields).map
        (fun x => { fr with res := { fr.res with Fields := x } }))
  else storeIntoEvent shared (fun f => f.Event) (fun f e => { f with Event := e }) sel v fr

/-- A decode into `&m.Selector` for `m` of type `Message`: a field of `Message`
itself comes before a field of the same name promoted from the embedded
`Event`. -/
def Message.store (O : Objects) (shared : customer.Event O → String → JSON → customer.Event O)
    (sel : String) (v : JSON) (fr : Frame (customer.Event O) (customer.Message O)) :
    Exec (Frame (customer.Event O) (customer.Message O)) :=
  if sel = "Text" then
    Exec.ofOption fr ((unmarshalString v fr.res.Text).map
      (fun x => { fr with res := { fr.res with Text := x } }))
  else if sel = "Postback" then
    Exec.ofOption fr
      ((unmarshalPtr Postback.setField ⟨"", "", "", "", ""⟩ v fr.res.Postback).map
        (fun x => { fr with res := { fr.res with Postback := x } }))
  else storeIntoEvent shared (fun m => m.Event) (fun m e => { m with Event := e }) sel v fr

/-- A decode into `&f.Selector` for `f` of type `File`: a field of `File`
itself comes before a field of the same name promoted from the embedded
`Event`. -/
def File.store (O : Objects) (shared : customer.Event O → String → JSON → customer.Event O)
    (sel : String) (v : JSON) (fr : Frame (customer.Event O) (customer.File O)) :
    Exec (Frame (customer.Event O) (customer.File O)) :=
  if sel = "ContentType" then
    Exec.ofOption fr ((unmarshalString v fr.res.ContentType).map
      (fun x => { fr with res := { fr.res with ContentType := x } }))
  else if sel = "URL" then
    Exec.ofOption fr ((unmarshalString v fr.res.URL).map
      (fun x => { fr with res := { fr.res with URL := x } }))
  else if sel = "Width" then
    Exec.ofOption fr ((unmarshalInt v fr.res.Width).map
      (fun x => { fr with res := { fr.res with Width := x } }))
  else if sel = "Height" then
    Exec.ofOption fr ((unmarshalInt v fr.res.Height).map
      (fun x => { fr with res := { fr.res with Height := x } }))
  else if sel = "Name" then
    Exec.ofOption fr ((unmarshalString v fr.res.Name).map
      (fun x => { fr with res := { fr.res with Name := x } }))
  else if sel = "AlternativeText" then
    Exec.ofOption fr ((unmarshalString v fr.res.AlternativeText).map
      (fun x => { fr with res := { fr.res with AlternativeText := x } }))
  else storeIntoEvent shared (fun f => f.Event) (fun f e => { f with Event := e }) sel v fr

/-- A decode into `&rm.Selector` for `rm` of type `RichMessage`: a field of
`RichMessage` itself comes before a field of the same name promoted from the
embedded `Event`. -/
def RichMessage.store (O : Objects)
    (shared : customer.Event O → String → JSON → customer.Event O)
    (sel : String) (v : JSON) (fr : Frame (customer.Event O) (customer.RichMessage O)) :
    Exec (Frame (customer.Event O) (customer.RichMessage O)) :=
  if sel = "TemplateID" then
    Exec.ofOption fr ((unmarshalString v fr.res.TemplateID).map
      (fun x => { fr with res := { fr.res with TemplateID := x } }))
  else if sel = "Elements" then
    Exec.ofOption fr
      ((unmarshalSlice (unmarshalStruct RichMessageElement.setField)
          ⟨Slice.empty, "", "", none⟩ v fr.res.Elements).map
        (fun x => { fr with res := { fr.res with Elements := x } }))
  else storeIntoEvent shared (fun r => r.Event) (fun r e => { r with Event := e }) sel v fr

/-- Method `Event.FilledForm` as a call on memory: `var f FilledForm`,
`f.Event = *e`, then the decode; the envelope after the call and the returned
pointer. -/
def Event.FilledFormCall {O : Objects}
    (shared : customer.Event O → String → JSON → customer.Event O) (e : customer.Event O) :
    Option (customer.Event O × Option (customer.FilledForm O)) :=
  if e.Type_ ≠ "filled_form" then some (e, none)
  else
    Exec.returned (Exec.run
      [Frame.unmarshal (FilledForm.store O shared) (fun x => x.Fields) "Fields"]
      ⟨e, { Fields := Slice.empty, Event := e }⟩)

/-- Method `Event.Message` as a call on memory: `var m Message`,
`m.Event = *e`, then the two decodes; the envelope after the call and the
returned pointer. -/
def Event.MessageCall {O : Objects}
    (shared : customer.Event O → String → JSON → customer.Event O) (e : customer.Event O) :
    Option (customer.Event O × Option (customer.Message O)) :=
  if e.Type_ ≠ "message" then some (e, none)
  else
    Exec.returned (Exec.run
      [Frame.unmarshal (Message.store O shared) (fun x => x.Text) "Text",
       Frame.unmarshalOptionalRawField (Message.store O shared) (fun x => x.Postback)
         "Postback"]
      ⟨e, { Event := e, Text := "", Postback := none }⟩)

/-- Method `Event.File` as a call on memory: `var f File`, `f.Event = *e`, then
the six decodes in the order of the source; the envelope after the call and the
returned pointer. -/
def Event.FileCall {O : Objects}
    (shared : customer.Event O → String → JSON → customer.Event O) (e : customer.Event O) :
    Option (customer.Event O × Option (customer.File O)) :=
  if e.Type_ ≠ "file" then some (e, none)
  else
    Exec.returned (Exec.run
      [Frame.unmarshal (File.store O shared) (fun x => x.ContentType) "ContentType",
       Frame.unmarshal (File.store O shared) (fun x => x.URL) "URL",
       Frame.unmarshalOptionalRawField (File.store O shared) (fun x => x.Width) "Width",
       Frame.unmarshalOptionalRawField (File.store O shared) (fun x => x.Height) "Height",
       Frame.unmarshal (File.store O shared) (fun x => x.Name) "Name",
       Frame.unmarshalOptionalRawField (File.store O shared) (fun x => x.AlternativeText)
         "AlternativeText"]
      ⟨e, { Event := e, ContentType := "", URL := "", Width := 0, Height := 0, Name := "",
            AlternativeText := "" }⟩)

/-- Method `Event.RichMessage` as a call on memory: `var rm RichMessage`,
`rm.Event = *e`, then the two decodes; the envelope after the call and the
returned pointer. -/
def Event.RichMessageCall {O : Objects}
    (shared : customer.Event O → String → JSON → customer.Event O) (e : customer.Event O) :
    Option (customer.Event O × Option (customer.RichMessage O)) :=
  if e.Type_ ≠ "rich_message" then some (e, none)
  else
    Exec.returned (Exec.run
      [Frame.unmarshal (RichMessage.store O shared) (fun x => x.TemplateID) "TemplateID",
       Frame.unmarshal (RichMessage.store O shared) (fun x => x.Elements) "Elements"]
      ⟨e, { Event := e, TemplateID := "", Elements := Slice.empty }⟩)

end customer

/-! # Lemmas -/

/-! ## Maps -/

theorem GoMap.lookup_insert_self {α : Type} (m : GoMap α) (k : String) (v : α) :
    (m.insert k v).lookup k = some v := by
  simp [GoMap.insert, GoMap.lookup]

theorem GoMap.find_filter_ne {α : Type} (m : GoMap α) (k k1 : String) (h : k1 ≠ k) :
    (m.filter (fun p => decide (p.1 ≠ k1))).find? (fun p => decide (p.1 = k)) =
      m.find? (fun p => decide (p.1 = k)) := by
  induction m with
  | nil => rfl
  | cons p ps ih =>
    by_cases hq : p.1 = k1
    · have hp : ¬ p.1 = k := fun e => h (hq.symm.trans e)
      rw [List.filter_cons_of_neg (by simpa using hq), List.find?_cons_of_neg _ (by simpa using hp)]
      exact ih
    · rw [List.filter_cons_of_pos (by simpa using hq)]
      by_cases hp : p.1 = k
      · rw [List.find?_cons_of_pos _ (by simpa using hp), List.find?_cons_of_pos _ (by simpa using hp)]
      · rw [List.find?_cons_of_neg _ (by simpa using hp), List.find?_cons_of_neg _ (by simpa using hp)]
        exact ih

theorem GoMap.lookup_insert_ne {α : Type} (m : GoMap α) (k k1 : String) (v : α) (h : k1 ≠ k) :
    (m.insert k1 v).lookup k = m.lookup k := by
  unfold GoMap.insert GoMap.lookup
  rw [List.find?_cons_of_neg _ (by simpa using h), GoMap.find_filter_ne m k k1 h]

theorem GoMap.mem_keys_insert {α : Type} (m : GoMap α) (k k1 : String) (v : α) :
    k ∈ (m.insert k1 v).keys ↔ k = k1 ∨ k ∈ m.keys := by
  simp only [GoMap.insert, GoMap.keys, List.map_cons, List.mem_cons, List.mem_map,
    List.mem_filter, decide_eq_true_eq]
  constructor
  · rintro (h | ⟨p, ⟨hp, _⟩, rfl⟩)
    · exact Or.inl h
    · exact Or.inr ⟨p, hp, rfl⟩
  · rintro (h | ⟨p, hp, rfl⟩)
    · exact Or.inl h
    · by_cases e : p.1 = k1
      · exact Or.inl e
      · exact Or.inr ⟨p, ⟨hp, e⟩, rfl⟩

theorem GoMap.keys_insert_nodup {α : Type} (m : GoMap α) (k : String) (v : α)
    (h : m.keys.Nodup) : (m.insert k v).keys.Nodup := by
  simp only [GoMap.insert, GoMap.keys, List.map_cons, List.nodup_cons, List.mem_map,
    List.mem_filter, decide_eq_true_eq]
  constructor
  · rintro ⟨p, ⟨_, hp⟩, e⟩
    exact hp e
  · exact (List.Nodup.sublist (List.Sublist.map _ (List.filter_sublist _)) h)

theorem GoMap.len_insert_fresh {α : Type} (m : GoMap α) (k : String) (v : α)
    (h : k ∉ m.keys) : (m.insert k v).len = m.len + 1 := by
  have : m.filter (fun p => decide (p.1 ≠ k)) = m := by
    apply List.filter_eq_self.mpr
    intro p hp
    simp only [decide_eq_true_eq]
    intro e
    exact h (by simp only [GoMap.keys, List.mem_map]; exact ⟨p, hp, e⟩)
  unfold GoMap.insert GoMap.len
  rw [this, List.length_cons]

theorem GoMap.lookup_isSome_of_mem_keys {α : Type} (m : GoMap α) (k : String)
    (h : k ∈ m.keys) : (m.lookup k).isSome = true := by
  simp only [GoMap.keys, List.mem_map] at h
  obtain ⟨p, hp, e⟩ := h
  simp only [GoMap.lookup, Option.isSome_map', List.find?_isSome]
  exact ⟨p, hp, by simp [e]⟩

/-- In a map with one entry per key, exactly one entry carries a key of the map. -/
theorem GoMap.count_key_eq_one {α : Type} (m : GoMap α) (k : String)
    (hn : m.keys.Nodup) (h : k ∈ m.keys) :
    (m.filter (fun p => decide (p.1 = k))).length = 1 := by
  induction m with
  | nil => simp [GoMap.keys] at h
  | cons p ps ih =>
    simp only [GoMap.keys, List.map_cons, List.nodup_cons, List.mem_cons] at hn h
    by_cases e : p.1 = k
    · have : ps.filter (fun p => decide (p.1 = k)) = [] := by
        apply List.filter_eq_nil_iff.mpr
        intro q hq
        simp only [decide_eq_true_eq]
        intro e2
        exact hn.1 (by simp only [List.mem_map]; exact ⟨q, hq, e2.trans e.symm⟩)
      simp [List.filter_cons, e, this]
    · rcases h with h | h
      · exact absurd h.symm e
      · simp only [List.filter_cons, e, decide_False, Bool.false_eq_true, ↓reduceIte]
        exact ih hn.2 h

/-! ## Struct decoding -/

theorem unmarshalFields_nil {σ : Type} (f : String → JSON → σ → Option σ) (s : σ) :
    unmarshalFields f [] s = some s := rfl

theorem unmarshalFields_cons {σ : Type} (f : String → JSON → σ → Option σ)
    (kv : String × JSON) (kvs : List (String × JSON)) (s : σ) :
    unmarshalFields f (kv :: kvs) s =
      (f (foldName kv.1) kv.2 s).bind (fun s1 => unmarshalFields f kvs s1) := by
  simp [unmarshalFields, List.foldlM_cons]

/-- A key whose value the setter rejects in every state makes the decode fail. -/
theorem unmarshalFields_none_of_mem {σ : Type} (f : String → JSON → σ → Option σ)
    (kv : String × JSON) (hkv : ∀ s, f (foldName kv.1) kv.2 s = none) :
    ∀ (kvs : List (String × JSON)), kv ∈ kvs → ∀ s, unmarshalFields f kvs s = none := by
  intro kvs
  induction kvs with
  | nil => intro h; cases h
  | cons x xs ih =>
    intro h s
    rw [unmarshalFields_cons]
    rcases List.mem_cons.mp h with e | e
    · subst e; rw [hkv]; rfl
    · cases hx : f (foldName x.1) x.2 s with
      | none => rfl
      | some s1 => exact ih e s1

/-- A property that every setter call keeps and that the setter establishes at
one key of the object holds after a successful decode. -/
theorem unmarshalFields_establish {σ : Type} (f : String → JSON → σ → Option σ)
    (P : σ → Prop) (kv : String × JSON)
    (hkeep : ∀ fk v s s1, f fk v s = some s1 → P s → P s1)
    (hkv : ∀ s s1, f (foldName kv.1) kv.2 s = some s1 → P s1) :
    ∀ (kvs : List (String × JSON)), kv ∈ kvs →
      ∀ s s2, unmarshalFields f kvs s = some s2 → P s2 := by
  have keep : ∀ (kvs : List (String × JSON)) s s2,
      unmarshalFields f kvs s = some s2 → P s → P s2 := by
    intro kvs
    induction kvs with
    | nil => intro s s2 h hp; cases h; exact hp
    | cons x xs ih =>
      intro s s2 h hp
      rw [unmarshalFields_cons] at h
      cases hx : f (foldName x.1) x.2 s with
      | none => rw [hx] at h; cases h
      | some s1 => rw [hx] at h; exact ih s1 s2 h (hkeep _ _ _ _ hx hp)
  intro kvs
  induction kvs with
  | nil => intro h; cases h
  | cons x xs ih =>
    intro h s s2 hs
    rw [unmarshalFields_cons] at hs
    cases hx : f (foldName x.1) x.2 s with
    | none => rw [hx] at hs; cases hs
    | some s1 =>
      rw [hx] at hs
      rcases List.mem_cons.mp h with e | e
      · subst e; exact keep xs s1 s2 hs (hkv s s1 hx)
      · exact ih e s1 s2 hs

/-! ## The type tag of an element -/

namespace agent

theorem tag_fields_of_hasStringTag :
    ∀ (kvs : List (String × JSON)), hasStringTag kvs = true →
      ∀ t1 t2, unmarshalFields tagSetField kvs t1 = unmarshalFields tagSetField kvs t2 := by
  intro kvs
  induction kvs with
  | nil => intro h; simp [hasStringTag] at h
  | cons x xs ih =>
    intro h t1 t2
    rw [unmarshalFields_cons, unmarshalFields_cons]
    obtain ⟨k, v⟩ := x
    by_cases hk : foldName k = "TYPE"
    · cases v with
      | str s => simp [tagSetField, hk, unmarshalString]
      | null =>
        have h2 : hasStringTag xs = true := by simpa [hasStringTag, hk] using h
        simpa [tagSetField, hk, unmarshalString] using ih h2 t1 t2
      | _ => simp [tagSetField, hk, unmarshalString]
    · have h2 : hasStringTag xs = true := by simpa [hasStringTag, hk] using h
      simpa [tagSetField, hk] using ih h2 t1 t2

theorem tag_fields_of_not_hasStringTag :
    ∀ (kvs : List (String × JSON)), hasStringTag kvs = false →
      ∀ t r, unmarshalFields tagSetField kvs t = some r → r = t := by
  intro kvs
  induction kvs with
  | nil => intro _ t r h; cases h; rfl
  | cons x xs ih =>
    intro h t r hr
    rw [unmarshalFields_cons] at hr
    obtain ⟨k, v⟩ := x
    by_cases hk : foldName k = "TYPE"
    · cases v with
      | str s => simp [hasStringTag, hk] at h
      | null =>
        have h2 : hasStringTag xs = false := by simpa [hasStringTag, hk] using h
        simp only [tagSetField, hk, unmarshalString, if_true, Option.some_bind] at hr
        exact ih h2 t r hr
      | _ => simp [tagSetField, hk, unmarshalString] at hr
    · have h2 : hasStringTag xs = false := by simpa [hasStringTag, hk] using h
      simp only [tagSetField, hk, if_false, Option.some_bind] at hr
      exact ih h2 t r hr

/-- An element that carries a string type tag is read the same way whatever
the loop left in `t`. -/
theorem unmarshalTag_of_carriesType (u : JSON) (h : carriesType u = true) (t : String) :
    unmarshalTag u t = elemType u := by
  cases u with
  | obj kvs => exact tag_fields_of_hasStringTag kvs h t ""
  | _ => simp [carriesType] at h

/-- An element whose own tag is a non-empty string is read as that tag
whatever the loop left in `t`. -/
theorem unmarshalTag_of_elemType (u : JSON) (s : String) (h : elemType u = some s)
    (hs : s ≠ "") (t : String) : unmarshalTag u t = some s := by
  cases u with
  | obj kvs =>
    cases hh : hasStringTag kvs with
    | true => rw [← h]; exact tag_fields_of_hasStringTag kvs hh t ""
    | false => exact absurd (tag_fields_of_not_hasStringTag kvs hh "" s h) hs
  | null => simp [elemType, unmarshalTag, unmarshalStruct] at h; exact absurd h.symm hs
  | _ => simp [elemType, unmarshalTag, unmarshalStruct] at h

end agent

theorem Unmarshal_string_lacks (r : RawMessage) (cur : String)
    (h : r.lacks JSON.stringShaped = true) : Unmarshal unmarshalString r cur = none := by
  cases r with
  | valid j => cases j <;> simp_all [RawMessage.lacks, JSON.stringShaped, Unmarshal, unmarshalString]
  | _ => rfl

theorem Unmarshal_slice_lacks {α : Type} (elem : JSON → α → Option α) (zero : α)
    (r : RawMessage) (cur : Slice α)
    (h : r.lacks JSON.arrayShaped = true) : Unmarshal (unmarshalSlice elem zero) r cur = none := by
  cases r with
  | valid j => cases j <;> simp_all [RawMessage.lacks, JSON.arrayShaped, Unmarshal, unmarshalSlice]
  | _ => rfl

namespace agent

/-! ## The loop over `users` -/

theorem agentKey_of_unmarshalAgent (O : Objects) (u : JSON) (a : Agent O) (usr : User O)
    (h : unmarshalAgent O u = some a) (hu : a.User = some usr) : agentKey O u = some usr.ID := by
  simp [agentKey, h, hu]

theorem customerKey_of_unmarshalCustomer (O : Objects) (u : JSON) (cu : Customer O)
    (usr : User O) (h : unmarshalCustomer O u = some cu) (hu : cu.User = some usr) :
    customerKey O u = some usr.ID := by
  simp [customerKey, h, hu]

/-- What a completed iteration did: it read a tag and stored the element as an
agent, as a customer, or not at all. -/
theorem usersStep_ok (O : Objects) (st st2 : LoopState O) (u : JSON)
    (h : usersStep O st u = .ok st2) :
    ∃ ty, unmarshalTag u st.Type_ = some ty ∧ st2.Type_ = ty ∧
      ((ty = "agent" ∧ ∃ a usr, unmarshalAgent O u = some a ∧ a.User = some usr ∧
          st2.Agents = st.Agents.insert usr.ID (some a) ∧ st2.Customers = st.Customers) ∨
       (ty = "customer" ∧ ∃ cu usr, unmarshalCustomer O u = some cu ∧ cu.User = some usr ∧
          st2.Customers = st.Customers.insert usr.ID (some cu) ∧ st2.Agents = st.Agents) ∨
       (ty ≠ "agent" ∧ ty ≠ "customer" ∧ st2.Agents = st.Agents ∧
          st2.Customers = st.Customers)) := by
  unfold usersStep at h
  cases ht : unmarshalTag u st.Type_ with
  | none => rw [ht] at h; cases h
  | some ty =>
    rw [ht] at h
    refine ⟨ty, rfl, ?_⟩
    by_cases h1 : ty = "agent"
    · simp only [h1, if_true] at h
      cases ha : unmarshalAgent O u with
      | none => rw [ha] at h; cases h
      | some a =>
        rw [ha] at h
        cases hu : a.User with
        | none => simp only [hu] at h; cases h
        | some usr =>
          simp only [hu] at h
          cases h
          exact ⟨h1.symm ▸ rfl, Or.inl ⟨h1, a, usr, rfl, hu, rfl, rfl⟩⟩
    · simp only [h1, if_false] at h
      by_cases h2 : ty = "customer"
      · simp only [h2, if_true] at h
        cases hc : unmarshalCustomer O u with
        | none => rw [hc] at h; cases h
        | some cu =>
          rw [hc] at h
          cases hu : cu.User with
          | none => simp only [hu] at h; cases h
          | some usr =>
            simp only [hu] at h
            cases h
            exact ⟨h2.symm ▸ rfl, Or.inr (Or.inl ⟨h2, cu, usr, rfl, hu, rfl, rfl⟩)⟩
      · simp only [h2, if_false] at h
        cases h
        exact ⟨rfl, Or.inr (Or.inr ⟨h1, h2, rfl, rfl⟩)⟩

theorem usersLoop_cons_ok (O : Objects) (st fin : LoopState O) (u : JSON) (us : List JSON)
    (h : usersLoop O st (u :: us) = .ok fin) :
    ∃ st1, usersStep O st u = .ok st1 ∧ usersLoop O st1 us = .ok fin := by
  unfold usersLoop at h
  cases hs : usersStep O st u with
  | ok st1 => rw [hs] at h; exact ⟨st1, rfl, h⟩
  | error => rw [hs] at h; cases h
  | panic => rw [hs] at h; cases h

theorem usersLoop_append_ok (O : Objects) :
    ∀ (xs ys : List JSON) (st fin : LoopState O), usersLoop O st (xs ++ ys) = .ok fin →
      ∃ st1, usersLoop O st xs = .ok st1 ∧ usersLoop O st1 ys = .ok fin := by
  intro xs
  induction xs with
  | nil => intro ys st fin h; exact ⟨st, rfl, h⟩
  | cons x xs ih =>
    intro ys st fin h
    obtain ⟨st1, h1, h2⟩ := usersLoop_cons_ok O st fin x (xs ++ ys) h
    obtain ⟨st2, h3, h4⟩ := ih ys st1 fin h2
    refine ⟨st2, ?_, h4⟩
    show usersLoop O st (x :: xs) = .ok st2
    unfold usersLoop
    rw [h1]
    exact h3

/-- Elements that are not stored under `k` as agents leave the entry of `k` in
`Agents` as it is. -/
theorem usersLoop_agents_lookup (O : Objects) (k : String) :
    ∀ (us : List JSON) (st fin : LoopState O), usersLoop O st us = .ok fin →
      (∀ v ∈ us, agentKey O v ≠ some k) → fin.Agents.lookup k = st.Agents.lookup k := by
  intro us
  induction us with
  | nil => intro st fin h _; cases h; rfl
  | cons x xs ih =>
    intro st fin h hk
    obtain ⟨st1, h1, h2⟩ := usersLoop_cons_ok O st fin x xs h
    rw [ih st1 fin h2 (fun v hv => hk v (List.mem_cons_of_mem _ hv))]
    obtain ⟨ty, _, _, hc⟩ := usersStep_ok O st st1 x h1
    rcases hc with ⟨_, a, usr, ha, hu, hA, _⟩ | ⟨_, _, _, _, _, _, hA⟩ | ⟨_, _, hA, _⟩
    · rw [hA]
      apply GoMap.lookup_insert_ne
      intro e
      exact hk x (List.mem_cons_self _ _) (e ▸ agentKey_of_unmarshalAgent O x a usr ha hu)
    · rw [hA]
    · rw [hA]

/-- Elements that are not stored under `k` as customers leave the entry of `k`
in `Customers` as it is. -/
theorem usersLoop_customers_lookup (O : Objects) (k : String) :
    ∀ (us : List JSON) (st fin : LoopState O), usersLoop O st us = .ok fin →
      (∀ v ∈ us, customerKey O v ≠ some k) →
      fin.Customers.lookup k = st.Customers.lookup k := by
  intro us
  induction us with
  | nil => intro st fin h _; cases h; rfl
  | cons x xs ih =>
    intro st fin h hk
    obtain ⟨st1, h1, h2⟩ := usersLoop_cons_ok O st fin x xs h
    rw [ih st1 fin h2 (fun v hv => hk v (List.mem_cons_of_mem _ hv))]
    obtain ⟨ty, _, _, hc⟩ := usersStep_ok O st st1 x h1
    rcases hc with ⟨_, _, _, _, _, _, hC⟩ | ⟨_, cu, usr, ha, hu, hC, _⟩ | ⟨_, _, _, hC⟩
    · rw [hC]
    · rw [hC]
      apply GoMap.lookup_insert_ne
      intro e
      exact hk x (List.mem_cons_self _ _)
        (e ▸ customerKey_of_unmarshalCustomer O x cu usr ha hu)
    · rw [hC]

/-- The loop keeps one entry per key in both maps. -/
theorem usersLoop_nodup (O : Objects) :
    ∀ (us : List JSON) (st fin : LoopState O), usersLoop O st us = .ok fin →
      st.Agents.keys.Nodup → st.Customers.keys.Nodup →
      fin.Agents.keys.Nodup ∧ fin.Customers.keys.Nodup := by
  intro us
  induction us with
  | nil => intro st fin h hA hC; cases h; exact ⟨hA, hC⟩
  | cons x xs ih =>
    intro st fin h hA hC
    obtain ⟨st1, h1, h2⟩ := usersLoop_cons_ok O st fin x xs h
    obtain ⟨ty, _, _, hc⟩ := usersStep_ok O st st1 x h1
    apply ih st1 fin h2
    · rcases hc with ⟨_, a, usr, _, _, e, _⟩ | ⟨_, _, _, _, _, _, e⟩ | ⟨_, _, e, _⟩
      · rw [e]; exact GoMap.keys_insert_nodup _ _ _ hA
      · rw [e]; exact hA
      · rw [e]; exact hA
    · rcases hc with ⟨_, a, usr, _, _, _, e⟩ | ⟨_, _, _, _, _, e, _⟩ | ⟨_, _, _, e⟩
      · rw [e]; exact hC
      · rw [e]; exact GoMap.keys_insert_nodup _ _ _ hC
      · rw [e]; exact hC

/-- A successful `Chat.UnmarshalJSON` ran the loop to its end on the decoded
`users`, from empty maps, with the embedded pointer allocated. -/
theorem Chat.UnmarshalJSON_ok (O : Objects) (data : RawMessage) (cs : CS O) (c : Chat O)
    (hcs : unmarshalCS O data = some cs) (hok : Chat.UnmarshalJSON O data = .ok c) :
    ∃ fin, usersLoop O ⟨"", [], []⟩ cs.Users = .ok fin ∧ c.Agents = fin.Agents ∧
      c.Customers = fin.Customers ∧ cs.ChatAlias ≠ none := by
  unfold Chat.UnmarshalJSON at hok
  rw [hcs] at hok
  simp only at hok
  cases ha : cs.ChatAlias with
  | none => rw [ha] at hok; cases hok
  | some ca =>
    rw [ha] at hok
    simp only at hok
    cases hl : usersLoop O ⟨"", [], []⟩ cs.Users with
    | ok fin =>
      rw [hl] at hok
      cases hok
      exact ⟨fin, rfl, rfl, rfl, by simp⟩
    | error => rw [hl] at hok; cases hok
    | panic => rw [hl] at hok; cases hok

end agent

theorem unmarshalFields_append {σ : Type} (f : String → JSON → σ → Option σ)
    (xs ys : List (String × JSON)) (s : σ) :
    unmarshalFields f (xs ++ ys) s = (unmarshalFields f xs s).bind (unmarshalFields f ys) := by
  induction xs generalizing s with
  | nil => rfl
  | cons x xs ih =>
    rw [List.cons_append, unmarshalFields_cons, unmarshalFields_cons]
    cases f (foldName x.1) x.2 s with
    | none => rfl
    | some s1 => exact ih s1

/-- The last key that reads as `name` splits the object around it. -/
theorem JSON.field_split (name : String) (kvs : List (String × JSON)) (v : JSON)
    (h : (JSON.obj kvs).field name = some v) :
    ∃ pre k post, kvs = pre ++ (k, v) :: post ∧ foldName k = name ∧
      ∀ kv ∈ post, foldName kv.1 ≠ name := by
  simp only [JSON.field, Option.map_eq_some'] at h
  obtain ⟨⟨k, v1⟩, hf, rfl⟩ := h
  obtain ⟨hp, as, bs, hr, hn⟩ := List.find?_eq_some.mp hf
  refine ⟨bs.reverse, k, as.reverse, ?_, by simpa using hp, ?_⟩
  · have := congrArg List.reverse hr
    simpa using this
  · intro kv hkv
    have := hn kv (List.mem_reverse.mp hkv)
    simpa using this

/-- The field of the target that the key `name` writes holds, after a
successful decode, what the last such key of the object wrote. -/
theorem unmarshalFields_last {σ β : Type} (f : String → JSON → σ → Option σ) (get : σ → β)
    (name : String) (Q : β → Prop) (v : JSON) (kvs : List (String × JSON))
    (hkeep : ∀ fk w s s1, fk ≠ name → f fk w s = some s1 → get s1 = get s)
    (hset : ∀ s s1, f name v s = some s1 → Q (get s1))
    (hv : (JSON.obj kvs).field name = some v) (s fin : σ)
    (h : unmarshalFields f kvs s = some fin) : Q (get fin) := by
  obtain ⟨pre, k, post, rfl, hk, hpost⟩ := JSON.field_split name kvs v hv
  rw [unmarshalFields_append] at h
  cases h1 : unmarshalFields f pre s with
  | none => rw [h1] at h; cases h
  | some s1 =>
    rw [h1, Option.some_bind, unmarshalFields_cons] at h
    simp only [hk] at h
    cases h2 : f name v s1 with
    | none => rw [h2] at h; cases h
    | some s2 =>
      rw [h2, Option.some_bind] at h
      have keep : ∀ (ys : List (String × JSON)), (∀ kv ∈ ys, foldName kv.1 ≠ name) →
          ∀ a b, unmarshalFields f ys a = some b → get b = get a := by
        intro ys
        induction ys with
        | nil => intro _ a b hb; cases hb; rfl
        | cons y ys ih =>
          intro hy a b hb
          rw [unmarshalFields_cons] at hb
          cases h3 : f (foldName y.1) y.2 a with
          | none => rw [h3] at hb; cases hb
          | some a1 =>
            rw [h3, Option.some_bind] at hb
            rw [ih (fun kv hkv => hy kv (List.mem_cons_of_mem _ hkv)) a1 b hb]
            exact hkeep _ _ _ _ (hy y (List.mem_cons_self _ _)) h3
      rw [keep post hpost s2 fin h]
      exact hset s1 s2 h2

theorem Fields.mem_of_lookup {σ : Type} (fs : Fields σ) (fk : String)
    (dec : JSON → σ → Option σ) (h : fs.lookup fk = some dec) : (fk, dec) ∈ fs := by
  induction fs with
  | nil => cases h
  | cons p ps ih =>
    obtain ⟨n, d⟩ := p
    rw [List.lookup_cons] at h
    by_cases e : fk = n
    · subst e
      simp only [beq_self_eq_true] at h
      cases h
      exact List.mem_cons_self _ _
    · have : (fk == n) = false := by simpa using e
      simp only [this] at h
      exact List.mem_cons_of_mem _ (ih h)

/-- A call of a struct's field setter either ran the decoder of a field of
that name or skipped the key. -/
theorem Fields.set_cases {σ : Type} (fs : Fields σ) (fk : String) (v : JSON) (s s1 : σ)
    (h : fs.set fk v s = some s1) :
    (∃ dec, (fk, dec) ∈ fs ∧ dec v s = some s1) ∨ s1 = s := by
  unfold Fields.set at h
  cases hl : fs.lookup fk with
  | none => rw [hl] at h; cases h; exact Or.inr rfl
  | some dec => rw [hl] at h; exact Or.inl ⟨dec, Fields.mem_of_lookup fs fk dec hl, h⟩

namespace agent

theorem User.fields_keep_ID (O : Objects) :
    ∀ p ∈ User.fields O, p.1 ≠ "ID" → ∀ (v : JSON) (u u1 : User O),
      p.2 v u = some u1 → u1.ID = u.ID := by
  intro p hp
  simp only [User.fields, List.mem_cons, List.mem_singleton, List.mem_nil_iff, or_false] at hp
  rcases hp with rfl|rfl|rfl|rfl|rfl|rfl|rfl|rfl|rfl|rfl|rfl|rfl|rfl|rfl|rfl|rfl|rfl|rfl|rfl|rfl
  all_goals
    intro hne v u u1 h
    first
    | exact absurd rfl hne
    | (cases h; rfl)
    | (simp only [Option.map_eq_some'] at h; obtain ⟨x, _, rfl⟩ := h; rfl)

theorem agent_setField_ID (O : Objects) (v : JSON) (a : Agent O) :
    Agent.setField O "ID" v a =
      ((unmarshalString v (a.User.getD (User.zero O)).ID).map
        (fun s => { a.User.getD (User.zero O) with ID := s })).map
        (fun u => { a with User := some u }) := rfl

theorem agent_setField_ROUTING_STATUS (O : Objects) (v : JSON) (a : Agent O) :
    Agent.setField O "ROUTING_STATUS" v a =
      (unmarshalString v a.RoutingStatus).map (fun s => { a with RoutingStatus := s }) := rfl

/-- Every call of the field setter of `Agent` keeps an allocated `*User`. -/
theorem agent_setField_keeps_User (O : Objects) (fk : String) (v : JSON) (a a1 : Agent O)
    (h : Agent.setField O fk v a = some a1) (hu : a.User.isSome = true) :
    a1.User.isSome = true := by
  rcases Fields.set_cases _ fk v a a1 h with ⟨dec, hm, hd⟩ | rfl
  · simp only [Agent.fields, List.mem_append, List.mem_cons, List.mem_singleton,
      List.mem_nil_iff, or_false, Fields.viaPtr, List.mem_map, Prod.mk.injEq] at hm
    rcases hm with (⟨_, rfl⟩ | ⟨_, rfl⟩) | ⟨q, _, _, rfl⟩
    · simp only [Option.map_eq_some'] at hd; obtain ⟨x, _, rfl⟩ := hd; exact hu
    · simp only [Option.map_eq_some'] at hd; obtain ⟨x, _, rfl⟩ := hd; exact hu
    · simp only [Option.map_eq_some'] at hd; obtain ⟨x, _, rfl⟩ := hd; rfl
  · exact hu

/-- Away from `id`, the field setter of `Agent` keeps the identity. -/
theorem agent_setField_keeps_ID (O : Objects) (fk : String) (v : JSON) (a a1 : Agent O)
    (hfk : fk ≠ "ID") (h : Agent.setField O fk v a = some a1) :
    (a1.User.getD (User.zero O)).ID = (a.User.getD (User.zero O)).ID := by
  rcases Fields.set_cases _ fk v a a1 h with ⟨dec, hm, hd⟩ | rfl
  · simp only [Agent.fields, List.mem_append, List.mem_cons, List.mem_singleton,
      List.mem_nil_iff, or_false, Fields.viaPtr, List.mem_map, Prod.mk.injEq] at hm
    rcases hm with (⟨_, rfl⟩ | ⟨_, rfl⟩) | ⟨q, hq, hn, rfl⟩
    · simp only [Option.map_eq_some'] at hd; obtain ⟨x, _, rfl⟩ := hd; rfl
    · simp only [Option.map_eq_some'] at hd; obtain ⟨x, _, rfl⟩ := hd; rfl
    · simp only [Option.map_eq_some'] at hd
      obtain ⟨x, hx, rfl⟩ := hd
      exact User.fields_keep_ID O q hq (hn ▸ hfk) v _ x hx
  · rfl

/-- Away from `routing_status`, the field setter of `Agent` keeps the routing
status. -/
theorem agent_setField_keeps_RoutingStatus (O : Objects) (fk : String) (v : JSON)
    (a a1 : Agent O) (hfk : fk ≠ "ROUTING_STATUS") (h : Agent.setField O fk v a = some a1) :
    a1.RoutingStatus = a.RoutingStatus := by
  rcases Fields.set_cases _ fk v a a1 h with ⟨dec, hm, hd⟩ | rfl
  · simp only [Agent.fields, List.mem_append, List.mem_cons, List.mem_singleton,
      List.mem_nil_iff, or_false, Fields.viaPtr, List.mem_map, Prod.mk.injEq] at hm
    rcases hm with (⟨e, rfl⟩ | ⟨_, rfl⟩) | ⟨q, hq, hn, rfl⟩
    · exact absurd e hfk
    · simp only [Option.map_eq_some'] at hd; obtain ⟨x, _, rfl⟩ := hd; rfl
    · simp only [Option.map_eq_some'] at hd; obtain ⟨x, _, rfl⟩ := hd; rfl
  · rfl

end agent

namespace agent

theorem customer_setField_ID (O : Objects) (v : JSON) (c : Customer O) :
    Customer.setField O "ID" v c =
      ((unmarshalString v (c.User.getD (User.zero O)).ID).map
        (fun s => { c.User.getD (User.zero O) with ID := s })).map
        (fun u => { c with User := some u }) := rfl

theorem customer_setField_EMAIL_VERIFIED (O : Objects) (v : JSON) (c : Customer O) :
    Customer.setField O "EMAIL_VERIFIED" v c =
      (unmarshalBool v c.EmailVerified).map (fun b => { c with EmailVerified := b }) := rfl

/-- Every call of the field setter of `Customer` keeps an allocated `*User`. -/
theorem customer_setField_keeps_User (O : Objects) (fk : String) (v : JSON)
    (c c1 : Customer O) (h : Customer.setField O fk v c = some c1)
    (hu : c.User.isSome = true) : c1.User.isSome = true := by
  rcases Fields.set_cases _ fk v c c1 h with ⟨dec, hm, hd⟩ | rfl
  · simp only [Customer.fields, List.mem_append, List.mem_cons, List.mem_singleton,
      List.mem_nil_iff, or_false, Fields.viaPtr, List.mem_map, Prod.mk.injEq] at hm
    rcases hm with (⟨_, rfl⟩ | ⟨_, rfl⟩ | ⟨_, rfl⟩ | ⟨_, rfl⟩ | ⟨_, rfl⟩ | ⟨_, rfl⟩ | ⟨_, rfl⟩ | ⟨_, rfl⟩ | ⟨_, rfl⟩ | ⟨_, rfl⟩ | ⟨_, rfl⟩) | ⟨q, _, _, rfl⟩
    all_goals
      simp only [Option.map_eq_some'] at hd
      obtain ⟨x, _, rfl⟩ := hd
      first | exact hu | rfl
  · exact hu

/-- Away from `id`, the field setter of `Customer` keeps the identity. -/
theorem customer_setField_keeps_ID (O : Objects) (fk : String) (v : JSON) (c c1 : Customer O)
    (hfk : fk ≠ "ID") (h : Customer.setField O fk v c = some c1) :
    (c1.User.getD (User.zero O)).ID = (c.User.getD (User.zero O)).ID := by
  rcases Fields.set_cases _ fk v c c1 h with ⟨dec, hm, hd⟩ | rfl
  · simp only [Customer.fields, List.mem_append, List.mem_cons, List.mem_singleton,
      List.mem_nil_iff, or_false, Fields.viaPtr, List.mem_map, Prod.mk.injEq] at hm
    rcases hm with (⟨_, rfl⟩ | ⟨_, rfl⟩ | ⟨_, rfl⟩ | ⟨_, rfl⟩ | ⟨_, rfl⟩ | ⟨_, rfl⟩ | ⟨_, rfl⟩ | ⟨_, rfl⟩ | ⟨_, rfl⟩ | ⟨_, rfl⟩ | ⟨_, rfl⟩) | ⟨q, hq, hn, rfl⟩
    all_goals
      simp only [Option.map_eq_some'] at hd
      obtain ⟨x, hx, rfl⟩ := hd
      first
      | rfl
      | exact User.fields_keep_ID O q hq (hn ▸ hfk) v _ x hx
  · rfl

/-- Away from `email_verified`, the field setter of `Customer` keeps the
flag. -/
theorem customer_setField_keeps_EmailVerified (O : Objects) (fk : String) (v : JSON)
    (c c1 : Customer O) (hfk : fk ≠ "EMAIL_VERIFIED")
    (h : Customer.setField O fk v c = some c1) : c1.EmailVerified = c.EmailVerified := by
  rcases Fields.set_cases _ fk v c c1 h with ⟨dec, hm, hd⟩ | rfl
  · simp only [Customer.fields, List.mem_append, List.mem_cons, List.mem_singleton,
      List.mem_nil_iff, or_false, Fields.viaPtr, List.mem_map, Prod.mk.injEq] at hm
    rcases hm with (⟨e, rfl⟩ | ⟨_, rfl⟩ | ⟨_, rfl⟩ | ⟨_, rfl⟩ | ⟨_, rfl⟩ | ⟨_, rfl⟩ | ⟨_, rfl⟩ | ⟨_, rfl⟩ | ⟨_, rfl⟩ | ⟨_, rfl⟩ | ⟨_, rfl⟩) | ⟨q, hq, hn, rfl⟩
    all_goals
      first
      | exact absurd e hfk
      | (simp only [Option.map_eq_some'] at hd; obtain ⟨x, _, rfl⟩ := hd; rfl)
  · rfl

/-! ### What a decoded element holds -/

/-- An element with an `id` key that decodes as an agent has its `*User`
allocated. -/
theorem unmarshalAgent_User_isSome (O : Objects) (u : JSON) (a : Agent O)
    (hid : carriesID u = true) (h : unmarshalAgent O u = some a) : a.User.isSome = true := by
  cases u with
  | obj kvs =>
    simp only [carriesID, List.any_eq_true, decide_eq_true_eq] at hid
    obtain ⟨kv, hkv, hk⟩ := hid
    refine unmarshalFields_establish (Agent.setField O) (fun a => a.User.isSome = true) kv
      (fun fk v s s1 hs hp => agent_setField_keeps_User O fk v s s1 hs hp) ?_ kvs hkv _ a h
    intro s s1 hs
    rw [hk, agent_setField_ID] at hs
    simp only [Option.map_eq_some'] at hs
    obtain ⟨x, _, rfl⟩ := hs
    rfl
  | _ => simp [carriesID] at hid

/-- An element with an `id` key that decodes as a customer has its `*User`
allocated. -/
theorem unmarshalCustomer_User_isSome (O : Objects) (u : JSON) (c : Customer O)
    (hid : carriesID u = true) (h : unmarshalCustomer O u = some c) :
    c.User.isSome = true := by
  cases u with
  | obj kvs =>
    simp only [carriesID, List.any_eq_true, decide_eq_true_eq] at hid
    obtain ⟨kv, hkv, hk⟩ := hid
    refine unmarshalFields_establish (Customer.setField O) (fun c => c.User.isSome = true) kv
      (fun fk v s s1 hs hp => customer_setField_keeps_User O fk v s s1 hs hp) ?_ kvs hkv _ c h
    intro s s1 hs
    rw [hk, customer_setField_ID] at hs
    simp only [Option.map_eq_some'] at hs
    obtain ⟨x, _, rfl⟩ := hs
    rfl
  | _ => simp [carriesID] at hid

/-- The identity of a decoded agent is the string its `id` field holds. -/
theorem unmarshalAgent_ID (O : Objects) (u : JSON) (a : Agent O) (usr : User O) (s : String)
    (h : unmarshalAgent O u = some a) (hu : a.User = some usr)
    (hf : u.field "ID" = some (.str s)) : usr.ID = s := by
  cases u with
  | obj kvs =>
    have := unmarshalFields_last (Agent.setField O) (fun a => (a.User.getD (User.zero O)).ID)
      "ID" (fun x => x = s) (.str s) kvs
      (fun fk w s0 s1 hne hs => agent_setField_keeps_ID O fk w s0 s1 hne hs)
      (by
        intro s0 s1 hs
        rw [agent_setField_ID] at hs
        cases hs
        rfl)
      hf _ a h
    simpa [hu] using this
  | _ => simp [JSON.field] at hf

/-- The routing status of a decoded agent is the string its `routing_status`
field holds. -/
theorem unmarshalAgent_RoutingStatus (O : Objects) (u : JSON) (a : Agent O) (s : String)
    (h : unmarshalAgent O u = some a) (hf : u.field "ROUTING_STATUS" = some (.str s)) :
    a.RoutingStatus = s := by
  cases u with
  | obj kvs =>
    exact unmarshalFields_last (Agent.setField O) (fun a => a.RoutingStatus)
      "ROUTING_STATUS" (fun x => x = s) (.str s) kvs
      (fun fk w s0 s1 hne hs => agent_setField_keeps_RoutingStatus O fk w s0 s1 hne hs)
      (by
        intro s0 s1 hs
        rw [agent_setField_ROUTING_STATUS] at hs
        cases hs
        rfl)
      hf _ a h
  | _ => simp [JSON.field] at hf

/-- The identity of a decoded customer is the string its `id` field holds. -/
theorem unmarshalCustomer_ID (O : Objects) (u : JSON) (c : Customer O) (usr : User O)
    (s : String) (h : unmarshalCustomer O u = some c) (hu : c.User = some usr)
    (hf : u.field "ID" = some (.str s)) : usr.ID = s := by
  cases u with
  | obj kvs =>
    have := unmarshalFields_last (Customer.setField O)
      (fun c => (c.User.getD (User.zero O)).ID) "ID" (fun x => x = s) (.str s) kvs
      (fun fk w s0 s1 hne hs => customer_setField_keeps_ID O fk w s0 s1 hne hs)
      (by
        intro s0 s1 hs
        rw [customer_setField_ID] at hs
        cases hs
        rfl)
      hf _ c h
    simpa [hu] using this
  | _ => simp [JSON.field] at hf

/-- The flag of a decoded customer is the boolean its `email_verified` field
holds. -/
theorem unmarshalCustomer_EmailVerified (O : Objects) (u : JSON) (c : Customer O) (b : Bool)
    (h : unmarshalCustomer O u = some c) (hf : u.field "EMAIL_VERIFIED" = some (.bool b)) :
    c.EmailVerified = b := by
  cases u with
  | obj kvs =>
    exact unmarshalFields_last (Customer.setField O) (fun c => c.EmailVerified)
      "EMAIL_VERIFIED" (fun x => x = b) (.bool b) kvs
      (fun fk w s0 s1 hne hs => customer_setField_keeps_EmailVerified O fk w s0 s1 hne hs)
      (by
        intro s0 s1 hs
        rw [customer_setField_EMAIL_VERIFIED] at hs
        cases hs
        rfl)
      hf _ c h
  | _ => simp [JSON.field] at hf

end agent

namespace agent

/-- An element that carries the tag "agent" and is the last one of its
identity ends up in `Agents`, under that identity, as it was decoded. -/
theorem usersLoop_places_agent (O : Objects) (pre post : List JSON) (u : JSON)
    (st fin : LoopState O) (h : usersLoop O st (pre ++ u :: post) = .ok fin)
    (ht : elemType u = some "agent") (hlast : ∀ v ∈ post, agentKey O v ≠ agentKey O u) :
    ∃ a usr, unmarshalAgent O u = some a ∧ a.User = some usr ∧
      fin.Agents.lookup usr.ID = some (some a) := by
  obtain ⟨st1, _, h1⟩ := usersLoop_append_ok O pre (u :: post) st fin h
  obtain ⟨st2, h2, h3⟩ := usersLoop_cons_ok O st1 fin u post h1
  obtain ⟨ty, hty, _, hc⟩ := usersStep_ok O st1 st2 u h2
  rw [unmarshalTag_of_elemType u "agent" ht (by decide)] at hty
  cases hty
  rcases hc with ⟨_, a, usr, ha, hu, hA, _⟩ | ⟨e, _⟩ | ⟨e, _⟩
  · refine ⟨a, usr, ha, hu, ?_⟩
    have hk := agentKey_of_unmarshalAgent O u a usr ha hu
    rw [usersLoop_agents_lookup O usr.ID post st2 fin h3 (fun v hv => hk ▸ hlast v hv), hA]
    exact GoMap.lookup_insert_self _ _ _
  · exact absurd e (by decide)
  · exact absurd rfl e

/-- An element that carries the tag "customer" and is the last one of its
identity ends up in `Customers`, under that identity, as it was decoded. -/
theorem usersLoop_places_customer (O : Objects) (pre post : List JSON) (u : JSON)
    (st fin : LoopState O) (h : usersLoop O st (pre ++ u :: post) = .ok fin)
    (ht : elemType u = some "customer")
    (hlast : ∀ v ∈ post, customerKey O v ≠ customerKey O u) :
    ∃ cu usr, unmarshalCustomer O u = some cu ∧ cu.User = some usr ∧
      fin.Customers.lookup usr.ID = some (some cu) := by
  obtain ⟨st1, _, h1⟩ := usersLoop_append_ok O pre (u :: post) st fin h
  obtain ⟨st2, h2, h3⟩ := usersLoop_cons_ok O st1 fin u post h1
  obtain ⟨ty, hty, _, hc⟩ := usersStep_ok O st1 st2 u h2
  rw [unmarshalTag_of_elemType u "customer" ht (by decide)] at hty
  cases hty
  rcases hc with ⟨e, _⟩ | ⟨_, cu, usr, ha, hu, hC, _⟩ | ⟨_, e, _⟩
  · exact absurd e (by decide)
  · refine ⟨cu, usr, ha, hu, ?_⟩
    have hk := customerKey_of_unmarshalCustomer O u cu usr ha hu
    rw [usersLoop_customers_lookup O usr.ID post st2 fin h3 (fun v hv => hk ▸ hlast v hv), hC]
    exact GoMap.lookup_insert_self _ _ _
  · exact absurd rfl e

theorem GoMap.mem_keys_of_lookup {α : Type} (m : GoMap α) (k : String) (v : α)
    (h : m.lookup k = some v) : k ∈ m.keys := by
  simp only [GoMap.lookup, Option.map_eq_some'] at h
  obtain ⟨p, hp, _⟩ := h
  have h1 := List.mem_of_find?_eq_some hp
  have h2 := List.find?_some hp
  simp only [decide_eq_true_eq] at h2
  simp only [GoMap.keys, List.mem_map]
  exact ⟨p, h1, h2⟩

end agent

namespace agent

theorem usersLoop_cons (O : Objects) (st : LoopState O) (u : JSON) (us : List JSON) :
    usersLoop O st (u :: us) =
      match usersStep O st u with
      | .ok st1 => usersLoop O st1 us
      | .error => .error
      | .panic => .panic := rfl

theorem usersLoop_append (O : Objects) :
    ∀ (xs ys : List JSON) (st : LoopState O),
      usersLoop O st (xs ++ ys) =
        match usersLoop O st xs with
        | .ok st1 => usersLoop O st1 ys
        | .error => .error
        | .panic => .panic := by
  intro xs
  induction xs with
  | nil => intro ys st; rfl
  | cons x xs ih =>
    intro ys st
    rw [List.cons_append, usersLoop_cons, usersLoop_cons]
    cases usersStep O st x with
    | ok st1 => exact ih ys st1
    | error => rfl
    | panic => rfl

/-- An element with an `id` key never makes an iteration panic. -/
theorem usersStep_ne_panic (O : Objects) (st : LoopState O) (u : JSON)
    (hid : carriesID u = true) : usersStep O st u ≠ .panic := by
  unfold usersStep
  cases unmarshalTag u st.Type_ with
  | none => simp
  | some ty =>
    by_cases h1 : ty = "agent"
    · simp only [h1, if_true]
      cases ha : unmarshalAgent O u with
      | none => simp
      | some a =>
        have := unmarshalAgent_User_isSome O u a hid ha
        cases hu : a.User with
        | none => rw [hu] at this; cases this
        | some usr => simp [hu]
    · simp only [h1, if_false]
      by_cases h2 : ty = "customer"
      · simp only [h2, if_true]
        cases ha : unmarshalCustomer O u with
        | none => simp
        | some cu =>
          have := unmarshalCustomer_User_isSome O u cu hid ha
          cases hu : cu.User with
          | none => rw [hu] at this; cases this
          | some usr => simp [hu]
      · simp only [h2, if_false]
        simp

theorem usersLoop_ne_panic (O : Objects) :
    ∀ (us : List JSON) (st : LoopState O), (∀ u ∈ us, carriesID u = true) →
      usersLoop O st us ≠ .panic := by
  intro us
  induction us with
  | nil => intro st _; simp [usersLoop]
  | cons x xs ih =>
    intro st h
    unfold usersLoop
    cases hs : usersStep O st x with
    | ok st1 => exact ih st1 (fun u hu => h u (List.mem_cons_of_mem _ hu))
    | error => simp
    | panic => exact absurd hs (usersStep_ne_panic O st x (h x (List.mem_cons_self _ _)))

/-- An element on which every iteration reports an error makes the loop end
without a result, and with an error when the elements before it carry an
`id`. -/
theorem usersLoop_of_step_error (O : Objects) (pre post : List JSON) (bad : JSON)
    (st : LoopState O) (hbad : ∀ st1, usersStep O st1 bad = .error) :
    (∀ fin, usersLoop O st (pre ++ bad :: post) ≠ .ok fin) ∧
    ((∀ u ∈ pre, carriesID u = true) → usersLoop O st (pre ++ bad :: post) = .error) := by
  rw [usersLoop_append]
  have hcons : ∀ st1, usersLoop O st1 (bad :: post) = .error := by
    intro st1
    unfold usersLoop
    rw [hbad st1]
  cases hp : usersLoop O st pre with
  | ok st1 =>
    show (∀ fin, usersLoop O st1 (bad :: post) ≠ .ok fin) ∧
      ((∀ u ∈ pre, carriesID u = true) → usersLoop O st1 (bad :: post) = .error)
    rw [hcons]
    exact ⟨(fun fin h => by cases h), fun _ => rfl⟩
  | error => exact ⟨(fun fin h => by cases h), fun _ => rfl⟩
  | panic =>
    exact ⟨(fun fin h => by cases h), fun hid => absurd hp (usersLoop_ne_panic O pre st hid)⟩

/-- The outcome of `Chat.UnmarshalJSON` once `cs` is decoded. -/
theorem Chat.UnmarshalJSON_of_loop_error (O : Objects) (data : RawMessage) (cs : CS O)
    (hcs : unmarshalCS O data = some cs)
    (h1 : ∀ fin, usersLoop O ⟨"", [], []⟩ cs.Users ≠ .ok fin) :
    (∀ c, Chat.UnmarshalJSON O data ≠ .ok c) ∧
    (cs.ChatAlias ≠ none → usersLoop O ⟨"", [], []⟩ cs.Users = .error →
      Chat.UnmarshalJSON O data = .error) := by
  unfold Chat.UnmarshalJSON
  rw [hcs]
  simp only
  cases ha : cs.ChatAlias with
  | none => exact ⟨(fun c h => by cases h), fun h => absurd rfl h⟩
  | some ca =>
    simp only
    cases hl : usersLoop O ⟨"", [], []⟩ cs.Users with
    | ok fin => exact absurd hl (h1 fin)
    | error => exact ⟨(fun c h => by cases h), fun _ _ => rfl⟩
    | panic => exact ⟨(fun c h => by cases h), (fun _ h => by cases h)⟩

theorem agent_setField_ill (O : Objects) (fk : String) (v : JSON)
    (h : variantIllShaped "agent" fk v = true ∨ commonIllTyped fk v = true) (a : Agent O) :
    Agent.setField O fk v a = none := by
  simp only [variantIllShaped, commonIllTyped, if_true, Bool.and_eq_true, Bool.or_eq_true,
    decide_eq_true_eq, Bool.not_eq_true'] at h
  rcases h with ⟨rfl | rfl, hv⟩ | ⟨rfl | rfl | rfl | rfl | rfl, hv⟩ | ⟨rfl, hv⟩
  all_goals
    cases v <;> first | rfl | (simp [JSON.stringShaped, JSON.boolShaped] at hv)

theorem customer_setField_ill (O : Objects) (fk : String) (v : JSON)
    (h : variantIllShaped "customer" fk v = true ∨ commonIllTyped fk v = true)
    (c : Customer O) : Customer.setField O fk v c = none := by
  have hne : ¬ ("customer" = "agent") := by decide
  simp only [variantIllShaped, commonIllTyped, hne, if_true, if_false, Bool.and_eq_true,
    Bool.or_eq_true, decide_eq_true_eq, Bool.not_eq_true'] at h
  rcases h with (((⟨rfl | rfl | rfl, hv⟩ | ⟨rfl, hv⟩) | ⟨rfl | rfl, hv⟩) | ⟨rfl, hv⟩) |
    ⟨rfl | rfl | rfl | rfl | rfl, hv⟩ | ⟨rfl, hv⟩
  all_goals
    cases v <;> first
      | rfl
      | (simp [JSON.stringShaped, JSON.boolShaped, JSON.arrayShaped, JSON.objectShaped] at hv)

/-- An object that carries a recognized tag and holds an ill-shaped variant
field or an ill-typed common field makes every iteration report an error. -/
theorem usersStep_error_of_ill (O : Objects) (kvs : List (String × JSON)) (k : String)
    (v : JSON) (tag : String) (hkv : (k, v) ∈ kvs) (htag : elemType (.obj kvs) = some tag)
    (hrec : tag = "agent" ∨ tag = "customer")
    (hill : variantIllShaped tag (foldName k) v = true ∨ commonIllTyped (foldName k) v = true)
    (st : LoopState O) : usersStep O st (.obj kvs) = .error := by
  have hne : tag ≠ "" := by rcases hrec with rfl | rfl <;> decide
  unfold usersStep
  rw [unmarshalTag_of_elemType _ tag htag hne]
  rcases hrec with rfl | rfl
  · have : unmarshalAgent O (.obj kvs) = none :=
      unmarshalFields_none_of_mem (Agent.setField O) (k, v)
        (fun s => agent_setField_ill O _ v hill s) kvs hkv _
    simp only [if_true, this]
  · have : unmarshalCustomer O (.obj kvs) = none :=
      unmarshalFields_none_of_mem (Customer.setField O) (k, v)
        (fun s => customer_setField_ill O _ v hill s) kvs hkv _
    have hne2 : ¬ ("customer" = "agent") := by decide
    simp only [hne2, if_true, if_false, this]

theorem usersStep_error_of_corrupt (O : Objects) (bad : JSON)
    (h : corruptElement bad = true) (st : LoopState O) : usersStep O st bad = .error := by
  cases bad with
  | null => simp [corruptElement] at h
  | obj kvs =>
    simp only [corruptElement, recognized, Bool.and_eq_true, Bool.or_eq_true,
      decide_eq_true_eq, List.any_eq_true] at h
    obtain ⟨hrec, ⟨k, v⟩, hkv, hill⟩ := h
    rcases hrec with ht | ht
    · exact usersStep_error_of_ill O kvs k v "agent" hkv ht (Or.inl rfl) (Or.inr hill) st
    · exact usersStep_error_of_ill O kvs k v "customer" hkv ht (Or.inr rfl) (Or.inr hill) st
  | _ => rfl

end agent

namespace agent

/-- With tags carried by the elements themselves and identities that differ
within a variant, the loop adds one entry per recognized element. -/
theorem usersLoop_len (O : Objects) :
    ∀ (us : List JSON) (st fin : LoopState O), usersLoop O st us = .ok fin →
      (∀ u ∈ us, carriesType u = true) → us.Pairwise (apartWithin O) →
      (∀ v ∈ us, elemType v = some "agent" → ∀ k ∈ st.Agents.keys, agentKey O v ≠ some k) →
      (∀ v ∈ us, elemType v = some "customer" →
        ∀ k ∈ st.Customers.keys, customerKey O v ≠ some k) →
      fin.Agents.len = st.Agents.len + us.countP (fun u => decide (elemType u = some "agent")) ∧
      fin.Customers.len =
        st.Customers.len + us.countP (fun u => decide (elemType u = some "customer")) := by
  intro us
  induction us with
  | nil => intro st fin h _ _ _ _; cases h; exact ⟨rfl, rfl⟩
  | cons x xs ih =>
    intro st fin h hty hpw hA hC
    obtain ⟨st1, h1, h2⟩ := usersLoop_cons_ok O st fin x xs h
    obtain ⟨ty, htag, _, hc⟩ := usersStep_ok O st st1 x h1
    rw [unmarshalTag_of_carriesType x (hty x (List.mem_cons_self _ _))] at htag
    have hpw1 := (List.pairwise_cons.mp hpw).1
    have hpw2 := (List.pairwise_cons.mp hpw).2
    have hty2 : ∀ u ∈ xs, carriesType u = true := fun u hu => hty u (List.mem_cons_of_mem _ hu)
    rcases hc with ⟨rfl, a, usr, ha, hu, eA, eC⟩ | ⟨rfl, cu, usr, ha, hu, eC, eA⟩ |
      ⟨n1, n2, eA, eC⟩
    · have hk := agentKey_of_unmarshalAgent O x a usr ha hu
      have hfresh : usr.ID ∉ st.Agents.keys := fun hm =>
        hA x (List.mem_cons_self _ _) htag usr.ID hm hk
      obtain ⟨r1, r2⟩ := ih st1 fin h2 hty2 hpw2
        (by
          intro v hv hvt k hkm
          rw [eA] at hkm
          rcases (GoMap.mem_keys_insert _ _ _ _).mp hkm with e | hm
          · intro hvk
            exact (hpw1 v hv).1 htag hvt (by rw [hk, hvk, e])
          · exact hA v (List.mem_cons_of_mem _ hv) hvt k hm)
        (by
          intro v hv hvt k hkm
          rw [eC] at hkm
          exact hC v (List.mem_cons_of_mem _ hv) hvt k hkm)
      have c1 : (x :: xs).countP (fun u => decide (elemType u = some "agent")) =
          xs.countP (fun u => decide (elemType u = some "agent")) + 1 := by
        simp [List.countP_cons, htag]
      have c2 : (x :: xs).countP (fun u => decide (elemType u = some "customer")) =
          xs.countP (fun u => decide (elemType u = some "customer")) := by
        simp [List.countP_cons, htag]
      rw [c1, c2, r1, r2, eA, eC, GoMap.len_insert_fresh _ _ _ hfresh]
      exact ⟨by omega, rfl⟩
    · have hk := customerKey_of_unmarshalCustomer O x cu usr ha hu
      have hfresh : usr.ID ∉ st.Customers.keys := fun hm =>
        hC x (List.mem_cons_self _ _) htag usr.ID hm hk
      obtain ⟨r1, r2⟩ := ih st1 fin h2 hty2 hpw2
        (by
          intro v hv hvt k hkm
          rw [eA] at hkm
          exact hA v (List.mem_cons_of_mem _ hv) hvt k hkm)
        (by
          intro v hv hvt k hkm
          rw [eC] at hkm
          rcases (GoMap.mem_keys_insert _ _ _ _).mp hkm with e | hm
          · intro hvk
            exact (hpw1 v hv).2 htag hvt (by rw [hk, hvk, e])
          · exact hC v (List.mem_cons_of_mem _ hv) hvt k hm)
      have c1 : (x :: xs).countP (fun u => decide (elemType u = some "agent")) =
          xs.countP (fun u => decide (elemType u = some "agent")) := by
        simp [List.countP_cons, htag]
      have c2 : (x :: xs).countP (fun u => decide (elemType u = some "customer")) =
          xs.countP (fun u => decide (elemType u = some "customer")) + 1 := by
        simp [List.countP_cons, htag]
      rw [c1, c2, r1, r2, eA, eC, GoMap.len_insert_fresh _ _ _ hfresh]
      exact ⟨rfl, by omega⟩
    · obtain ⟨r1, r2⟩ := ih st1 fin h2 hty2 hpw2
        (by
          intro v hv hvt k hkm
          rw [eA] at hkm
          exact hA v (List.mem_cons_of_mem _ hv) hvt k hkm)
        (by
          intro v hv hvt k hkm
          rw [eC] at hkm
          exact hC v (List.mem_cons_of_mem _ hv) hvt k hkm)
      have c1 : (x :: xs).countP (fun u => decide (elemType u = some "agent")) =
          xs.countP (fun u => decide (elemType u = some "agent")) := by
        simp [List.countP_cons, htag, n1]
      have c2 : (x :: xs).countP (fun u => decide (elemType u = some "customer")) =
          xs.countP (fun u => decide (elemType u = some "customer")) := by
        simp [List.countP_cons, htag, n2]
      rw [c1, c2, r1, r2, eA, eC]
      exact ⟨rfl, rfl⟩

/-- The recognized elements are those that carry "agent" and those that carry
"customer". -/
theorem countP_recognized (us : List JSON) :
    us.countP recognized =
      us.countP (fun u => decide (elemType u = some "agent")) +
        us.countP (fun u => decide (elemType u = some "customer")) := by
  induction us with
  | nil => rfl
  | cons x xs ih =>
    simp only [List.countP_cons, ih, recognized]
    by_cases h1 : elemType x = some "agent"
    · have h2 : ¬ elemType x = some "customer" := by rw [h1]; decide
      simp [h1]
      omega
    · by_cases h2 : elemType x = some "customer"
      · simp [h2]
        omega
      · simp [h1, h2]

/-- With tags carried by the elements themselves and identities that differ
between the elements tagged "agent" and those tagged "customer", the loop keeps
the keys of the two maps apart. -/
theorem usersLoop_disjoint (O : Objects) :
    ∀ (us : List JSON) (st fin : LoopState O), usersLoop O st us = .ok fin →
      (∀ u ∈ us, carriesType u = true) → us.Pairwise (apartAcross O) →
      (∀ v ∈ us, elemType v = some "customer" →
        ∀ k ∈ st.Agents.keys, customerKey O v ≠ some k) →
      (∀ v ∈ us, elemType v = some "agent" →
        ∀ k ∈ st.Customers.keys, agentKey O v ≠ some k) →
      (∀ k, k ∈ st.Agents.keys → k ∉ st.Customers.keys) →
      ∀ k, k ∈ fin.Agents.keys → k ∉ fin.Customers.keys := by
  intro us
  induction us with
  | nil => intro st fin h _ _ _ _ hd; cases h; exact hd
  | cons x xs ih =>
    intro st fin h hty hpw hA hC hd
    obtain ⟨st1, h1, h2⟩ := usersLoop_cons_ok O st fin x xs h
    obtain ⟨ty, htag, _, hc⟩ := usersStep_ok O st st1 x h1
    rw [unmarshalTag_of_carriesType x (hty x (List.mem_cons_self _ _))] at htag
    have hpw1 := (List.pairwise_cons.mp hpw).1
    have hpw2 := (List.pairwise_cons.mp hpw).2
    have hty2 : ∀ u ∈ xs, carriesType u = true := fun u hu => hty u (List.mem_cons_of_mem _ hu)
    rcases hc with ⟨rfl, a, usr, ha, hu, eA, eC⟩ | ⟨rfl, cu, usr, ha, hu, eC, eA⟩ |
      ⟨_, _, eA, eC⟩
    · have hk := agentKey_of_unmarshalAgent O x a usr ha hu
      apply ih st1 fin h2 hty2 hpw2
      · intro v hv hvt k hkm
        rw [eA] at hkm
        rcases (GoMap.mem_keys_insert _ _ _ _).mp hkm with e | hm
        · intro hvk
          exact (hpw1 v hv).1 htag hvt (by rw [hk, hvk, e])
        · exact hA v (List.mem_cons_of_mem _ hv) hvt k hm
      · intro v hv hvt k hkm
        rw [eC] at hkm
        exact hC v (List.mem_cons_of_mem _ hv) hvt k hkm
      · intro k hkA hkC
        rw [eA] at hkA
        rw [eC] at hkC
        rcases (GoMap.mem_keys_insert _ _ _ _).mp hkA with e | hm
        · exact hC x (List.mem_cons_self _ _) htag k hkC (by rw [hk, e])
        · exact hd k hm hkC
    · have hk := customerKey_of_unmarshalCustomer O x cu usr ha hu
      apply ih st1 fin h2 hty2 hpw2
      · intro v hv hvt k hkm
        rw [eA] at hkm
        exact hA v (List.mem_cons_of_mem _ hv) hvt k hkm
      · intro v hv hvt k hkm
        rw [eC] at hkm
        rcases (GoMap.mem_keys_insert _ _ _ _).mp hkm with e | hm
        · intro hvk
          exact (hpw1 v hv).2 htag hvt (by rw [hk, hvk, e])
        · exact hC v (List.mem_cons_of_mem _ hv) hvt k hm
      · intro k hkA hkC
        rw [eA] at hkA
        rw [eC] at hkC
        rcases (GoMap.mem_keys_insert _ _ _ _).mp hkC with e | hm
        · exact hA x (List.mem_cons_self _ _) htag k hkA (by rw [hk, e])
        · exact hd k hkA hm
    · apply ih st1 fin h2 hty2 hpw2
      · intro v hv hvt k hkm
        rw [eA] at hkm
        exact hA v (List.mem_cons_of_mem _ hv) hvt k hkm
      · intro v hv hvt k hkm
        rw [eC] at hkm
        exact hC v (List.mem_cons_of_mem _ hv) hvt k hkm
      · intro k hkA hkC
        rw [eA] at hkA
        rw [eC] at hkC
        exact hd k hkA hkC

end agent

/-! ### The users of a chat -/

namespace agent

theorem rangeUsers_ok {O : Objects} {α : Type} (user : α → Option (User O)) :
    ∀ (es : List (String × Option α)) (acc : List (Option (User O))),
      (∀ p ∈ es, p.2 ≠ none) →
      rangeUsers user es acc = .ok (acc ++ es.map (fun p => p.2.bind user)) := by
  intro es
  induction es with
  | nil => intro acc _; simp [rangeUsers]
  | cons p ps ih =>
    intro acc h
    obtain ⟨k, v⟩ := p
    cases v with
    | none => exact absurd rfl (h (k, none) (List.mem_cons_self _ _))
    | some a =>
      simp only [rangeUsers]
      rw [ih (acc ++ [user a]) (fun q hq => h q (List.mem_cons_of_mem _ hq))]
      simp

end agent

namespace agent

theorem GoMap.insert_fresh {α : Type} (m : GoMap α) (k : String) (v : α)
    (h : k ∉ m.keys) : m.insert k v = (k, v) :: m := by
  have : m.filter (fun p => decide (p.1 ≠ k)) = m := by
    apply List.filter_eq_self.mpr
    intro p hp
    simp only [decide_eq_true_eq]
    intro e
    exact h (by simp only [GoMap.keys, List.mem_map]; exact ⟨p, hp, e⟩)
  unfold GoMap.insert
  rw [this]

/-- With tags carried by the elements themselves and identities that differ
within a variant, the maps hold, in some order, the users of the elements of
each tag. -/
theorem usersLoop_users (O : Objects) :
    ∀ (us : List JSON) (st fin : LoopState O), usersLoop O st us = .ok fin →
      (∀ u ∈ us, carriesType u = true) → us.Pairwise (apartWithin O) →
      (∀ v ∈ us, elemType v = some "agent" → ∀ k ∈ st.Agents.keys, agentKey O v ≠ some k) →
      (∀ v ∈ us, elemType v = some "customer" →
        ∀ k ∈ st.Customers.keys, customerKey O v ≠ some k) →
      (fin.Agents.map (fun p => p.2.bind (fun a => a.User))).Perm
        (st.Agents.map (fun p => p.2.bind (fun a => a.User)) ++
          (us.filter (fun u => decide (elemType u = some "agent"))).map (agentUser O)) ∧
      (fin.Customers.map (fun p => p.2.bind (fun cu => cu.User))).Perm
        (st.Customers.map (fun p => p.2.bind (fun cu => cu.User)) ++
          (us.filter (fun u => decide (elemType u = some "customer"))).map (customerUser O)) := by
  intro us
  induction us with
  | nil => intro st fin h _ _ _ _; cases h; simp
  | cons x xs ih =>
    intro st fin h hty hpw hA hC
    obtain ⟨st1, h1, h2⟩ := usersLoop_cons_ok O st fin x xs h
    obtain ⟨ty, htag, _, hc⟩ := usersStep_ok O st st1 x h1
    rw [unmarshalTag_of_carriesType x (hty x (List.mem_cons_self _ _))] at htag
    have hpw1 := (List.pairwise_cons.mp hpw).1
    have hpw2 := (List.pairwise_cons.mp hpw).2
    have hty2 : ∀ u ∈ xs, carriesType u = true := fun u hu => hty u (List.mem_cons_of_mem _ hu)
    rcases hc with ⟨rfl, a, usr, ha, hu, eA, eC⟩ | ⟨rfl, cu, usr, ha, hu, eC, eA⟩ |
      ⟨n1, n2, eA, eC⟩
    · have hk := agentKey_of_unmarshalAgent O x a usr ha hu
      have hfresh : usr.ID ∉ st.Agents.keys := fun hm =>
        hA x (List.mem_cons_self _ _) htag usr.ID hm hk
      obtain ⟨r1, r2⟩ := ih st1 fin h2 hty2 hpw2
        (by
          intro v hv hvt k hkm
          rw [eA] at hkm
          rcases (GoMap.mem_keys_insert _ _ _ _).mp hkm with e | hm
          · intro hvk
            exact (hpw1 v hv).1 htag hvt (by rw [hk, hvk, e])
          · exact hA v (List.mem_cons_of_mem _ hv) hvt k hm)
        (by
          intro v hv hvt k hkm
          rw [eC] at hkm
          exact hC v (List.mem_cons_of_mem _ hv) hvt k hkm)
      have f1 : (x :: xs).filter (fun u => decide (elemType u = some "agent")) =
          x :: xs.filter (fun u => decide (elemType u = some "agent")) := by
        simp [List.filter_cons, htag]
      have f2 : (x :: xs).filter (fun u => decide (elemType u = some "customer")) =
          xs.filter (fun u => decide (elemType u = some "customer")) := by
        simp [List.filter_cons, htag]
      have hx : agentUser O x = some usr := by simp [agentUser, ha, hu]
      rw [f1, f2]
      rw [eA, GoMap.insert_fresh _ _ _ hfresh] at r1
      rw [eC] at r2
      refine ⟨r1.trans ?_, r2⟩
      have e0 : (some a).bind (fun a => a.User) = some usr := hu
      simp only [List.map_cons, hx, List.cons_append]
      rw [e0]
      exact List.perm_middle.symm
    · have hk := customerKey_of_unmarshalCustomer O x cu usr ha hu
      have hfresh : usr.ID ∉ st.Customers.keys := fun hm =>
        hC x (List.mem_cons_self _ _) htag usr.ID hm hk
      obtain ⟨r1, r2⟩ := ih st1 fin h2 hty2 hpw2
        (by
          intro v hv hvt k hkm
          rw [eA] at hkm
          exact hA v (List.mem_cons_of_mem _ hv) hvt k hkm)
        (by
          intro v hv hvt k hkm
          rw [eC] at hkm
          rcases (GoMap.mem_keys_insert _ _ _ _).mp hkm with e | hm
          · intro hvk
            exact (hpw1 v hv).2 htag hvt (by rw [hk, hvk, e])
          · exact hC v (List.mem_cons_of_mem _ hv) hvt k hm)
      have f1 : (x :: xs).filter (fun u => decide (elemType u = some "agent")) =
          xs.filter (fun u => decide (elemType u = some "agent")) := by
        simp [List.filter_cons, htag]
      have f2 : (x :: xs).filter (fun u => decide (elemType u = some "customer")) =
          x :: xs.filter (fun u => decide (elemType u = some "customer")) := by
        simp [List.filter_cons, htag]
      have hx : customerUser O x = some usr := by simp [customerUser, ha, hu]
      rw [f1, f2]
      rw [eA] at r1
      rw [eC, GoMap.insert_fresh _ _ _ hfresh] at r2
      refine ⟨r1, r2.trans ?_⟩
      have e0 : (some cu).bind (fun cu => cu.User) = some usr := hu
      simp only [List.map_cons, hx, List.cons_append]
      rw [e0]
      exact List.perm_middle.symm
    · obtain ⟨r1, r2⟩ := ih st1 fin h2 hty2 hpw2
        (by
          intro v hv hvt k hkm
          rw [eA] at hkm
          exact hA v (List.mem_cons_of_mem _ hv) hvt k hkm)
        (by
          intro v hv hvt k hkm
          rw [eC] at hkm
          exact hC v (List.mem_cons_of_mem _ hv) hvt k hkm)
      have f1 : (x :: xs).filter (fun u => decide (elemType u = some "agent")) =
          xs.filter (fun u => decide (elemType u = some "agent")) := by
        simp [List.filter_cons, htag, n1]
      have f2 : (x :: xs).filter (fun u => decide (elemType u = some "customer")) =
          xs.filter (fun u => decide (elemType u = some "customer")) := by
        simp [List.filter_cons, htag, n2]
      rw [f1, f2]
      rw [eA] at r1
      rw [eC] at r2
      exact ⟨r1, r2⟩

/-- The maps of a decoded chat hold no nil entry. -/
theorem usersLoop_entries_ne_none (O : Objects) :
    ∀ (us : List JSON) (st fin : LoopState O), usersLoop O st us = .ok fin →
      (∀ p ∈ st.Agents, p.2 ≠ none) → (∀ p ∈ st.Customers, p.2 ≠ none) →
      (∀ p ∈ fin.Agents, p.2 ≠ none) ∧ (∀ p ∈ fin.Customers, p.2 ≠ none) := by
  intro us
  induction us with
  | nil => intro st fin h hA hC; cases h; exact ⟨hA, hC⟩
  | cons x xs ih =>
    intro st fin h hA hC
    obtain ⟨st1, h1, h2⟩ := usersLoop_cons_ok O st fin x xs h
    obtain ⟨ty, _, _, hc⟩ := usersStep_ok O st st1 x h1
    have hins : ∀ {α : Type} (m : GoMap (Option α)) (k : String) (a : α),
        (∀ p ∈ m, p.2 ≠ none) → ∀ p ∈ m.insert k (some a), p.2 ≠ none := by
      intro α m k a hm p hp
      simp only [GoMap.insert, List.mem_cons, List.mem_filter] at hp
      rcases hp with rfl | ⟨hp, _⟩
      · simp
      · exact hm p hp
    apply ih st1 fin h2
    · rcases hc with ⟨_, a, usr, _, _, e, _⟩ | ⟨_, _, _, _, _, _, e⟩ | ⟨_, _, e, _⟩
      · rw [e]; exact hins _ _ _ hA
      · rw [e]; exact hA
      · rw [e]; exact hA
    · rcases hc with ⟨_, a, usr, _, _, _, e⟩ | ⟨_, _, _, _, _, e, _⟩ | ⟨_, _, _, e⟩
      · rw [e]; exact hC
      · rw [e]; exact hins _ _ _ hC
      · rw [e]; exact hC

end agent

/-! ### The envelope and its fragments -/

namespace agent

/-- Every field of `User` is found under its own name. -/
theorem User.fields_lookup_self (O : Objects) :
    ∀ p ∈ User.fields O, (User.fields O).lookup p.1 = some p.2 := by
  intro p hp
  simp only [User.fields, List.mem_cons, List.mem_singleton, List.mem_nil_iff, or_false] at hp
  rcases hp with rfl|rfl|rfl|rfl|rfl|rfl|rfl|rfl|rfl|rfl|rfl|rfl|rfl|rfl|rfl|rfl|rfl|rfl|rfl|rfl
  all_goals rfl

/-- The decoder of a common field of `User` leaves the fragments as they are,
and its outcome depends on the common fields alone. -/
theorem user_fields_common (O : Objects) :
    ∀ p ∈ User.fields O, p.1 ∈ User.commonNames → ∀ (v : JSON) (u : User O),
      (∀ u1, p.2 v u = some u1 → u1.touserSpecific = u.touserSpecific) ∧
      (∀ u2 x, u.common = u2.common → p.2 v u = some x →
        ∃ x2, p.2 v u2 = some x2 ∧ x.common = x2.common) := by
  intro p hp
  simp only [User.fields, List.mem_cons, List.mem_singleton, List.mem_nil_iff, or_false] at hp
  rcases hp with rfl|rfl|rfl|rfl|rfl|rfl|rfl|rfl|rfl|rfl|rfl|rfl|rfl|rfl|rfl|rfl|rfl|rfl|rfl|rfl
  all_goals
    intro hc v u
    first
    | (exfalso; dsimp only at hc; revert hc; decide)
    | (constructor
       · intro u1 h
         simp only [Option.map_eq_some'] at h
         obtain ⟨y, _, rfl⟩ := h
         rfl
       · intro u2 x hcom h
         simp only [User.common, Prod.mk.injEq] at hcom
         obtain ⟨h1, h2, h3, h4, h5, h6, h7⟩ := hcom
         simp only [Option.map_eq_some'] at h
         obtain ⟨y, hy, rfl⟩ := h
         first
         | (rw [h1] at hy; exact ⟨_, by (simp only [hy, Option.map_some']; rfl), by simp [User.common, *]⟩)
         | (rw [h2] at hy; exact ⟨_, by (simp only [hy, Option.map_some']; rfl), by simp [User.common, *]⟩)
         | (rw [h3] at hy; exact ⟨_, by (simp only [hy, Option.map_some']; rfl), by simp [User.common, *]⟩)
         | (rw [h4] at hy; exact ⟨_, by (simp only [hy, Option.map_some']; rfl), by simp [User.common, *]⟩)
         | (rw [h5] at hy; exact ⟨_, by (simp only [hy, Option.map_some']; rfl), by simp [User.common, *]⟩)
         | (rw [h6] at hy; exact ⟨_, by (simp only [hy, Option.map_some']; rfl), by simp [User.common, *]⟩)
         | (rw [h7] at hy; exact ⟨_, by (simp only [hy, Option.map_some']; rfl), by simp [User.common, *]⟩))

/-- The decoder of a fragment of `User` always succeeds: it stores the value
under its name and leaves the common fields and the other fragments as they
are. -/
theorem user_fields_fragment (O : Objects) :
    ∀ p ∈ User.fields O, p.1 ∉ User.commonNames → ∀ (v : JSON) (u : User O),
      ∃ u1, p.2 v u = some u1 ∧ u1.common = u.common ∧
        u1.touserSpecific.fragment p.1 = .valid v ∧
        ∀ name, name ≠ p.1 →
          u1.touserSpecific.fragment name = u.touserSpecific.fragment name := by
  intro p hp
  simp only [User.fields, List.mem_cons, List.mem_singleton, List.mem_nil_iff, or_false] at hp
  rcases hp with rfl|rfl|rfl|rfl|rfl|rfl|rfl|rfl|rfl|rfl|rfl|rfl|rfl|rfl|rfl|rfl|rfl|rfl|rfl|rfl
  all_goals
    intro hc v u
    first
    | (refine ⟨_, rfl, rfl, rfl, ?_⟩
       intro name hne
       simp only [userSpecific.fragment, hne, if_false])
    | (exfalso; apply hc; simp [User.commonNames])

end agent

/-! ## Common fields and fragments of an envelope -/

section envelope

variable {σ γ : Type} (fs : Fields σ) (names : List String) (common : σ → γ)
  (frag : String → σ → RawMessage)

/-- A struct whose common-field decoders depend on the common fields alone and
whose other decoders always succeed and keep the common fields: the field
setter maps states with the same common fields to states with the same common
fields. -/
theorem Fields.set_common_sim
    (hC : ∀ p ∈ fs, p.1 ∈ names → ∀ (v : JSON) (u u2 x : σ), common u = common u2 →
      p.2 v u = some x → ∃ x2, p.2 v u2 = some x2 ∧ common x = common x2)
    (hF : ∀ p ∈ fs, p.1 ∉ names → ∀ (v : JSON) (u : σ),
      ∃ u1, p.2 v u = some u1 ∧ common u1 = common u)
    (fk : String) (v : JSON) (u u2 x : σ) (h : fs.set fk v u = some x)
    (hcom : common u = common u2) :
    ∃ x2, fs.set fk v u2 = some x2 ∧ common x = common x2 := by
  unfold Fields.set at h ⊢
  cases hl : fs.lookup fk with
  | none => rw [hl] at h; cases h; exact ⟨u2, rfl, hcom⟩
  | some dec =>
    rw [hl] at h
    have hm := Fields.mem_of_lookup fs fk dec hl
    by_cases hn : fk ∈ names
    · exact hC (fk, dec) hm hn v u u2 x hcom h
    · obtain ⟨u1, e1, c1⟩ := hF (fk, dec) hm hn v u
      obtain ⟨u3, e3, c3⟩ := hF (fk, dec) hm hn v u2
      simp only at e1 e3 h
      rw [e1] at h
      cases h
      exact ⟨u3, e3, by rw [c1, c3, hcom]⟩

/-- A key that is no common field never makes the field setter fail and leaves
the common fields as they are. -/
theorem Fields.set_not_common
    (hF : ∀ p ∈ fs, p.1 ∉ names → ∀ (v : JSON) (u : σ),
      ∃ u1, p.2 v u = some u1 ∧ common u1 = common u)
    (fk : String) (hn : fk ∉ names) (v : JSON) (u : σ) :
    ∃ x, fs.set fk v u = some x ∧ common x = common u := by
  unfold Fields.set
  cases hl : fs.lookup fk with
  | none => exact ⟨u, rfl, rfl⟩
  | some dec => exact hF (fk, dec) (Fields.mem_of_lookup fs fk dec hl) hn v u

/-- An object decodes as soon as the object stripped of every key that is no
common field decodes, and to the same common fields. -/
theorem unmarshalFields_of_restrict
    (hC : ∀ p ∈ fs, p.1 ∈ names → ∀ (v : JSON) (u u2 x : σ), common u = common u2 →
      p.2 v u = some x → ∃ x2, p.2 v u2 = some x2 ∧ common x = common x2)
    (hF : ∀ p ∈ fs, p.1 ∉ names → ∀ (v : JSON) (u : σ),
      ∃ u1, p.2 v u = some u1 ∧ common u1 = common u) :
    ∀ (kvs : List (String × JSON)) (u u2 x : σ),
      unmarshalFields fs.set (kvs.filter (fun kv => decide (foldName kv.1 ∈ names))) u = some x →
      common u = common u2 →
      ∃ x2, unmarshalFields fs.set kvs u2 = some x2 ∧ common x = common x2 := by
  intro kvs
  induction kvs with
  | nil => intro u u2 x h hcom; cases h; exact ⟨u2, rfl, hcom⟩
  | cons kv kvs ih =>
    intro u u2 x h hcom
    rw [unmarshalFields_cons]
    by_cases hn : foldName kv.1 ∈ names
    · rw [List.filter_cons_of_pos (by simpa using hn), unmarshalFields_cons] at h
      cases h1 : fs.set (foldName kv.1) kv.2 u with
      | none => rw [h1] at h; cases h
      | some u1 =>
        rw [h1, Option.some_bind] at h
        obtain ⟨u3, e3, c3⟩ :=
          Fields.set_common_sim fs names common hC hF _ _ u u2 u1 h1 hcom
        rw [e3, Option.some_bind]
        exact ih u1 u3 x h c3
    · rw [List.filter_cons_of_neg (by simpa using hn)] at h
      obtain ⟨u3, e3, c3⟩ := Fields.set_not_common fs names common hF _ hn kv.2 u2
      rw [e3, Option.some_bind]
      exact ih u u3 x h (by rw [hcom, c3])

/-- Away from the key `name`, the field setter keeps the fragment `name`. -/
theorem Fields.set_keeps_fragment
    (hCk : ∀ p ∈ fs, p.1 ∈ names → ∀ (v : JSON) (u u1 : σ), p.2 v u = some u1 →
      ∀ name, frag name u1 = frag name u)
    (hFk : ∀ p ∈ fs, p.1 ∉ names → ∀ (v : JSON) (u u1 : σ), p.2 v u = some u1 →
      frag p.1 u1 = .valid v ∧ ∀ name, name ≠ p.1 → frag name u1 = frag name u)
    (name fk : String) (v : JSON) (u u1 : σ) (hne : fk ≠ name)
    (h : fs.set fk v u = some u1) : frag name u1 = frag name u := by
  rcases Fields.set_cases fs fk v u u1 h with ⟨dec, hm, hd⟩ | rfl
  · by_cases hn : fk ∈ names
    · exact hCk (fk, dec) hm hn v u u1 hd name
    · exact (hFk (fk, dec) hm hn v u u1 hd).2 name (fun e => hne e.symm)
  · rfl

/-- At a key that is a fragment of the struct, the field setter stores the
encoded value. -/
theorem Fields.set_sets_fragment
    (hFk : ∀ p ∈ fs, p.1 ∉ names → ∀ (v : JSON) (u u1 : σ), p.2 v u = some u1 →
      frag p.1 u1 = .valid v ∧ ∀ name, name ≠ p.1 → frag name u1 = frag name u)
    (name : String) (hn : name ∉ names) (hl : (fs.lookup name).isSome = true)
    (v : JSON) (u u1 : σ) (h : fs.set name v u = some u1) : frag name u1 = .valid v := by
  unfold Fields.set at h
  cases hd : fs.lookup name with
  | none => rw [hd] at hl; cases hl
  | some dec =>
    rw [hd] at h
    exact (hFk (name, dec) (Fields.mem_of_lookup fs name dec hd) hn v u u1 h).1

/-- After a successful decode, a fragment holds the encoded value of the last
key of its name. -/
theorem unmarshalFields_stores_fragment
    (hCk : ∀ p ∈ fs, p.1 ∈ names → ∀ (v : JSON) (u u1 : σ), p.2 v u = some u1 →
      ∀ name, frag name u1 = frag name u)
    (hFk : ∀ p ∈ fs, p.1 ∉ names → ∀ (v : JSON) (u u1 : σ), p.2 v u = some u1 →
      frag p.1 u1 = .valid v ∧ ∀ name, name ≠ p.1 → frag name u1 = frag name u)
    (name : String) (hn : name ∉ names) (hl : (fs.lookup name).isSome = true)
    (kvs : List (String × JSON)) (v : JSON) (hv : (JSON.obj kvs).field name = some v)
    (u fin : σ) (h : unmarshalFields fs.set kvs u = some fin) : frag name fin = .valid v :=
  unmarshalFields_last fs.set (frag name) name (fun r => r = .valid v) v kvs
    (fun fk w s s1 hne hs => Fields.set_keeps_fragment fs names frag hCk hFk name fk w s s1 hne hs)
    (fun s s1 hs => Fields.set_sets_fragment fs names frag hFk name hn hl v s s1 hs)
    hv u fin h

end envelope

namespace customer

/-- The decoder of a common field of `Event` leaves the fragments as they are,
and its outcome depends on the common fields alone. -/
theorem event_fields_common (O : Objects) :
    ∀ p ∈ Event.fields O, p.1 ∈ Event.commonNames → ∀ (v : JSON) (u : Event O),
      (∀ u1, p.2 v u = some u1 → u1.toeventSpecific = u.toeventSpecific) ∧
      (∀ u2 x, u.common = u2.common → p.2 v u = some x →
        ∃ x2, p.2 v u2 = some x2 ∧ x.common = x2.common) := by
  intro p hp
  simp only [Event.fields, List.mem_cons, List.mem_singleton, List.mem_nil_iff, or_false] at hp
  rcases hp with rfl|rfl|rfl|rfl|rfl|rfl|rfl|rfl|rfl|rfl|rfl|rfl|rfl|rfl|rfl|rfl|rfl|rfl
  all_goals
    intro hc v u
    first
    | (exfalso; dsimp only at hc; revert hc; decide)
    | (constructor
       · intro u1 h
         simp only [Option.map_eq_some'] at h
         obtain ⟨y, _, rfl⟩ := h
         rfl
       · intro u2 x hcom h
         simp only [Event.common, Prod.mk.injEq] at hcom
         obtain ⟨h1, h2, h3, h4, h5, h6, h7⟩ := hcom
         simp only [Option.map_eq_some'] at h
         obtain ⟨y, hy, rfl⟩ := h
         first
         | (rw [h1] at hy
            exact ⟨_, by (simp only [hy, Option.map_some']; rfl), by simp [Event.common, *]⟩)
         | (rw [h2] at hy
            exact ⟨_, by (simp only [hy, Option.map_some']; rfl), by simp [Event.common, *]⟩)
         | (rw [h3] at hy
            exact ⟨_, by (simp only [hy, Option.map_some']; rfl), by simp [Event.common, *]⟩)
         | (rw [h4] at hy
            exact ⟨_, by (simp only [hy, Option.map_some']; rfl), by simp [Event.common, *]⟩)
         | (rw [h5] at hy
            exact ⟨_, by (simp only [hy, Option.map_some']; rfl), by simp [Event.common, *]⟩)
         | (rw [h6] at hy
            exact ⟨_, by (simp only [hy, Option.map_some']; rfl), by simp [Event.common, *]⟩)
         | (rw [h7] at hy
            exact ⟨_, by (simp only [hy, Option.map_some']; rfl), by simp [Event.common, *]⟩))

/-- The decoder of a fragment of `Event` always succeeds: it stores the value
under its name and leaves the common fields and the other fragments as they
are. -/
theorem event_fields_fragment (O : Objects) :
    ∀ p ∈ Event.fields O, p.1 ∉ Event.commonNames → ∀ (v : JSON) (u : Event O),
      ∃ u1, p.2 v u = some u1 ∧ u1.common = u.common ∧
        u1.toeventSpecific.fragment p.1 = .valid v ∧
        ∀ name, name ≠ p.1 →
          u1.toeventSpecific.fragment name = u.toeventSpecific.fragment name := by
  intro p hp
  simp only [Event.fields, List.mem_cons, List.mem_singleton, List.mem_nil_iff, or_false] at hp
  rcases hp with rfl|rfl|rfl|rfl|rfl|rfl|rfl|rfl|rfl|rfl|rfl|rfl|rfl|rfl|rfl|rfl|rfl|rfl
  all_goals
    intro hc v u
    first
    | (refine ⟨_, rfl, rfl, rfl, ?_⟩
       intro name hne
       simp only [eventSpecific.fragment, hne, if_false])
    | (exfalso; apply hc; simp [Event.commonNames])

end customer

/-! ### The two envelopes -/

namespace agent

theorem user_common_sim (O : Objects) :
    ∀ p ∈ User.fields O, p.1 ∈ User.commonNames → ∀ (v : JSON) (u u2 x : User O),
      u.common = u2.common → p.2 v u = some x →
      ∃ x2, p.2 v u2 = some x2 ∧ x.common = x2.common :=
  fun p hp hn v u u2 x hcom h => (user_fields_common O p hp hn v u).2 u2 x hcom h

theorem user_fragment_keeps_common (O : Objects) :
    ∀ p ∈ User.fields O, p.1 ∉ User.commonNames → ∀ (v : JSON) (u : User O),
      ∃ u1, p.2 v u = some u1 ∧ u1.common = u.common := by
  intro p hp hn v u
  obtain ⟨u1, e, c, _⟩ := user_fields_fragment O p hp hn v u
  exact ⟨u1, e, c⟩

theorem user_common_keeps_fragments (O : Objects) :
    ∀ p ∈ User.fields O, p.1 ∈ User.commonNames → ∀ (v : JSON) (u u1 : User O),
      p.2 v u = some u1 →
      ∀ name, u1.touserSpecific.fragment name = u.touserSpecific.fragment name := by
  intro p hp hn v u u1 h name
  rw [(user_fields_common O p hp hn v u).1 u1 h]

theorem user_fragment_stores (O : Objects) :
    ∀ p ∈ User.fields O, p.1 ∉ User.commonNames → ∀ (v : JSON) (u u1 : User O),
      p.2 v u = some u1 →
      u1.touserSpecific.fragment p.1 = .valid v ∧
      ∀ name, name ≠ p.1 →
        u1.touserSpecific.fragment name = u.touserSpecific.fragment name := by
  intro p hp hn v u u1 h
  obtain ⟨u3, e, _, f1, f2⟩ := user_fields_fragment O p hp hn v u
  rw [e] at h
  cases h
  exact ⟨f1, f2⟩

end agent

namespace customer

theorem event_common_sim (O : Objects) :
    ∀ p ∈ Event.fields O, p.1 ∈ Event.commonNames → ∀ (v : JSON) (u u2 x : Event O),
      u.common = u2.common → p.2 v u = some x →
      ∃ x2, p.2 v u2 = some x2 ∧ x.common = x2.common :=
  fun p hp hn v u u2 x hcom h => (event_fields_common O p hp hn v u).2 u2 x hcom h

theorem event_fragment_keeps_common (O : Objects) :
    ∀ p ∈ Event.fields O, p.1 ∉ Event.commonNames → ∀ (v : JSON) (u : Event O),
      ∃ u1, p.2 v u = some u1 ∧ u1.common = u.common := by
  intro p hp hn v u
  obtain ⟨u1, e, c, _⟩ := event_fields_fragment O p hp hn v u
  exact ⟨u1, e, c⟩

theorem event_common_keeps_fragments (O : Objects) :
    ∀ p ∈ Event.fields O, p.1 ∈ Event.commonNames → ∀ (v : JSON) (u u1 : Event O),
      p.2 v u = some u1 →
      ∀ name, u1.toeventSpecific.fragment name = u.toeventSpecific.fragment name := by
  intro p hp hn v u u1 h name
  rw [(event_fields_common O p hp hn v u).1 u1 h]

theorem event_fragment_stores (O : Objects) :
    ∀ p ∈ Event.fields O, p.1 ∉ Event.commonNames → ∀ (v : JSON) (u u1 : Event O),
      p.2 v u = some u1 →
      u1.toeventSpecific.fragment p.1 = .valid v ∧
      ∀ name, name ≠ p.1 →
        u1.toeventSpecific.fragment name = u.toeventSpecific.fragment name := by
  intro p hp hn v u u1 h
  obtain ⟨u3, e, _, f1, f2⟩ := event_fields_fragment O p hp hn v u
  rw [e] at h
  cases h
  exact ⟨f1, f2⟩

end customer

/-! ## A variant and the envelope it embeds -/

theorem Fields.lookup_viaPtr {σ τ : Type} (base : Fields τ) (zero : τ) (get : σ → Option τ)
    (put : σ → τ → σ) (fk : String) :
    (base.viaPtr zero get put).lookup fk =
      (base.lookup fk).map (fun dec v s => (dec v ((get s).getD zero)).map (put s)) := by
  unfold Fields.viaPtr
  induction base with
  | nil => rfl
  | cons p ps ih =>
    obtain ⟨n, d⟩ := p
    simp only [List.map_cons, List.lookup_cons]
    cases fk == n with
    | true => rfl
    | false => exact ih

/-- A struct that embeds a pointer to an envelope: what its field setter does
to the common fields of the embedded envelope is what the field setter of the
envelope does to them. -/
theorem Fields.set_viaPtr_sim {σ τ γ : Type} (own : Fields σ) (base : Fields τ) (zero : τ)
    (get : σ → Option τ) (put : σ → τ → σ) (names : List String) (common : τ → γ)
    (hown : ∀ p ∈ own, p.1 ∉ names ∧ ∀ (v : JSON) (s s1 : σ), p.2 v s = some s1 → get s1 = get s)
    (hput : ∀ s t, get (put s t) = some t)
    (hC : ∀ p ∈ base, p.1 ∈ names → ∀ (v : JSON) (u u2 x : τ), common u = common u2 →
      p.2 v u = some x → ∃ x2, p.2 v u2 = some x2 ∧ common x = common x2)
    (hF : ∀ p ∈ base, p.1 ∉ names → ∀ (v : JSON) (u : τ),
      ∃ u1, p.2 v u = some u1 ∧ common u1 = common u)
    (fk : String) (v : JSON) (s s1 : σ) (u2 : τ)
    (h : (own ++ base.viaPtr zero get put).set fk v s = some s1)
    (hcom : common ((get s).getD zero) = common u2) :
    ∃ x2, base.set fk v u2 = some x2 ∧ common ((get s1).getD zero) = common x2 := by
  unfold Fields.set at h
  rw [List.lookup_append] at h
  cases ho : own.lookup fk with
  | some dec =>
    rw [ho] at h
    simp only [Option.or_some] at h
    obtain ⟨hn, hk⟩ := hown (fk, dec) (Fields.mem_of_lookup own fk dec ho)
    obtain ⟨x, e, c⟩ := Fields.set_not_common base names common hF fk hn v u2
    exact ⟨x, e, by rw [hk v s s1 h, hcom, c]⟩
  | none =>
    rw [ho, Fields.lookup_viaPtr] at h
    simp only [Option.none_or] at h
    cases hb : base.lookup fk with
    | none =>
      rw [hb] at h
      cases h
      exact ⟨u2, by unfold Fields.set; rw [hb], hcom⟩
    | some d =>
      rw [hb] at h
      simp only [Option.map_some', Option.map_eq_some'] at h
      obtain ⟨t, ht, rfl⟩ := h
      have hset : base.set fk v ((get s).getD zero) = some t := by
        unfold Fields.set
        rw [hb]
        exact ht
      obtain ⟨x2, e2, c2⟩ :=
        Fields.set_common_sim base names common hC hF fk v _ u2 t hset hcom
      exact ⟨x2, e2, by rw [hput]; exact c2⟩

theorem unmarshalFields_viaPtr_sim {σ τ γ : Type} (own : Fields σ) (base : Fields τ) (zero : τ)
    (get : σ → Option τ) (put : σ → τ → σ) (names : List String) (common : τ → γ)
    (hown : ∀ p ∈ own, p.1 ∉ names ∧ ∀ (v : JSON) (s s1 : σ), p.2 v s = some s1 → get s1 = get s)
    (hput : ∀ s t, get (put s t) = some t)
    (hC : ∀ p ∈ base, p.1 ∈ names → ∀ (v : JSON) (u u2 x : τ), common u = common u2 →
      p.2 v u = some x → ∃ x2, p.2 v u2 = some x2 ∧ common x = common x2)
    (hF : ∀ p ∈ base, p.1 ∉ names → ∀ (v : JSON) (u : τ),
      ∃ u1, p.2 v u = some u1 ∧ common u1 = common u) :
    ∀ (kvs : List (String × JSON)) (s fin : σ) (u2 : τ),
      unmarshalFields (own ++ base.viaPtr zero get put).set kvs s = some fin →
      common ((get s).getD zero) = common u2 →
      ∃ x2, unmarshalFields base.set kvs u2 = some x2 ∧
        common ((get fin).getD zero) = common x2 := by
  intro kvs
  induction kvs with
  | nil => intro s fin u2 h hcom; cases h; exact ⟨u2, rfl, hcom⟩
  | cons kv kvs ih =>
    intro s fin u2 h hcom
    rw [unmarshalFields_cons] at h ⊢
    cases h1 : (own ++ base.viaPtr zero get put).set (foldName kv.1) kv.2 s with
    | none => rw [h1] at h; cases h
    | some s1 =>
      rw [h1, Option.some_bind] at h
      obtain ⟨x2, e2, c2⟩ := Fields.set_viaPtr_sim own base zero get put names common hown hput
        hC hF _ _ s s1 u2 h1 hcom
      rw [e2, Option.some_bind]
      exact ih s1 fin x2 h c2

/-- In an object without repeated keys, a typed field that is decoded from the
key `name` holds what decoding the value of that key into the initial value of
the field gives. -/
theorem unmarshalFields_typed {σ β : Type} (f : String → JSON → σ → Option σ) (get : σ → β)
    (put : σ → β → σ) (dec : JSON → β → Option β) (name : String)
    (hkeep : ∀ fk w s s1, fk ≠ name → f fk w s = some s1 → get s1 = get s)
    (hdef : ∀ w s, f name w s = (dec w (get s)).map (put s))
    (hgetput : ∀ s b, get (put s b) = b)
    (kvs : List (String × JSON)) (v : JSON)
    (hv : (JSON.obj kvs).field name = some v)
    (hnd : (kvs.map (fun kv => foldName kv.1)).Nodup) (s fin : σ)
    (h : unmarshalFields f kvs s = some fin) : dec v (get s) = some (get fin) := by
  obtain ⟨pre, k, post, rfl, hk, hpost⟩ := JSON.field_split name kvs v hv
  have hpre : ∀ kv ∈ pre, foldName kv.1 ≠ name := by
    intro kv hkv e
    rw [List.map_append, List.map_cons] at hnd
    have := (List.nodup_append.mp hnd).2.2
    exact this (List.mem_map_of_mem _ hkv) (by rw [e, ← hk]; exact List.mem_cons_self _ _)
  have keep : ∀ (ys : List (String × JSON)), (∀ kv ∈ ys, foldName kv.1 ≠ name) →
      ∀ a b, unmarshalFields f ys a = some b → get b = get a := by
    intro ys
    induction ys with
    | nil => intro _ a b hb; cases hb; rfl
    | cons y ys ih =>
      intro hy a b hb
      rw [unmarshalFields_cons] at hb
      cases h3 : f (foldName y.1) y.2 a with
      | none => rw [h3] at hb; cases hb
      | some a1 =>
        rw [h3, Option.some_bind] at hb
        rw [ih (fun kv hkv => hy kv (List.mem_cons_of_mem _ hkv)) a1 b hb]
        exact hkeep _ _ _ _ (hy y (List.mem_cons_self _ _)) h3
  rw [unmarshalFields_append] at h
  cases h1 : unmarshalFields f pre s with
  | none => rw [h1] at h; cases h
  | some s1 =>
    rw [h1, Option.some_bind, unmarshalFields_cons] at h
    simp only [hk] at h
    cases h2 : f name v s1 with
    | none => rw [h2] at h; cases h
    | some s2 =>
      rw [h2, Option.some_bind] at h
      rw [keep post hpost s2 fin h]
      rw [hdef, keep pre hpre s s1 h1] at h2
      simp only [Option.map_eq_some'] at h2
      obtain ⟨b, hb, rfl⟩ := h2
      rw [hgetput]
      exact hb

namespace agent

theorem User.fields_keep_Type (O : Objects) :
    ∀ p ∈ User.fields O, p.1 ≠ "TYPE" → ∀ (v : JSON) (u u1 : User O),
      p.2 v u = some u1 → u1.Type_ = u.Type_ := by
  intro p hp
  simp only [User.fields, List.mem_cons, List.mem_singleton, List.mem_nil_iff, or_false] at hp
  rcases hp with rfl|rfl|rfl|rfl|rfl|rfl|rfl|rfl|rfl|rfl|rfl|rfl|rfl|rfl|rfl|rfl|rfl|rfl|rfl|rfl
  all_goals
    intro hne v u u1 h
    first
    | exact absurd rfl hne
    | (cases h; rfl)
    | (simp only [Option.map_eq_some'] at h; obtain ⟨x, _, rfl⟩ := h; rfl)

/-- The field setter of `User` treats the type as the field setter of `t`
does. -/
theorem user_setField_tag (O : Objects) (fk : String) (v : JSON) (u u1 : User O)
    (h : User.setField O fk v u = some u1) : tagSetField fk v u.Type_ = some u1.Type_ := by
  unfold tagSetField
  by_cases hfk : fk = "TYPE"
  · subst hfk
    have e : User.setField O "TYPE" v u =
        (unmarshalString v u.Type_).map (fun s => { u with Type_ := s }) := rfl
    rw [e] at h
    simp only [Option.map_eq_some'] at h
    obtain ⟨x, hx, rfl⟩ := h
    simpa using hx
  · rw [if_neg hfk]
    rcases Fields.set_cases _ fk v u u1 h with ⟨dec, hm, hd⟩ | rfl
    · rw [User.fields_keep_Type O (fk, dec) hm hfk v u u1 hd]
    · rfl

/-- The type of a decoded user is the tag the loop reads from the element. -/
theorem unmarshalUser_tag (O : Objects) :
    ∀ (kvs : List (String × JSON)) (u fin : User O),
      unmarshalFields (User.setField O) kvs u = some fin →
      unmarshalFields tagSetField kvs u.Type_ = some fin.Type_ := by
  intro kvs
  induction kvs with
  | nil => intro u fin h; cases h; rfl
  | cons kv kvs ih =>
    intro u fin h
    rw [unmarshalFields_cons] at h ⊢
    cases h1 : User.setField O (foldName kv.1) kv.2 u with
    | none => rw [h1] at h; cases h
    | some u1 =>
      rw [h1, Option.some_bind] at h
      rw [user_setField_tag O _ _ u u1 h1, Option.some_bind]
      exact ih u1 fin h

/-- Away from its own key, a typed field of `Agent` is kept by the field
setter. -/
theorem agent_setField_keeps (O : Objects) (fk : String) (v : JSON) (a a1 : Agent O)
    (h : Agent.setField O fk v a = some a1) :
    (fk ≠ "ROUTING_STATUS" → a1.RoutingStatus = a.RoutingStatus) ∧
    (fk ≠ "VISIBILITY" → a1.Visibility = a.Visibility) := by
  rcases Fields.set_cases _ fk v a a1 h with ⟨dec, hm, hd⟩ | rfl
  · simp only [Agent.fields, List.mem_append, List.mem_cons, List.mem_singleton,
      List.mem_nil_iff, or_false, Fields.viaPtr, List.mem_map, Prod.mk.injEq] at hm
    rcases hm with (⟨rfl, rfl⟩ | ⟨rfl, rfl⟩) | ⟨q, hq, hn, rfl⟩
    all_goals
      simp only [Option.map_eq_some'] at hd
      obtain ⟨x, _, rfl⟩ := hd
      refine ⟨?_, ?_⟩ <;> intro hne <;> first | rfl | exact absurd rfl hne
  · exact ⟨fun _ => rfl, fun _ => rfl⟩

/-- Away from its own key, a typed field of `Customer` is kept by the field
setter. -/
theorem customer_setField_keeps (O : Objects) (fk : String) (v : JSON) (c c1 : Customer O)
    (h : Customer.setField O fk v c = some c1) :
    (fk ≠ "EMAIL_VERIFIED" → c1.EmailVerified = c.EmailVerified) ∧
    (fk ≠ "LAST_VISIT" → c1.LastVisit = c.LastVisit) ∧
    (fk ≠ "STATISTICS" → c1.Statistics = c.Statistics) ∧
    (fk ≠ "AGENT_LAST_EVENT_CREATED_AT" →
      c1.AgentLastEventCreatedAt = c.AgentLastEventCreatedAt) ∧
    (fk ≠ "CUSTOMER_LAST_EVENT_CREATED_AT" →
      c1.CustomerLastEventCreatedAt = c.CustomerLastEventCreatedAt) ∧
    (fk ≠ "CREATED_AT" → c1.CreatedAt = c.CreatedAt) ∧
    (fk ≠ "SESSION_FIELDS" → c1.SessionFields = c.SessionFields) ∧
    (fk ≠ "FOLLOWED" → c1.Followed = c.Followed) ∧
    (fk ≠ "ONLINE" → c1.Online = c.Online) ∧
    (fk ≠ "STATE" → c1.State = c.State) ∧
    (fk ≠ "GROUP_IDS" → c1.GroupIDs = c.GroupIDs) := by
  rcases Fields.set_cases _ fk v c c1 h with ⟨dec, hm, hd⟩ | rfl
  · simp only [Customer.fields, List.mem_append, List.mem_cons, List.mem_singleton,
      List.mem_nil_iff, or_false, Fields.viaPtr, List.mem_map, Prod.mk.injEq] at hm
    rcases hm with (⟨rfl, rfl⟩ | ⟨rfl, rfl⟩ | ⟨rfl, rfl⟩ | ⟨rfl, rfl⟩ | ⟨rfl, rfl⟩ | ⟨rfl, rfl⟩ | ⟨rfl, rfl⟩ | ⟨rfl, rfl⟩ | ⟨rfl, rfl⟩ | ⟨rfl, rfl⟩ | ⟨rfl, rfl⟩) | ⟨q, hq, hn, rfl⟩
    all_goals
      simp only [Option.map_eq_some'] at hd
      obtain ⟨x, _, rfl⟩ := hd
      refine ⟨?_, ?_, ?_, ?_, ?_, ?_, ?_, ?_, ?_, ?_, ?_⟩ <;> intro hne <;> first | rfl | exact absurd rfl hne
  · exact ⟨fun _ => rfl, fun _ => rfl, fun _ => rfl, fun _ => rfl, fun _ => rfl, fun _ => rfl,
      fun _ => rfl, fun _ => rfl, fun _ => rfl, fun _ => rfl, fun _ => rfl⟩

/-- An element that decodes as an agent decodes as a user, to the common fields
of the embedded user. -/
theorem unmarshalUser_of_unmarshalAgent (O : Objects) (kvs : List (String × JSON))
    (a : Agent O) (h : unmarshalAgent O (.obj kvs) = some a) :
    ∃ u, unmarshalUser O (.obj kvs) (User.zero O) = some u ∧
      (a.User.getD (User.zero O)).common = u.common :=
  unmarshalFields_viaPtr_sim _ (User.fields O) (User.zero O) (fun a : Agent O => a.User)
    (fun a u => { a with User := some u }) User.commonNames User.common
    (by
      intro p hp
      simp only [List.mem_cons, List.mem_singleton, List.mem_nil_iff, or_false] at hp
      rcases hp with rfl | rfl
      all_goals
        refine ⟨by simp [User.commonNames], ?_⟩
        intro v s s1 hs
        simp only [Option.map_eq_some'] at hs
        obtain ⟨x, _, rfl⟩ := hs
        rfl)
    (fun _ _ => rfl) (user_common_sim O) (user_fragment_keeps_common O) kvs (Agent.zero O) a (User.zero O) h rfl

/-- An element that decodes as a customer decodes as a user, to the common
fields of the embedded user. -/
theorem unmarshalUser_of_unmarshalCustomer (O : Objects) (kvs : List (String × JSON))
    (c : Customer O) (h : unmarshalCustomer O (.obj kvs) = some c) :
    ∃ u, unmarshalUser O (.obj kvs) (User.zero O) = some u ∧
      (c.User.getD (User.zero O)).common = u.common :=
  unmarshalFields_viaPtr_sim _ (User.fields O) (User.zero O) (fun c : Customer O => c.User)
    (fun c u => { c with User := some u }) User.commonNames User.common
    (by
      intro p hp
      simp only [List.mem_cons, List.mem_singleton, List.mem_nil_iff, or_false] at hp
      rcases hp with rfl|rfl|rfl|rfl|rfl|rfl|rfl|rfl|rfl|rfl|rfl
      all_goals
        refine ⟨by simp [User.commonNames], ?_⟩
        intro v s s1 hs
        simp only [Option.map_eq_some'] at hs
        obtain ⟨x, _, rfl⟩ := hs
        rfl)
    (fun _ _ => rfl) (user_common_sim O) (user_fragment_keeps_common O) kvs (Customer.zero O) c (User.zero O) h rfl

end agent

namespace agent

/-- After a successful decode, a fragment of a user holds the encoded value of
the last key of its name. -/
theorem unmarshalUser_stores_fragment (O : Objects) (j : JSON) (u : User O) (name : String)
    (v : JSON) (h : unmarshalUser O j (User.zero O) = some u)
    (hn : name ∈ User.fragmentNames) (hv : j.field name = some v) :
    u.touserSpecific.fragment name = .valid v := by
  cases j with
  | obj kvs =>
    refine unmarshalFields_stores_fragment (User.fields O) User.commonNames
      (fun n (s : User O) => s.touserSpecific.fragment n) (user_common_keeps_fragments O) (user_fragment_stores O) name ?_ ?_
      kvs v hv _ u h
    · simp only [User.fragmentNames, List.mem_cons, List.mem_singleton, List.mem_nil_iff,
        or_false] at hn
      rcases hn with rfl|rfl|rfl|rfl|rfl|rfl|rfl|rfl|rfl|rfl|rfl|rfl|rfl
      all_goals decide
    · simp only [User.fragmentNames, List.mem_cons, List.mem_singleton, List.mem_nil_iff,
        or_false] at hn
      rcases hn with rfl|rfl|rfl|rfl|rfl|rfl|rfl|rfl|rfl|rfl|rfl|rfl|rfl
      all_goals rfl
  | _ => simp [JSON.field] at hv

/-- The type of the user decoded from an element is the tag of the element. -/
theorem unmarshalUser_Type (O : Objects) (kvs : List (String × JSON)) (u : User O) (tag : String)
    (hu : unmarshalUser O (.obj kvs) (User.zero O) = some u)
    (ht : elemType (.obj kvs) = some tag) : u.Type_ = tag := by
  have := unmarshalUser_tag O kvs (User.zero O) u hu
  have e : elemType (.obj kvs) = unmarshalFields tagSetField kvs "" := rfl
  rw [e] at ht
  have z : (User.zero O).Type_ = "" := rfl
  rw [z, ht] at this
  cases this
  rfl

end agent

/-! ### The promoters as calls on memory -/

/-- A statement that decodes into a field of the fresh value itself leaves the
envelope as it is, and succeeds exactly when the decode does. -/
theorem Frame.unmarshal_own {ε ρ β : Type}
    (store : String → JSON → Frame ε ρ → Exec (Frame ε ρ)) (src : ε → RawMessage)
    (sel : String) (dec : JSON → β → Option β) (get : ρ → β) (put : ρ → β → ρ)
    (hstore : ∀ v fr, store sel v fr =
      Exec.ofOption fr ((dec v (get fr.res)).map (fun x => ⟨fr.env, put fr.res x⟩)))
    (fr : Frame ε ρ) :
    Frame.unmarshal store src sel fr =
      Exec.ofOption fr ((Unmarshal dec (src fr.env) (get fr.res)).map
        (fun x => ⟨fr.env, put fr.res x⟩)) := by
  unfold Frame.unmarshal
  cases h : src fr.env with
  | nil => rfl
  | invalid => rfl
  | valid j => exact hstore j fr

/-- The same for `unmarshalOptionalRawField`. -/
theorem Frame.unmarshalOptionalRawField_own {ε ρ β : Type}
    (store : String → JSON → Frame ε ρ → Exec (Frame ε ρ)) (src : ε → RawMessage)
    (sel : String) (dec : JSON → β → Option β) (get : ρ → β) (put : ρ → β → ρ)
    (hstore : ∀ v fr, store sel v fr =
      Exec.ofOption fr ((dec v (get fr.res)).map (fun x => ⟨fr.env, put fr.res x⟩)))
    (hput : ∀ r, put r (get r) = r)
    (fr : Frame ε ρ) :
    Frame.unmarshalOptionalRawField store src sel fr =
      Exec.ofOption fr ((customer.unmarshalOptionalRawField dec (src fr.env) (get fr.res)).map
        (fun x => ⟨fr.env, put fr.res x⟩)) := by
  unfold Frame.unmarshalOptionalRawField
  cases h : src fr.env with
  | nil => simp [customer.unmarshalOptionalRawField, Exec.ofOption, hput]
  | invalid => rfl
  | valid j => exact hstore j fr

/-- A body whose first statement ends as a decode into the fresh value. -/
theorem Exec.run_cons_ofOption {φ β : Type} (s : φ → Exec φ) (rest : List (φ → Exec φ))
    (fr : φ) (o : Option β) (g : β → φ) (h : s fr = Exec.ofOption fr (o.map g)) :
    Exec.run (s :: rest) fr = o.elim (.failed fr) (fun x => Exec.run rest (g x)) := by
  cases o with
  | none => simp [Exec.run, h, Exec.ofOption]
  | some x => simp [Exec.run, h, Exec.ofOption]

namespace agent

/-- The call `u.Agent()` leaves the envelope as it was and returns what
`User.Agent` computes from it. -/
theorem User.AgentCall_eq {O : Objects} (u : User O) :
    User.AgentCall u = some (u, u.Agent) := by
  unfold User.AgentCall User.Agent
  by_cases ht : u.Type_ = "agent"
  · simp only [ht, ne_eq, not_true_eq_false, if_false, Agent.zero]
    rw [Exec.run_cons_ofOption _ _ _ _ _
      (Frame.unmarshal_own (Agent.store O) (fun x => x.RoutingStatus) "RoutingStatus"
        (unmarshalString) (fun r => r.RoutingStatus) (fun r y => { r with RoutingStatus := y })
        (fun _ _ => rfl) _)]
    simp only []
    cases Unmarshal (unmarshalString) u.RoutingStatus "" with
    | none => rfl
    | some x1 =>
      simp only [Option.elim]
      rw [Exec.run_cons_ofOption _ _ _ _ _
        (Frame.unmarshal_own (Agent.store O) (fun x => x.Visibility) "Visibility"
          (unmarshalString) (fun r => r.Visibility) (fun r y => { r with Visibility := y })
          (fun _ _ => rfl) _)]
      simp only []
      cases Unmarshal (unmarshalString) u.Visibility "" with
      | none => rfl
      | some x2 =>
        simp only [Option.elim]
        rfl
  · simp [ht]

/-- The call `u.Customer()` leaves the envelope as it was and returns what
`User.Customer` computes from it. -/
theorem User.CustomerCall_eq {O : Objects} (u : User O) :
    User.CustomerCall u = some (u, u.Customer) := by
  unfold User.CustomerCall User.Customer
  by_cases ht : u.Type_ = "customer"
  · simp only [ht, ne_eq, not_true_eq_false, if_false, Customer.zero]
    rw [Exec.run_cons_ofOption _ _ _ _ _
      (Frame.unmarshal_own (Customer.store O) (fun x => x.LastVisit) "LastVisit"
        (O.unmarshalVisit) (fun r => r.LastVisit) (fun r y => { r with LastVisit := y })
        (fun _ _ => rfl) _)]
    simp only []
    cases Unmarshal (O.unmarshalVisit) u.LastVisit O.zeroVisit with
    | none => rfl
    | some x1 =>
      simp only [Option.elim]
      rw [Exec.run_cons_ofOption _ _ _ _ _
        (Frame.unmarshal_own (Customer.store O) (fun x => x.Statistics) "Statistics"
          (unmarshalStatistics) (fun r => r.Statistics) (fun r y => { r with Statistics := y })
          (fun _ _ => rfl) _)]
      simp only []
      cases Unmarshal (unmarshalStatistics) u.Statistics Statistics.zero with
      | none => rfl
      | some x2 =>
        simp only [Option.elim]
        rw [Exec.run_cons_ofOption _ _ _ _ _
          (Frame.unmarshal_own (Customer.store O) (fun x => x.AgentLastEventCreatedAt) "AgentLastEventCreatedAt"
            (O.unmarshalTime) (fun r => r.AgentLastEventCreatedAt) (fun r y => { r with AgentLastEventCreatedAt := y })
            (fun _ _ => rfl) _)]
        simp only []
        cases Unmarshal (O.unmarshalTime) u.AgentLastEventCreatedAt O.zeroTime with
        | none => rfl
        | some x3 =>
          simp only [Option.elim]
          rw [Exec.run_cons_ofOption _ _ _ _ _
            (Frame.unmarshal_own (Customer.store O) (fun x => x.CustomerLastEventCreatedAt) "CustomerLastEventCreatedAt"
              (O.unmarshalTime) (fun r => r.CustomerLastEventCreatedAt) (fun r y => { r with CustomerLastEventCreatedAt := y })
              (fun _ _ => rfl) _)]
          simp only []
          cases Unmarshal (O.unmarshalTime) u.CustomerLastEventCreatedAt O.zeroTime with
          | none => rfl
          | some x4 =>
            simp only [Option.elim]
            rw [Exec.run_cons_ofOption _ _ _ _ _
              (Frame.unmarshal_own (Customer.store O) (fun x => x.EmailVerified) "EmailVerified"
                (unmarshalBool) (fun r => r.EmailVerified) (fun r y => { r with EmailVerified := y })
                (fun _ _ => rfl) _)]
            simp only []
            cases Unmarshal (unmarshalBool) u.EmailVerified false with
            | none => rfl
            | some x5 =>
              simp only [Option.elim]
              rw [Exec.run_cons_ofOption _ _ _ _ _
                (Frame.unmarshal_own (Customer.store O) (fun x => x.CreatedAt) "CreatedAt"
                  (O.unmarshalTime) (fun r => r.CreatedAt) (fun r y => { r with CreatedAt := y })
                  (fun _ _ => rfl) _)]
              simp only []
              cases Unmarshal (O.unmarshalTime) u.CreatedAt O.zeroTime with
              | none => rfl
              | some x6 =>
                simp only [Option.elim]
                rw [Exec.run_cons_ofOption _ _ _ _ _
                  (Frame.unmarshal_own (Customer.store O) (fun x => x.Followed) "Followed"
                    (unmarshalBool) (fun r => r.Followed) (fun r y => { r with Followed := y })
                    (fun _ _ => rfl) _)]
                simp only []
                cases Unmarshal (unmarshalBool) u.Followed false with
                | none => rfl
                | some x7 =>
                  simp only [Option.elim]
                  rw [Exec.run_cons_ofOption _ _ _ _ _
                    (Frame.unmarshal_own (Customer.store O) (fun x => x.Online) "Online"
                      (unmarshalBool) (fun r => r.Online) (fun r y => { r with Online := y })
                      (fun _ _ => rfl) _)]
                  simp only []
                  cases Unmarshal (unmarshalBool) u.Online false with
                  | none => rfl
                  | some x8 =>
                    simp only [Option.elim]
                    rw [Exec.run_cons_ofOption _ _ _ _ _
                      (Frame.unmarshal_own (Customer.store O) (fun x => x.State) "State"
                        (unmarshalString) (fun r => r.State) (fun r y => { r with State := y })
                        (fun _ _ => rfl) _)]
                    simp only []
                    cases Unmarshal (unmarshalString) u.State "" with
                    | none => rfl
                    | some x9 =>
                      simp only [Option.elim]
                      rw [Exec.run_cons_ofOption _ _ _ _ _
                        (Frame.unmarshal_own (Customer.store O) (fun x => x.SessionFields) "SessionFields"
                          (unmarshalSessionFields) (fun r => r.SessionFields) (fun r y => { r with SessionFields := y })
                          (fun _ _ => rfl) _)]
                      simp only []
                      cases Unmarshal (unmarshalSessionFields) u.SessionFields Slice.empty with
                      | none => rfl
                      | some x10 =>
                        simp only [Option.elim]
                        rfl
  · simp [ht]

end agent

namespace customer

/-- The call `e.FilledForm()` leaves the envelope as it was and returns what
`Event.FilledForm` computes from it. -/
theorem Event.FilledFormCall_eq {O : Objects} (shared : Event O → String → JSON → Event O) (e : Event O) :
    Event.FilledFormCall shared e = some (e, e.FilledForm) := by
  unfold Event.FilledFormCall Event.FilledForm
  by_cases ht : e.Type_ = "filled_form"
  · simp only [ht, ne_eq, not_true_eq_false, if_false]
    rw [Exec.run_cons_ofOption _ _ _ _ _
      (Frame.unmarshal_own (FilledForm.store O shared) (fun x => x.Fields) "Fields"
        (unmarshalSlice (unmarshalStruct FilledFormField.setField) ⟨"", "", ""⟩) (fun r => r.Fields) (fun r y => { r with Fields := y })
        (fun _ _ => rfl) _)]
    simp only []
    cases Unmarshal (unmarshalSlice (unmarshalStruct FilledFormField.setField) ⟨"", "", ""⟩) e.Fields Slice.empty with
    | none => rfl
    | some x1 =>
      simp only [Option.elim]
      rfl
  · simp [ht]

/-- The call `e.Message()` leaves the envelope as it was and returns what
`Event.Message` computes from it. -/
theorem Event.MessageCall_eq {O : Objects} (shared : Event O → String → JSON → Event O) (e : Event O) :
    Event.MessageCall shared e = some (e, e.Message) := by
  unfold Event.MessageCall Event.Message
  by_cases ht : e.Type_ = "message"
  · simp only [ht, ne_eq, not_true_eq_false, if_false]
    rw [Exec.run_cons_ofOption _ _ _ _ _
      (Frame.unmarshal_own (Message.store O shared) (fun x => x.Text) "Text"
        (unmarshalString) (fun r => r.Text) (fun r y => { r with Text := y })
        (fun _ _ => rfl) _)]
    simp only []
    cases Unmarshal (unmarshalString) e.Text "" with
    | none => rfl
    | some x1 =>
      simp only [Option.elim]
      rw [Exec.run_cons_ofOption _ _ _ _ _
        (Frame.unmarshalOptionalRawField_own (Message.store O shared) (fun x => x.Postback) "Postback"
          (unmarshalPtr Postback.setField ⟨"", "", "", "", ""⟩) (fun r => r.Postback) (fun r y => { r with Postback := y })
          (fun _ _ => rfl) (fun _ => rfl) _)]
      simp only []
      cases unmarshalOptionalRawField (unmarshalPtr Postback.setField ⟨"", "", "", "", ""⟩) e.Postback none with
      | none => rfl
      | some x2 =>
        simp only [Option.elim]
        rfl
  · simp [ht]

/-- The call `e.File()` leaves the envelope as it was and returns what
`Event.File` computes from it. -/
theorem Event.FileCall_eq {O : Objects} (shared : Event O → String → JSON → Event O) (e : Event O) :
    Event.FileCall shared e = some (e, e.File) := by
  unfold Event.FileCall Event.File
  by_cases ht : e.Type_ = "file"
  · simp only [ht, ne_eq, not_true_eq_false, if_false]
    rw [Exec.run_cons_ofOption _ _ _ _ _
      (Frame.unmarshal_own (File.store O shared) (fun x => x.ContentType) "ContentType"
        (unmarshalString) (fun r => r.ContentType) (fun r y => { r with ContentType := y })
        (fun _ _ => rfl) _)]
    simp only []
    cases Unmarshal (unmarshalString) e.ContentType "" with
    | none => rfl
    | some x1 =>
      simp only [Option.elim]
      rw [Exec.run_cons_ofOption _ _ _ _ _
        (Frame.unmarshal_own (File.store O shared) (fun x => x.URL) "URL"
          (unmarshalString) (fun r => r.URL) (fun r y => { r with URL := y })
          (fun _ _ => rfl) _)]
      simp only []
      cases Unmarshal (unmarshalString) e.URL "" with
      | none => rfl
      | some x2 =>
        simp only [Option.elim]
        rw [Exec.run_cons_ofOption _ _ _ _ _
          (Frame.unmarshalOptionalRawField_own (File.store O shared) (fun x => x.Width) "Width"
            (unmarshalInt) (fun r => r.Width) (fun r y => { r with Width := y })
            (fun _ _ => rfl) (fun _ => rfl) _)]
        simp only []
        cases unmarshalOptionalRawField (unmarshalInt) e.Width 0 with
        | none => rfl
        | some x3 =>
          simp only [Option.elim]
          rw [Exec.run_cons_ofOption _ _ _ _ _
            (Frame.unmarshalOptionalRawField_own (File.store O shared) (fun x => x.Height) "Height"
              (unmarshalInt) (fun r => r.Height) (fun r y => { r with Height := y })
              (fun _ _ => rfl) (fun _ => rfl) _)]
          simp only []
          cases unmarshalOptionalRawField (unmarshalInt) e.Height 0 with
          | none => rfl
          | some x4 =>
            simp only [Option.elim]
            rw [Exec.run_cons_ofOption _ _ _ _ _
              (Frame.unmarshal_own (File.store O shared) (fun x => x.Name) "Name"
                (unmarshalString) (fun r => r.Name) (fun r y => { r with Name := y })
                (fun _ _ => rfl) _)]
            simp only []
            cases Unmarshal (unmarshalString) e.Name "" with
            | none => rfl
            | some x5 =>
              simp only [Option.elim]
              rw [Exec.run_cons_ofOption _ _ _ _ _
                (Frame.unmarshalOptionalRawField_own (File.store O shared) (fun x => x.AlternativeText) "AlternativeText"
                  (unmarshalString) (fun r => r.AlternativeText) (fun r y => { r with AlternativeText := y })
                  (fun _ _ => rfl) (fun _ => rfl) _)]
              simp only []
              cases unmarshalOptionalRawField (unmarshalString) e.AlternativeText "" with
              | none => rfl
              | some x6 =>
                simp only [Option.elim]
                rfl
  · simp [ht]

/-- The call `e.RichMessage()` leaves the envelope as it was and returns what
`Event.RichMessage` computes from it. -/
theorem Event.RichMessageCall_eq {O : Objects} (shared : Event O → String → JSON → Event O) (e : Event O) :
    Event.RichMessageCall shared e = some (e, e.RichMessage) := by
  unfold Event.RichMessageCall Event.RichMessage
  by_cases ht : e.Type_ = "rich_message"
  · simp only [ht, ne_eq, not_true_eq_false, if_false]
    rw [Exec.run_cons_ofOption _ _ _ _ _
      (Frame.unmarshal_own (RichMessage.store O shared) (fun x => x.TemplateID) "TemplateID"
        (unmarshalString) (fun r => r.TemplateID) (fun r y => { r with TemplateID := y })
        (fun _ _ => rfl) _)]
    simp only []
    cases Unmarshal (unmarshalString) e.TemplateID "" with
    | none => rfl
    | some x1 =>
      simp only [Option.elim]
      rw [Exec.run_cons_ofOption _ _ _ _ _
        (Frame.unmarshal_own (RichMessage.store O shared) (fun x => x.Elements) "Elements"
          (unmarshalSlice (unmarshalStruct RichMessageElement.setField)
          ⟨Slice.empty, "", "", none⟩) (fun r => r.Elements) (fun r y => { r with Elements := y })
          (fun _ _ => rfl) _)]
      simp only []
      cases Unmarshal (unmarshalSlice (unmarshalStruct RichMessageElement.setField)
          ⟨Slice.empty, "", "", none⟩) e.Elements Slice.empty with
      | none => rfl
      | some x2 =>
        simp only [Option.elim]
        rfl
  · simp [ht]

end customer

/-- Two calls in a row of a call that leaves the envelope as it was and returns
a function of it: the envelope is still the same and the two results are
equal. -/
theorem callTwice_of_eq {ε ρ : Type} (call : ε → Option (ε × Option ρ)) (f : ε → Option ρ)
    (h : ∀ e, call e = some (e, f e)) (e : ε) : callTwice call e = some (e, f e, f e) := by
  simp [callTwice, h]

namespace agent

/-- A decode into a selector that is promoted from the embedded `*User`, such
as `&a.Name`, does write the envelope. -/
theorem agent_store_promoted (O : Objects) (u : User O) (r v s : String) :
    Agent.store O "Name" (.str s) ⟨u, ⟨some u, r, v⟩⟩ =
      .done ⟨{ u with Name := s }, ⟨some { u with Name := s }, r, v⟩⟩ := rfl

end agent

namespace customer

/-- A decode into a fragment that is promoted from the embedded `Event`, such
as `&m.Fields`, writes the copy and the bytes it shares with the envelope. -/
theorem message_store_promoted (O : Objects) (shared : Event O → String → JSON → Event O)
    (e : Event O) (t : String) (p : Option Postback) (v : JSON) :
    Message.store O shared "Fields" v ⟨e, ⟨e, t, p⟩⟩ =
      .done ⟨shared e "FIELDS" v, ⟨{ e with Fields := .valid v }, t, p⟩⟩ := rfl

end customer

/-! # The claims -/

open agent customer

/-- C1: `User.Agent` returns nil whenever the type is not "agent" and
`User.Customer` whenever it is not "customer"; `Event.FilledForm`,
`Event.Message`, `Event.File` and `Event.RichMessage` return nil whenever the
type is not "filled_form", "message", "file", "rich_message"; whatever the
fragments hold, at most one promoter of an envelope returns a value. -/
theorem C1_mismatch (O : Objects) :
    (∀ u : User O, u.Type_ ≠ "agent" → u.Agent = none) ∧
    (∀ u : User O, u.Type_ ≠ "customer" → u.Customer = none) ∧
    (∀ e : Event O, e.Type_ ≠ "filled_form" → e.FilledForm = none) ∧
    (∀ e : Event O, e.Type_ ≠ "message" → e.Message = none) ∧
    (∀ e : Event O, e.Type_ ≠ "file" → e.File = none) ∧
    (∀ e : Event O, e.Type_ ≠ "rich_message" → e.RichMessage = none) ∧
    (∀ u : User O, u.Agent = none ∨ u.Customer = none) ∧
    (∀ e : Event O,
      ([e.FilledForm.isSome, e.Message.isSome, e.File.isSome, e.RichMessage.isSome].count true
        ≤ 1)) := by
  have hA : ∀ u : User O, u.Type_ ≠ "agent" → u.Agent = none := by
    intro u h; simp [User.Agent, h]
  have hC : ∀ u : User O, u.Type_ ≠ "customer" → u.Customer = none := by
    intro u h; simp [User.Customer, h]
  have hFF : ∀ e : Event O, e.Type_ ≠ "filled_form" → e.FilledForm = none := by
    intro e h; simp [Event.FilledForm, h]
  have hM : ∀ e : Event O, e.Type_ ≠ "message" → e.Message = none := by
    intro e h; simp [Event.Message, h]
  have hF : ∀ e : Event O, e.Type_ ≠ "file" → e.File = none := by
    intro e h; simp [Event.File, h]
  have hR : ∀ e : Event O, e.Type_ ≠ "rich_message" → e.RichMessage = none := by
    intro e h; simp [Event.RichMessage, h]
  refine ⟨hA, hC, hFF, hM, hF, hR, ?_, ?_⟩
  · intro u
    by_cases h : u.Type_ = "agent"
    · right; apply hC; rw [h]; decide
    · left; exact hA u h
  · intro e
    by_cases h1 : e.Type_ = "filled_form"
    · rw [hM e (by rw [h1]; decide), hF e (by rw [h1]; decide), hR e (by rw [h1]; decide)]
      cases e.FilledForm <;> simp
    · rw [hFF e h1]
      by_cases h2 : e.Type_ = "message"
      · rw [hF e (by rw [h2]; decide), hR e (by rw [h2]; decide)]
        cases e.Message <;> simp
      · rw [hM e h2]
        by_cases h3 : e.Type_ = "file"
        · rw [hR e (by rw [h3]; decide)]
          cases e.File <;> simp
        · rw [hF e h3]
          cases e.RichMessage <;> simp

/-- C1 at the event `{"type":"message","author_id":"u1","text":"hi"}`: its type is not
"file" and `File` returns nil. -/
theorem C1_mismatch_witness :
    (sampleEvent messageHi).Type_ ≠ "file" ∧ (sampleEvent messageHi).File = none :=
  ⟨by decide, (C1_mismatch sampleObjects).2.2.2.2.1 (sampleEvent messageHi) (by decide)⟩

/-- C2: an event of type "message" whose `text` fragment is the JSON string `s`
and whose `postback` fragment is absent promotes to a `Message` with `Text = s`
and a nil `Postback`; an event of type "file" whose `content_type`, `url` and
`name` fragments are JSON strings and whose `width`, `height` and
`alternative_text` fragments are absent promotes to a `File` with `Width = 0`,
`Height = 0`, `AlternativeText = ""` and the decoded strings. -/
theorem C2_defaults (O : Objects) :
    (∀ (e : Event O) (s : String), e.Type_ = "message" → e.Text = .valid (.str s) →
      e.Postback = .nil → e.Message = some { Event := e, Text := s, Postback := none }) ∧
    (∀ (e : Event O) (ct url name : String), e.Type_ = "file" →
      e.ContentType = .valid (.str ct) → e.URL = .valid (.str url) →
      e.Name = .valid (.str name) → e.Width = .nil → e.Height = .nil →
      e.AlternativeText = .nil →
      e.File = some { Event := e, ContentType := ct, URL := url, Width := 0, Height := 0,
                      Name := name, AlternativeText := "" }) := by
  constructor
  · intro e s ht htext hpb
    simp [Event.Message, ht, htext, hpb, Unmarshal, unmarshalString, unmarshalOptionalRawField]
  · intro e ct url name ht h1 h2 h3 h4 h5 h6
    simp [Event.File, ht, h1, h2, h3, h4, h5, h6, Unmarshal, unmarshalString,
      unmarshalOptionalRawField]

/-- C2 at `{"type":"message","author_id":"u1","text":"hi"}`, which decodes to an
event that promotes to a `Message` with `Text` "hi" and a nil `Postback`, and at
a file event without `width`, `height` and `alternative_text`. -/
theorem C2_defaults_witness :
    unmarshalEvent sampleObjects messageHi (Event.zero sampleObjects) =
      some (sampleEvent messageHi) ∧
    (sampleEvent messageHi).Message =
      some { Event := sampleEvent messageHi, Text := "hi", Postback := none } ∧
    (sampleEvent fileNoSize).File =
      some { Event := sampleEvent fileNoSize, ContentType := "image/png", URL := "y.png",
             Width := 0, Height := 0, Name := "y", AlternativeText := "" } :=
  ⟨rfl, (C2_defaults sampleObjects).1 (sampleEvent messageHi) "hi" rfl rfl rfl,
    (C2_defaults sampleObjects).2 (sampleEvent fileNoSize) "image/png" "y.png" "y" rfl rfl rfl
      rfl rfl rfl rfl⟩

/-- C3: a promoter returns nil when a required fragment is absent or holds a
value of the wrong shape: `routing_status` for `Agent`, `text` for `Message`,
`content_type`, `url` and `name` for `File`, `fields` for `FilledForm`,
`template_id` and `elements` for `RichMessage`. -/
theorem C3_missing_or_malformed (O : Objects) :
    (∀ u : User O, u.RoutingStatus.lacks JSON.stringShaped = true → u.Agent = none) ∧
    (∀ e : Event O, e.Text.lacks JSON.stringShaped = true → e.Message = none) ∧
    (∀ e : Event O, (e.ContentType.lacks JSON.stringShaped = true ∨
        e.URL.lacks JSON.stringShaped = true ∨ e.Name.lacks JSON.stringShaped = true) →
      e.File = none) ∧
    (∀ e : Event O, e.Fields.lacks JSON.arrayShaped = true → e.FilledForm = none) ∧
    (∀ e : Event O, (e.TemplateID.lacks JSON.stringShaped = true ∨
        e.Elements.lacks JSON.arrayShaped = true) → e.RichMessage = none) := by
  refine ⟨?_, ?_, ?_, ?_, ?_⟩
  · intro u h
    unfold User.Agent
    rw [Unmarshal_string_lacks _ _ h]
    split <;> rfl
  · intro e h
    unfold Event.Message
    rw [Unmarshal_string_lacks _ _ h]
    split <;> rfl
  · intro e h
    unfold Event.File
    split
    · rfl
    · rcases h with h | h | h
      · rw [Unmarshal_string_lacks _ _ h]
      · rw [Unmarshal_string_lacks _ _ h]
        split <;> rfl
      · rw [Unmarshal_string_lacks _ _ h]
        repeat' split
        all_goals first | rfl | simp_all
  · intro e h
    unfold Event.FilledForm
    rw [Unmarshal_slice_lacks _ _ _ _ h]
    split <;> rfl
  · intro e h
    unfold Event.RichMessage
    split
    · rfl
    · rcases h with h | h
      · rw [Unmarshal_string_lacks _ _ h]
      · rw [Unmarshal_slice_lacks _ _ _ _ h]
        split <;> rfl

/-- C3 at `{"type":"message","author_id":"u1","text":5}`: `Message` returns nil. -/
theorem C3_missing_or_malformed_witness :
    (sampleEvent messageNumericText).Text.lacks JSON.stringShaped = true ∧
    (sampleEvent messageNumericText).Message = none :=
  ⟨rfl, (C3_missing_or_malformed sampleObjects).2.1 (sampleEvent messageNumericText) rfl⟩

/-- C4: on a payload that `Chat.UnmarshalJSON` decodes, every element of
`users` that carries the tag "agent" and is the last element of its id is in
`Agents` under its id, with the routing status its `routing_status` field
holds; every element that carries the tag "customer" and is the last element of
its id is in `Customers` under its id, with its typed fields decoded
(`EmailVerified` is what `email_verified` holds). -/
theorem C4_partition_places_recognized (O : Objects) (data : RawMessage) (cs : CS O)
    (c : Chat O) (hcs : unmarshalCS O data = some cs)
    (hok : Chat.UnmarshalJSON O data = .ok c) :
    (∀ pre u post, cs.Users = pre ++ u :: post → elemType u = some "agent" →
      (∀ v ∈ post, agentKey O v ≠ agentKey O u) →
      ∃ a usr, unmarshalAgent O u = some a ∧ a.User = some usr ∧
        c.Agents.lookup usr.ID = some (some a) ∧
        (∀ s, u.field "ID" = some (.str s) → usr.ID = s) ∧
        (∀ s, u.field "ROUTING_STATUS" = some (.str s) → a.RoutingStatus = s)) ∧
    (∀ pre u post, cs.Users = pre ++ u :: post → elemType u = some "customer" →
      (∀ v ∈ post, customerKey O v ≠ customerKey O u) →
      ∃ cu usr, unmarshalCustomer O u = some cu ∧ cu.User = some usr ∧
        c.Customers.lookup usr.ID = some (some cu) ∧
        (∀ s, u.field "ID" = some (.str s) → usr.ID = s) ∧
        (∀ b, u.field "EMAIL_VERIFIED" = some (.bool b) → cu.EmailVerified = b)) := by
  obtain ⟨fin, hl, hA, hC, _⟩ := Chat.UnmarshalJSON_ok O data cs c hcs hok
  constructor
  · intro pre u post hus ht hlast
    rw [hus] at hl
    obtain ⟨a, usr, ha, hu, hlk⟩ := usersLoop_places_agent O pre post u _ fin hl ht hlast
    exact ⟨a, usr, ha, hu, hA ▸ hlk, fun s hs => unmarshalAgent_ID O u a usr s ha hu hs,
      fun s hs => unmarshalAgent_RoutingStatus O u a s ha hs⟩
  · intro pre u post hus ht hlast
    rw [hus] at hl
    obtain ⟨cu, usr, ha, hu, hlk⟩ := usersLoop_places_customer O pre post u _ fin hl ht hlast
    exact ⟨cu, usr, ha, hu, hC ▸ hlk, fun s hs => unmarshalCustomer_ID O u cu usr s ha hu hs,
      fun b hb => unmarshalCustomer_EmailVerified O u cu b ha hb⟩

/-- C4 at the users `a1` (agent, "accepting_chats"), `c1` (customer, verified
email) and `x1` (unknown type): `Agents` is `a1` alone, with that status, and
`Customers` is `c1` alone. -/
theorem C4_partition_witness :
    Chat.UnmarshalJSON sampleObjects (chatPayload [agentA1, customerC1, unknownX1]) =
      .ok (sampleChat (chatPayload [agentA1, customerC1, unknownX1])) ∧
    (∃ a usr, unmarshalAgent sampleObjects agentA1 = some a ∧ a.User = some usr ∧
      (sampleChat (chatPayload [agentA1, customerC1, unknownX1])).Agents.lookup usr.ID =
        some (some a) ∧
      (∀ s, agentA1.field "ID" = some (.str s) → usr.ID = s) ∧
      (∀ s, agentA1.field "ROUTING_STATUS" = some (.str s) → a.RoutingStatus = s)) ∧
    (sampleChat (chatPayload [agentA1, customerC1, unknownX1])).Agents.keys = ["a1"] ∧
    (sampleChat (chatPayload [agentA1, customerC1, unknownX1])).Customers.keys = ["c1"] :=
  ⟨rfl,
    (C4_partition_places_recognized sampleObjects (chatPayload [agentA1, customerC1, unknownX1])
      (sampleCS (chatPayload [agentA1, customerC1, unknownX1]))
      (sampleChat (chatPayload [agentA1, customerC1, unknownX1])) rfl rfl).1
      [] agentA1 [customerC1, unknownX1] rfl rfl (by decide),
    rfl, rfl⟩

/-- C5 (the code departs from the claim): after an element tagged "agent", the
element `{"id":"x1"}`, which has no `type` field, is stored in `Agents` under
"x1"; without it the decoded `Agents` holds "a1" alone. -/
theorem C5_untagged_element_inherits_tag :
    Chat.UnmarshalJSON sampleObjects (chatPayload [agentA1, untaggedX1]) =
      .ok (sampleChat (chatPayload [agentA1, untaggedX1])) ∧
    elemType untaggedX1 = some "" ∧
    (sampleChat (chatPayload [agentA1, untaggedX1])).Agents.keys = ["x1", "a1"] ∧
    Chat.UnmarshalJSON sampleObjects (chatPayload [agentA1]) =
      .ok (sampleChat (chatPayload [agentA1])) ∧
    (sampleChat (chatPayload [agentA1])).Agents.keys = ["a1"] :=
  ⟨rfl, rfl, rfl, rfl, rfl⟩

/-- C6 (as stated, refuted): with the users `a1` (well-formed agent), `a2`
(agent whose `routing_status` is the number 5) and `c1` (well-formed customer),
`Chat.UnmarshalJSON` returns an error. -/
theorem C6_counterexample :
    Chat.UnmarshalJSON sampleObjects (chatPayload [agentA1, agentA2Corrupt, customerC1]) =
      .error := rfl

/-- C6 (amended): when an element of `users` carries a recognized tag and holds
a variant-specific field of the wrong shape, `Chat.UnmarshalJSON` decodes no
chat; it returns an error when the payload has a field of the chat itself and
the elements before the ill-formed one carry an `id`. -/
theorem C6_variant_corruption_fails_decode (O : Objects) (data : RawMessage) (cs : CS O)
    (pre post : List JSON) (kvs : List (String × JSON)) (k : String) (v : JSON) (tag : String)
    (hcs : unmarshalCS O data = some cs) (hus : cs.Users = pre ++ .obj kvs :: post)
    (hkv : (k, v) ∈ kvs) (htag : elemType (.obj kvs) = some tag)
    (hrec : tag = "agent" ∨ tag = "customer")
    (hill : variantIllShaped tag (foldName k) v = true) :
    (∀ c, Chat.UnmarshalJSON O data ≠ .ok c) ∧
    (cs.ChatAlias ≠ none → (∀ u ∈ pre, carriesID u = true) →
      Chat.UnmarshalJSON O data = .error) := by
  have hstep := usersStep_error_of_ill O kvs k v tag hkv htag hrec (Or.inl hill)
  have hloop := usersLoop_of_step_error O pre post (.obj kvs) ⟨"", [], []⟩ hstep
  rw [← hus] at hloop
  have hchat := Chat.UnmarshalJSON_of_loop_error O data cs hcs hloop.1
  exact ⟨hchat.1, fun ha hid => hchat.2 ha (hloop.2 hid)⟩

/-- C6 (amended) at the users `a1`, `a2` with `routing_status` 5, and `c1`. -/
theorem C6_variant_corruption_witness :
    Chat.UnmarshalJSON sampleObjects (chatPayload [agentA1, agentA2Corrupt, customerC1]) =
      .error :=
  (C6_variant_corruption_fails_decode sampleObjects
    (chatPayload [agentA1, agentA2Corrupt, customerC1])
    (sampleCS (chatPayload [agentA1, agentA2Corrupt, customerC1]))
    [agentA1] [customerC1]
    [("type", .str "agent"), ("id", .str "a2"), ("routing_status", .int 5)]
    "routing_status" (.int 5) "agent" rfl rfl (by simp) rfl (Or.inl rfl) rfl).2
    (fun h => Option.noConfusion h) (by decide)

/-- C7 (as stated, refuted): with the single user
`{"type":"unknown_future_type","id":5}`, whose `id` is a number,
`Chat.UnmarshalJSON` returns no error and decodes a chat with empty maps. -/
theorem C7_counterexample :
    Chat.UnmarshalJSON sampleObjects (chatPayload [unknownNumericID]) =
      .ok (sampleChat (chatPayload [unknownNumericID])) ∧
    (sampleChat (chatPayload [unknownNumericID])).Agents = [] ∧
    (sampleChat (chatPayload [unknownNumericID])).Customers = [] :=
  ⟨rfl, rfl, rfl⟩

/-- C7 (amended): when an element of `users` is a boolean, a number, a string
or an array, or is an object that carries a recognized tag and has an ill-typed
common field, `Chat.UnmarshalJSON` decodes no chat; it returns an error when
the payload has a field of the chat itself and the elements before the corrupt
one carry an `id`. -/
theorem C7_structural_corruption_fails_decode (O : Objects) (data : RawMessage) (cs : CS O)
    (pre post : List JSON) (bad : JSON)
    (hcs : unmarshalCS O data = some cs) (hus : cs.Users = pre ++ bad :: post)
    (hbad : corruptElement bad = true) :
    (∀ c, Chat.UnmarshalJSON O data ≠ .ok c) ∧
    (cs.ChatAlias ≠ none → (∀ u ∈ pre, carriesID u = true) →
      Chat.UnmarshalJSON O data = .error) := by
  have hstep := usersStep_error_of_corrupt O bad hbad
  have hloop := usersLoop_of_step_error O pre post bad ⟨"", [], []⟩ hstep
  rw [← hus] at hloop
  have hchat := Chat.UnmarshalJSON_of_loop_error O data cs hcs hloop.1
  exact ⟨hchat.1, fun ha hid => hchat.2 ha (hloop.2 hid)⟩

/-- C7 (amended) at the users `a1` and `{"type":"agent","id":7}`. -/
theorem C7_structural_corruption_witness :
    corruptElement agentNumericID = true ∧
    Chat.UnmarshalJSON sampleObjects (chatPayload [agentA1, agentNumericID]) = .error :=
  ⟨rfl,
    (C7_structural_corruption_fails_decode sampleObjects
      (chatPayload [agentA1, agentNumericID])
      (sampleCS (chatPayload [agentA1, agentNumericID]))
      [agentA1] [] agentNumericID rfl rfl rfl).2
      (fun h => Option.noConfusion h) (by decide)⟩

/-- C8: on a payload that `Chat.UnmarshalJSON` decodes, of two elements of
`users` that carry the same recognized tag and the same id, the later one, when
no element after it has that id, is the entry of the id in the mapping, and the
mapping holds exactly one entry for the id. -/
theorem C8_last_write_wins (O : Objects) (data : RawMessage) (cs : CS O) (c : Chat O)
    (hcs : unmarshalCS O data = some cs) (hok : Chat.UnmarshalJSON O data = .ok c) :
    (∀ pre u1 mid u2 post, cs.Users = pre ++ u1 :: (mid ++ u2 :: post) →
      elemType u1 = some "agent" → elemType u2 = some "agent" →
      agentKey O u1 = agentKey O u2 → (∀ v ∈ post, agentKey O v ≠ agentKey O u2) →
      ∃ a2 usr, unmarshalAgent O u2 = some a2 ∧ a2.User = some usr ∧
        agentKey O u1 = some usr.ID ∧ c.Agents.lookup usr.ID = some (some a2) ∧
        (c.Agents.filter (fun p => decide (p.1 = usr.ID))).length = 1) ∧
    (∀ pre u1 mid u2 post, cs.Users = pre ++ u1 :: (mid ++ u2 :: post) →
      elemType u1 = some "customer" → elemType u2 = some "customer" →
      customerKey O u1 = customerKey O u2 →
      (∀ v ∈ post, customerKey O v ≠ customerKey O u2) →
      ∃ cu2 usr, unmarshalCustomer O u2 = some cu2 ∧ cu2.User = some usr ∧
        customerKey O u1 = some usr.ID ∧ c.Customers.lookup usr.ID = some (some cu2) ∧
        (c.Customers.filter (fun p => decide (p.1 = usr.ID))).length = 1) := by
  obtain ⟨fin, hl, hA, hC, _⟩ := Chat.UnmarshalJSON_ok O data cs c hcs hok
  obtain ⟨nA, nC⟩ := usersLoop_nodup O cs.Users _ fin hl List.nodup_nil List.nodup_nil
  constructor
  · intro pre u1 mid u2 post hus _ ht hsame hlast
    have hus2 : cs.Users = (pre ++ u1 :: mid) ++ u2 :: post := by simp [hus]
    rw [hus2] at hl
    obtain ⟨a, usr, ha, hu, hlk⟩ :=
      usersLoop_places_agent O (pre ++ u1 :: mid) post u2 _ fin hl ht hlast
    refine ⟨a, usr, ha, hu, hsame.trans (agentKey_of_unmarshalAgent O u2 a usr ha hu),
      hA ▸ hlk, ?_⟩
    rw [hA]
    exact GoMap.count_key_eq_one _ _ nA (GoMap.mem_keys_of_lookup _ _ _ hlk)
  · intro pre u1 mid u2 post hus _ ht hsame hlast
    have hus2 : cs.Users = (pre ++ u1 :: mid) ++ u2 :: post := by simp [hus]
    rw [hus2] at hl
    obtain ⟨cu, usr, ha, hu, hlk⟩ :=
      usersLoop_places_customer O (pre ++ u1 :: mid) post u2 _ fin hl ht hlast
    refine ⟨cu, usr, ha, hu,
      hsame.trans (customerKey_of_unmarshalCustomer O u2 cu usr ha hu), hC ▸ hlk, ?_⟩
    rw [hC]
    exact GoMap.count_key_eq_one _ _ nC (GoMap.mem_keys_of_lookup _ _ _ hlk)

/-- C8 at two agents of id "a1": the entry of "a1" is the second one. -/
theorem C8_last_write_witness :
    ∃ a2 usr, unmarshalAgent sampleObjects agentA1Offline = some a2 ∧ a2.User = some usr ∧
      agentKey sampleObjects agentA1 = some usr.ID ∧
      (sampleChat (chatPayload [agentA1, agentA1Offline])).Agents.lookup usr.ID =
        some (some a2) ∧
      ((sampleChat (chatPayload [agentA1, agentA1Offline])).Agents.filter
        (fun p => decide (p.1 = usr.ID))).length = 1 :=
  (C8_last_write_wins sampleObjects (chatPayload [agentA1, agentA1Offline])
    (sampleCS (chatPayload [agentA1, agentA1Offline]))
    (sampleChat (chatPayload [agentA1, agentA1Offline])) rfl rfl).1
    [] agentA1 [] agentA1Offline [] rfl rfl rfl rfl (by decide)

/-- C9 (as stated, refuted): with an agent and a customer that both have the
id "a1", the decoded chat holds the key "a1" in `Agents` and in `Customers`. -/
theorem C9_counterexample :
    Chat.UnmarshalJSON sampleObjects (chatPayload [agentA1, customerA1]) =
      .ok (sampleChat (chatPayload [agentA1, customerA1])) ∧
    "a1" ∈ (sampleChat (chatPayload [agentA1, customerA1])).Agents.keys ∧
    "a1" ∈ (sampleChat (chatPayload [agentA1, customerA1])).Customers.keys :=
  ⟨rfl, by decide, by decide⟩

/-- C9 (amended): on a payload that `Chat.UnmarshalJSON` decodes, each of the
two mappings holds one entry per key; and when every element of `users` carries
a string type tag and no element tagged "agent" has the id of an element tagged
"customer", no key is in both `Agents` and `Customers`.  Two elements of the
same tag may share an id. -/
theorem C9_mappings_exclusive_when_ids_apart (O : Objects) (data : RawMessage) (cs : CS O)
    (c : Chat O) (hcs : unmarshalCS O data = some cs)
    (hok : Chat.UnmarshalJSON O data = .ok c) :
    (c.Agents.keys.Nodup ∧ c.Customers.keys.Nodup) ∧
    ((∀ u ∈ cs.Users, carriesType u = true) → cs.Users.Pairwise (apartAcross O) →
      ∀ k, ¬ (k ∈ c.Agents.keys ∧ k ∈ c.Customers.keys)) := by
  obtain ⟨fin, hl, hA, hC, _⟩ := Chat.UnmarshalJSON_ok O data cs c hcs hok
  obtain ⟨nA, nC⟩ := usersLoop_nodup O cs.Users _ fin hl List.nodup_nil List.nodup_nil
  rw [hA, hC]
  refine ⟨⟨nA, nC⟩, fun htags hapart k hk => ?_⟩
  exact usersLoop_disjoint O cs.Users _ fin hl htags hapart
    (fun _ _ _ k hk => by cases hk) (fun _ _ _ k hk => by cases hk)
    (fun k hk => by cases hk) k hk.1 hk.2

/-- C9 (amended) at the users `a1` (agent), `a1` again (agent, offline) and `c1`
(customer): the two agents share an id, no agent has the id of the customer,
and no key is in both mappings. -/
theorem C9_mappings_exclusive_witness :
    (∀ u ∈ [agentA1, agentA1Offline, customerC1], carriesType u = true) ∧
    [agentA1, agentA1Offline, customerC1].Pairwise (apartAcross sampleObjects) ∧
    ((sampleChat (chatPayload [agentA1, agentA1Offline, customerC1])).Agents.keys.Nodup ∧
      (sampleChat (chatPayload [agentA1, agentA1Offline, customerC1])).Customers.keys.Nodup) ∧
    (∀ k, ¬ (k ∈ (sampleChat (chatPayload [agentA1, agentA1Offline, customerC1])).Agents.keys ∧
      k ∈ (sampleChat (chatPayload [agentA1, agentA1Offline, customerC1])).Customers.keys)) :=
  ⟨by decide, by decide,
    (C9_mappings_exclusive_when_ids_apart sampleObjects
      (chatPayload [agentA1, agentA1Offline, customerC1])
      (sampleCS (chatPayload [agentA1, agentA1Offline, customerC1]))
      (sampleChat (chatPayload [agentA1, agentA1Offline, customerC1])) rfl rfl).1,
    (C9_mappings_exclusive_when_ids_apart sampleObjects
      (chatPayload [agentA1, agentA1Offline, customerC1])
      (sampleCS (chatPayload [agentA1, agentA1Offline, customerC1]))
      (sampleChat (chatPayload [agentA1, agentA1Offline, customerC1])) rfl rfl).2
      (by decide) (by decide)⟩

/-- C10 (as stated, refuted): with two agents of id "a1", the decoded chat holds
one entry in all, while two elements carry a recognized tag. -/
theorem C10_counterexample :
    Chat.UnmarshalJSON sampleObjects (chatPayload [agentA1, agentA1Offline]) =
      .ok (sampleChat (chatPayload [agentA1, agentA1Offline])) ∧
    (sampleChat (chatPayload [agentA1, agentA1Offline])).Agents.len +
      (sampleChat (chatPayload [agentA1, agentA1Offline])).Customers.len = 1 ∧
    [agentA1, agentA1Offline].countP recognized = 2 :=
  ⟨rfl, rfl, rfl⟩

/-- C10 (amended): on a payload that `Chat.UnmarshalJSON` decodes, when every
element of `users` carries a string type tag and the elements of a same
recognized tag have pairwise different ids, `len(Agents)` is the number of
elements tagged "agent", `len(Customers)` the number of elements tagged
"customer", and their sum the number of elements with a recognized tag. -/
theorem C10_partition_size_when_ids_distinct (O : Objects) (data : RawMessage) (cs : CS O)
    (c : Chat O) (hcs : unmarshalCS O data = some cs)
    (hok : Chat.UnmarshalJSON O data = .ok c)
    (htags : ∀ u ∈ cs.Users, carriesType u = true)
    (hapart : cs.Users.Pairwise (apartWithin O)) :
    c.Agents.len = cs.Users.countP (fun u => decide (elemType u = some "agent")) ∧
    c.Customers.len = cs.Users.countP (fun u => decide (elemType u = some "customer")) ∧
    c.Agents.len + c.Customers.len = cs.Users.countP recognized := by
  obtain ⟨fin, hl, hA, hC, _⟩ := Chat.UnmarshalJSON_ok O data cs c hcs hok
  obtain ⟨r1, r2⟩ := usersLoop_len O cs.Users _ fin hl htags hapart
    (fun _ _ _ k hk => by cases hk) (fun _ _ _ k hk => by cases hk)
  rw [hA, hC, countP_recognized, r1, r2]
  simp [GoMap.len]

/-- C10 (amended) at the users `a1` (agent), `c1` (customer) and `x1`: two
entries in all, two recognized elements. -/
theorem C10_partition_size_witness :
    (sampleChat (chatPayload [agentA1, customerC1, unknownX1])).Agents.len +
      (sampleChat (chatPayload [agentA1, customerC1, unknownX1])).Customers.len = 2 ∧
    [agentA1, customerC1, unknownX1].countP recognized = 2 :=
  ⟨(C10_partition_size_when_ids_distinct sampleObjects
      (chatPayload [agentA1, customerC1, unknownX1])
      (sampleCS (chatPayload [agentA1, customerC1, unknownX1]))
      (sampleChat (chatPayload [agentA1, customerC1, unknownX1])) rfl rfl
      (by decide) (by decide)).2.2,
    rfl⟩

/-- C11: for a chat whose map entries are non-nil, `Chat.Users` returns,
whatever the order in which the two maps are visited, a slice of length
`len(c.Agents) + len(c.Customers)` that holds the embedded `User` of every
entry of `c.Agents` and of every entry of `c.Customers`, each once; and it
leaves the chat as it was. -/
theorem C11_users_combines_both_mappings (O : Objects) (c : Chat O)
    (agents : List (String × Option (Agent O)))
    (customers : List (String × Option (Customer O)))
    (hA : agents.Perm c.Agents) (hC : customers.Perm c.Customers)
    (hnA : ∀ p ∈ c.Agents, p.2 ≠ none) (hnC : ∀ p ∈ c.Customers, p.2 ≠ none) :
    ∃ us, c.Users agents customers = .ok (c, us) ∧
      us.length = c.Agents.len + c.Customers.len ∧ us.Perm c.embeddedUsers := by
  have h1 := rangeUsers_ok (fun a : Agent O => a.User) agents []
    (fun p hp => hnA p (hA.mem_iff.mp hp))
  have h2 := rangeUsers_ok (fun cu : Customer O => cu.User) customers
    ([] ++ agents.map (fun p => p.2.bind (fun a => a.User)))
    (fun p hp => hnC p (hC.mem_iff.mp hp))
  refine ⟨([] ++ agents.map (fun p => p.2.bind (fun a => a.User))) ++
    customers.map (fun p => p.2.bind (fun cu => cu.User)), ?_, ?_, ?_⟩
  · unfold Chat.Users
    rw [h1]
    simp only
    rw [h2]
  · simp [GoMap.len, hA.length_eq, hC.length_eq]
  · simp only [List.nil_append, Chat.embeddedUsers]
    exact List.Perm.append (hA.map _) (hC.map _)

/-- C11 at the chat decoded from the users `a1` (agent) and `c1` (customer),
visited in the order of the model: two users, those of the two entries. -/
theorem C11_users_combines_witness :
    ∃ us, (sampleChat (chatPayload [agentA1, customerC1])).Users
        (sampleChat (chatPayload [agentA1, customerC1])).Agents
        (sampleChat (chatPayload [agentA1, customerC1])).Customers =
        .ok (sampleChat (chatPayload [agentA1, customerC1]), us) ∧
      us.length = (sampleChat (chatPayload [agentA1, customerC1])).Agents.len +
        (sampleChat (chatPayload [agentA1, customerC1])).Customers.len ∧
      us.Perm (sampleChat (chatPayload [agentA1, customerC1])).embeddedUsers :=
  C11_users_combines_both_mappings sampleObjects
    (sampleChat (chatPayload [agentA1, customerC1])) _ _ (List.Perm.refl _) (List.Perm.refl _)
    (fun p hp => by
      have e : (sampleChat (chatPayload [agentA1, customerC1])).Agents =
          [("a1", unmarshalAgent sampleObjects agentA1)] := rfl
      rw [e, List.mem_singleton] at hp
      subst hp
      intro h
      have t : (unmarshalAgent sampleObjects agentA1).isSome = true := rfl
      rw [show unmarshalAgent sampleObjects agentA1 = none from h] at t
      cases t)
    (fun p hp => by
      have e : (sampleChat (chatPayload [agentA1, customerC1])).Customers =
          [("c1", unmarshalCustomer sampleObjects customerC1)] := rfl
      rw [e, List.mem_singleton] at hp
      subst hp
      intro h
      have t : (unmarshalCustomer sampleObjects customerC1).isSome = true := rfl
      rw [show unmarshalCustomer sampleObjects customerC1 = none from h] at t
      cases t)

/-- C12 (as stated, refuted): for the users `c1` (customer) then `a1` (agent),
`Chat.Users` of the decoded chat lists `a1` before `c1`, whatever the order in
which the maps are visited. -/
theorem C12_counterexample :
    Chat.UnmarshalJSON sampleObjects (chatPayload [customerC1, agentA1]) =
      .ok (sampleChat (chatPayload [customerC1, agentA1])) ∧
    ∀ agents customers,
      agents.Perm (sampleChat (chatPayload [customerC1, agentA1])).Agents →
      customers.Perm (sampleChat (chatPayload [customerC1, agentA1])).Customers →
      ∃ us, (sampleChat (chatPayload [customerC1, agentA1])).Users agents customers =
          .ok (sampleChat (chatPayload [customerC1, agentA1]), us) ∧
        us.map (fun u => u.map (fun usr => usr.ID)) = [some "a1", some "c1"] := by
  refine ⟨rfl, ?_⟩
  intro agents customers hA hC
  have eA : (sampleChat (chatPayload [customerC1, agentA1])).Agents =
      [("a1", unmarshalAgent sampleObjects agentA1)] := rfl
  have eC : (sampleChat (chatPayload [customerC1, agentA1])).Customers =
      [("c1", unmarshalCustomer sampleObjects customerC1)] := rfl
  rw [eA] at hA
  rw [eC] at hC
  rw [List.perm_singleton.mp hA, List.perm_singleton.mp hC]
  exact ⟨_, rfl, rfl⟩

/-- C12 (amended): for a chat decoded from a `users` array in which every
element carries a string type tag and the elements of a same recognized tag
have pairwise different ids, `Chat.Users` lists each recognized user once, the
agents before the customers, whatever the order in which the maps are visited;
the order inside a variant is that of the visit. -/
theorem C12_users_lists_agents_then_customers (O : Objects) (data : RawMessage) (cs : CS O)
    (c : Chat O) (agents : List (String × Option (Agent O)))
    (customers : List (String × Option (Customer O)))
    (hcs : unmarshalCS O data = some cs) (hok : Chat.UnmarshalJSON O data = .ok c)
    (htags : ∀ u ∈ cs.Users, carriesType u = true)
    (hapart : cs.Users.Pairwise (apartWithin O))
    (hA : agents.Perm c.Agents) (hC : customers.Perm c.Customers) :
    ∃ ua uc, c.Users agents customers = .ok (c, ua ++ uc) ∧
      ua.Perm ((cs.Users.filter (fun u => decide (elemType u = some "agent"))).map
        (agentUser O)) ∧
      uc.Perm ((cs.Users.filter (fun u => decide (elemType u = some "customer"))).map
        (customerUser O)) := by
  obtain ⟨fin, hl, eA, eC, _⟩ := Chat.UnmarshalJSON_ok O data cs c hcs hok
  obtain ⟨r1, r2⟩ := usersLoop_users O cs.Users _ fin hl htags hapart
    (fun _ _ _ k hk => by cases hk) (fun _ _ _ k hk => by cases hk)
  obtain ⟨nA, nC⟩ := usersLoop_entries_ne_none O cs.Users _ fin hl
    (fun p hp => by cases hp) (fun p hp => by cases hp)
  have h1 := rangeUsers_ok (fun a : Agent O => a.User) agents []
    (fun p hp => nA p (eA ▸ hA.mem_iff.mp hp))
  have h2 := rangeUsers_ok (fun cu : Customer O => cu.User) customers
    ([] ++ agents.map (fun p => p.2.bind (fun a => a.User)))
    (fun p hp => nC p (eC ▸ hC.mem_iff.mp hp))
  refine ⟨agents.map (fun p => p.2.bind (fun a => a.User)),
    customers.map (fun p => p.2.bind (fun cu => cu.User)), ?_, ?_, ?_⟩
  · unfold Chat.Users
    rw [h1]
    simp only
    rw [h2]
    rfl
  · rw [eA] at hA
    simpa using (hA.map (fun p => p.2.bind (fun a => a.User))).trans r1
  · rw [eC] at hC
    simpa using (hC.map (fun p => p.2.bind (fun cu => cu.User))).trans r2

/-- C12 (amended) at the users `c1` (customer) then `a1` (agent), visited in the
order of the model. -/
theorem C12_users_lists_witness :
    ∃ ua uc, (sampleChat (chatPayload [customerC1, agentA1])).Users
        (sampleChat (chatPayload [customerC1, agentA1])).Agents
        (sampleChat (chatPayload [customerC1, agentA1])).Customers =
        .ok (sampleChat (chatPayload [customerC1, agentA1]), ua ++ uc) ∧
      ua.Perm (([customerC1, agentA1].filter
        (fun u => decide (elemType u = some "agent"))).map (agentUser sampleObjects)) ∧
      uc.Perm (([customerC1, agentA1].filter
        (fun u => decide (elemType u = some "customer"))).map (customerUser sampleObjects)) :=
  C12_users_lists_agents_then_customers sampleObjects (chatPayload [customerC1, agentA1])
    (sampleCS (chatPayload [customerC1, agentA1]))
    (sampleChat (chatPayload [customerC1, agentA1])) _ _ rfl rfl (by decide) (by decide)
    (List.Perm.refl _) (List.Perm.refl _)

/-- C13 (as stated, refuted): the element
`{"type":"customer","id":"c1","email_verified":true}` is stored in `Customers`
by `Chat.UnmarshalJSON`, and decoding the same object as a `User` and calling
`Customer` returns nil: the object has no `last_visit`, the first fragment that
`Customer` decodes. -/
theorem C13_counterexample :
    Chat.UnmarshalJSON sampleObjects (chatPayload [customerC1]) =
      .ok (sampleChat (chatPayload [customerC1])) ∧
    (sampleChat (chatPayload [customerC1])).Customers.keys = ["c1"] ∧
    unmarshalUser sampleObjects customerC1 (User.zero sampleObjects) =
      some (sampleUser customerC1) ∧
    (sampleUser customerC1).Type_ = "customer" ∧
    (sampleUser customerC1).LastVisit = .nil ∧
    ((sampleUser customerC1).Customer).isSome = false :=
  ⟨rfl, rfl, rfl, rfl, rfl, rfl⟩

/-- C13 (amended): for a JSON object without repeated keys that carries the tag
"agent" (resp. "customer"), that the collection decoder decodes as an `Agent`
(resp. `Customer`) with an embedded user, and that carries every fragment the
promoter decodes, decoding the object as a `User` and calling `Agent` (resp.
`Customer`) returns a value with the same common fields, whose typed variant
fields decoded by the promoter equal those of the value of the collection
decoder. -/
theorem C13_promoter_agrees_with_collection (O : Objects) :
    (∀ (j : JSON) (a : Agent O) (usr : User O) (vr vv : JSON), j.keysDistinct →
      elemType j = some "agent" → unmarshalAgent O j = some a → a.User = some usr →
      j.field "ROUTING_STATUS" = some vr → j.field "VISIBILITY" = some vv →
      ∃ u a2, unmarshalUser O j (User.zero O) = some u ∧ u.Agent = some a2 ∧
        a2.User = some u ∧ u.common = usr.common ∧
        a2.RoutingStatus = a.RoutingStatus ∧ a2.Visibility = a.Visibility) ∧
    (∀ (j : JSON) (cu : Customer O) (usr : User O) (v1 : JSON) (v2 : JSON) (v3 : JSON) (v4 : JSON) (v5 : JSON) (v6 : JSON) (v7 : JSON) (v8 : JSON) (v9 : JSON) (v10 : JSON), j.keysDistinct →
      elemType j = some "customer" → unmarshalCustomer O j = some cu → cu.User = some usr →
      j.field "LAST_VISIT" = some v1 →
      j.field "STATISTICS" = some v2 →
      j.field "AGENT_LAST_EVENT_CREATED_AT" = some v3 →
      j.field "CUSTOMER_LAST_EVENT_CREATED_AT" = some v4 →
      j.field "EMAIL_VERIFIED" = some v5 →
      j.field "CREATED_AT" = some v6 →
      j.field "FOLLOWED" = some v7 →
      j.field "ONLINE" = some v8 →
      j.field "STATE" = some v9 →
      j.field "SESSION_FIELDS" = some v10 →
      ∃ u c2, unmarshalUser O j (User.zero O) = some u ∧ u.Customer = some c2 ∧
        c2.User = some u ∧ u.common = usr.common ∧
        c2.LastVisit = cu.LastVisit ∧
        c2.Statistics = cu.Statistics ∧
        c2.AgentLastEventCreatedAt = cu.AgentLastEventCreatedAt ∧
        c2.CustomerLastEventCreatedAt = cu.CustomerLastEventCreatedAt ∧
        c2.EmailVerified = cu.EmailVerified ∧
        c2.CreatedAt = cu.CreatedAt ∧
        c2.Followed = cu.Followed ∧
        c2.Online = cu.Online ∧
        c2.State = cu.State ∧
        c2.SessionFields = cu.SessionFields) := by
  constructor
  · intro j a usr vr vv hnd ht h hau hf1 hf2
    cases j with
    | obj kvs =>
      obtain ⟨u, hu, hc⟩ := unmarshalUser_of_unmarshalAgent O kvs a h
      rw [hau] at hc
      have hT := unmarshalUser_Type O kvs u "agent" hu ht
      have t1 := unmarshalFields_typed (Agent.setField O) (fun a => a.RoutingStatus)
        (fun a s => { a with RoutingStatus := s }) unmarshalString "ROUTING_STATUS"
        (fun fk w s s1 hne hs => (agent_setField_keeps O fk w s s1 hs).1 hne)
        (fun _ _ => rfl) (fun _ _ => rfl) kvs vr hf1 hnd (Agent.zero O) a h
      have t2 := unmarshalFields_typed (Agent.setField O) (fun a => a.Visibility)
        (fun a s => { a with Visibility := s }) unmarshalString "VISIBILITY"
        (fun fk w s s1 hne hs => (agent_setField_keeps O fk w s s1 hs).2 hne)
        (fun _ _ => rfl) (fun _ _ => rfl) kvs vv hf2 hnd (Agent.zero O) a h
      have r1 : u.RoutingStatus = .valid vr :=
        unmarshalUser_stores_fragment O (.obj kvs) u "ROUTING_STATUS" vr hu (by decide) hf1
      have r2 : u.Visibility = .valid vv :=
        unmarshalUser_stores_fragment O (.obj kvs) u "VISIBILITY" vv hu (by decide) hf2
      have p1 : Unmarshal unmarshalString u.RoutingStatus "" = some a.RoutingStatus := by
        rw [r1]; exact t1
      have p2 : Unmarshal unmarshalString u.Visibility "" = some a.Visibility := by
        rw [r2]; exact t2
      refine ⟨u, ⟨some u, a.RoutingStatus, a.Visibility⟩, hu, ?_, rfl, hc.symm, rfl, rfl⟩
      simp [User.Agent, hT, p1, p2]
    | _ => simp [JSON.field] at hf1
  · intro j cu usr v1 v2 v3 v4 v5 v6 v7 v8 v9 v10 hnd ht h hcu hf1 hf2 hf3 hf4 hf5 hf6 hf7 hf8 hf9 hf10
    cases j with
    | obj kvs =>
      obtain ⟨u, hu, hc⟩ := unmarshalUser_of_unmarshalCustomer O kvs cu h
      rw [hcu] at hc
      have hT := unmarshalUser_Type O kvs u "customer" hu ht
      have t1 := unmarshalFields_typed (Customer.setField O) (fun c => c.LastVisit)
        (fun c x => { c with LastVisit := x }) O.unmarshalVisit "LAST_VISIT"
        (fun fk w s s1 hne hs => (customer_setField_keeps O fk w s s1 hs).2.1 hne)
        (fun _ _ => rfl) (fun _ _ => rfl) kvs v1 hf1 hnd (Customer.zero O) cu h
      have r1 : u.LastVisit = .valid v1 :=
        unmarshalUser_stores_fragment O (.obj kvs) u "LAST_VISIT" v1 hu (by decide) hf1
      have p1 : Unmarshal O.unmarshalVisit u.LastVisit O.zeroVisit = some cu.LastVisit := by rw [r1]; exact t1
      have t2 := unmarshalFields_typed (Customer.setField O) (fun c => c.Statistics)
        (fun c x => { c with Statistics := x }) unmarshalStatistics "STATISTICS"
        (fun fk w s s1 hne hs => (customer_setField_keeps O fk w s s1 hs).2.2.1 hne)
        (fun _ _ => rfl) (fun _ _ => rfl) kvs v2 hf2 hnd (Customer.zero O) cu h
      have r2 : u.Statistics = .valid v2 :=
        unmarshalUser_stores_fragment O (.obj kvs) u "STATISTICS" v2 hu (by decide) hf2
      have p2 : Unmarshal unmarshalStatistics u.Statistics Statistics.zero = some cu.Statistics := by rw [r2]; exact t2
      have t3 := unmarshalFields_typed (Customer.setField O) (fun c => c.AgentLastEventCreatedAt)
        (fun c x => { c with AgentLastEventCreatedAt := x }) O.unmarshalTime "AGENT_LAST_EVENT_CREATED_AT"
        (fun fk w s s1 hne hs => (customer_setField_keeps O fk w s s1 hs).2.2.2.1 hne)
        (fun _ _ => rfl) (fun _ _ => rfl) kvs v3 hf3 hnd (Customer.zero O) cu h
      have r3 : u.AgentLastEventCreatedAt = .valid v3 :=
        unmarshalUser_stores_fragment O (.obj kvs) u "AGENT_LAST_EVENT_CREATED_AT" v3 hu (by decide) hf3
      have p3 : Unmarshal O.unmarshalTime u.AgentLastEventCreatedAt O.zeroTime = some cu.AgentLastEventCreatedAt := by rw [r3]; exact t3
      have t4 := unmarshalFields_typed (Customer.setField O) (fun c => c.CustomerLastEventCreatedAt)
        (fun c x => { c with CustomerLastEventCreatedAt := x }) O.unmarshalTime "CUSTOMER_LAST_EVENT_CREATED_AT"
        (fun fk w s s1 hne hs => (customer_setField_keeps O fk w s s1 hs).2.2.2.2.1 hne)
        (fun _ _ => rfl) (fun _ _ => rfl) kvs v4 hf4 hnd (Customer.zero O) cu h
      have r4 : u.CustomerLastEventCreatedAt = .valid v4 :=
        unmarshalUser_stores_fragment O (.obj kvs) u "CUSTOMER_LAST_EVENT_CREATED_AT" v4 hu (by decide) hf4
      have p4 : Unmarshal O.unmarshalTime u.CustomerLastEventCreatedAt O.zeroTime = some cu.CustomerLastEventCreatedAt := by rw [r4]; exact t4
      have t5 := unmarshalFields_typed (Customer.setField O) (fun c => c.EmailVerified)
        (fun c x => { c with EmailVerified := x }) unmarshalBool "EMAIL_VERIFIED"
        (fun fk w s s1 hne hs => (customer_setField_keeps O fk w s s1 hs).1 hne)
        (fun _ _ => rfl) (fun _ _ => rfl) kvs v5 hf5 hnd (Customer.zero O) cu h
      have r5 : u.EmailVerified = .valid v5 :=
        unmarshalUser_stores_fragment O (.obj kvs) u "EMAIL_VERIFIED" v5 hu (by decide) hf5
      have p5 : Unmarshal unmarshalBool u.EmailVerified false = some cu.EmailVerified := by rw [r5]; exact t5
      have t6 := unmarshalFields_typed (Customer.setField O) (fun c => c.CreatedAt)
        (fun c x => { c with CreatedAt := x }) O.unmarshalTime "CREATED_AT"
        (fun fk w s s1 hne hs => (customer_setField_keeps O fk w s s1 hs).2.2.2.2.2.1 hne)
        (fun _ _ => rfl) (fun _ _ => rfl) kvs v6 hf6 hnd (Customer.zero O) cu h
      have r6 : u.CreatedAt = .valid v6 :=
        unmarshalUser_stores_fragment O (.obj kvs) u "CREATED_AT" v6 hu (by decide) hf6
      have p6 : Unmarshal O.unmarshalTime u.CreatedAt O.zeroTime = some cu.CreatedAt := by rw [r6]; exact t6
      have t7 := unmarshalFields_typed (Customer.setField O) (fun c => c.Followed)
        (fun c x => { c with Followed := x }) unmarshalBool "FOLLOWED"
        (fun fk w s s1 hne hs => (customer_setField_keeps O fk w s s1 hs).2.2.2.2.2.2.2.1 hne)
        (fun _ _ => rfl) (fun _ _ => rfl) kvs v7 hf7 hnd (Customer.zero O) cu h
      have r7 : u.Followed = .valid v7 :=
        unmarshalUser_stores_fragment O (.obj kvs) u "FOLLOWED" v7 hu (by decide) hf7
      have p7 : Unmarshal unmarshalBool u.Followed false = some cu.Followed := by rw [r7]; exact t7
      have t8 := unmarshalFields_typed (Customer.setField O) (fun c => c.Online)
        (fun c x => { c with Online := x }) unmarshalBool "ONLINE"
        (fun fk w s s1 hne hs => (customer_setField_keeps O fk w s s1 hs).2.2.2.2.2.2.2.2.1 hne)
        (fun _ _ => rfl) (fun _ _ => rfl) kvs v8 hf8 hnd (Customer.zero O) cu h
      have r8 : u.Online = .valid v8 :=
        unmarshalUser_stores_fragment O (.obj kvs) u "ONLINE" v8 hu (by decide) hf8
      have p8 : Unmarshal unmarshalBool u.Online false = some cu.Online := by rw [r8]; exact t8
      have t9 := unmarshalFields_typed (Customer.setField O) (fun c => c.State)
        (fun c x => { c with State := x }) unmarshalString "STATE"
        (fun fk w s s1 hne hs => (customer_setField_keeps O fk w s s1 hs).2.2.2.2.2.2.2.2.2.1 hne)
        (fun _ _ => rfl) (fun _ _ => rfl) kvs v9 hf9 hnd (Customer.zero O) cu h
      have r9 : u.State = .valid v9 :=
        unmarshalUser_stores_fragment O (.obj kvs) u "STATE" v9 hu (by decide) hf9
      have p9 : Unmarshal unmarshalString u.State "" = some cu.State := by rw [r9]; exact t9
      have t10 := unmarshalFields_typed (Customer.setField O) (fun c => c.SessionFields)
        (fun c x => { c with SessionFields := x }) unmarshalSessionFields "SESSION_FIELDS"
        (fun fk w s s1 hne hs => (customer_setField_keeps O fk w s s1 hs).2.2.2.2.2.2.1 hne)
        (fun _ _ => rfl) (fun _ _ => rfl) kvs v10 hf10 hnd (Customer.zero O) cu h
      have r10 : u.SessionFields = .valid v10 :=
        unmarshalUser_stores_fragment O (.obj kvs) u "SESSION_FIELDS" v10 hu (by decide) hf10
      have p10 : Unmarshal unmarshalSessionFields u.SessionFields Slice.empty = some cu.SessionFields := by rw [r10]; exact t10
      refine ⟨u, { cu with User := some u, GroupIDs := Slice.empty }, hu, ?_, rfl, hc.symm,
        rfl, rfl, rfl, rfl, rfl, rfl, rfl, rfl, rfl, rfl⟩
      simp [User.Customer, hT, p1, p2, p3, p4, p5, p6, p7, p8, p9, p10]
    | _ => simp [JSON.field] at hf1

/-- C13 (amended) at the agent element `agentFull` and at the customer element
`customerFull`, which carry every fragment their promoter decodes. -/
theorem C13_promoter_agrees_witness :
    (∃ u a2, unmarshalUser sampleObjects agentFull (User.zero sampleObjects) = some u ∧
      u.Agent = some a2 ∧ a2.User = some u ∧ u.ID = "a1" ∧
      a2.RoutingStatus = "accepting_chats" ∧ a2.Visibility = "all") ∧
    (∃ u c2, unmarshalUser sampleObjects customerFull (User.zero sampleObjects) = some u ∧
      u.Customer = some c2 ∧ c2.User = some u ∧ u.ID = "c1" ∧
      c2.EmailVerified = true ∧ c2.State = "chatting") := by
  constructor
  · obtain ⟨u, a2, h1, h2, h3, h4, h5, h6⟩ :=
      (C13_promoter_agrees_with_collection sampleObjects).1 agentFull
        ((unmarshalAgent sampleObjects agentFull).getD (Agent.zero sampleObjects))
        ((agentUser sampleObjects agentFull).getD (User.zero sampleObjects)) (.str "accepting_chats") (.str "all")
        (by decide) rfl rfl rfl rfl rfl
    exact ⟨u, a2, h1, h2, h3, congrArg (fun t => t.1) h4, h5, h6⟩
  · obtain ⟨u, c2, h1, h2, h3, h4, _, _, _, _, h5, _, _, _, h9, _⟩ :=
      (C13_promoter_agrees_with_collection sampleObjects).2 customerFull
        ((unmarshalCustomer sampleObjects customerFull).getD (Customer.zero sampleObjects))
        ((customerUser sampleObjects customerFull).getD (User.zero sampleObjects))
        _ _ _ _ _ _ _ _ _ _
        (by decide) rfl rfl rfl rfl rfl rfl rfl rfl rfl rfl rfl rfl rfl
    exact ⟨u, c2, h1, h2, h3, congrArg (fun t => t.1) h4, h5, h9⟩

/-- C14 (the code departs from the claim): the user decoded from `customerFull`
holds the fragment `[1,2]` for `group_ids`, which decodes to `[1,2]`, and
`User.Customer` returns a customer whose `GroupIDs` is empty. -/
theorem C14_group_ids_never_decoded :
    unmarshalUser sampleObjects customerFull (User.zero sampleObjects) =
      some (sampleUser customerFull) ∧
    (sampleUser customerFull).GroupIDs = .valid (.arr [.int 1, .int 2]) ∧
    (Unmarshal unmarshalInts (sampleUser customerFull).GroupIDs Slice.empty).map Slice.toList =
      some [1, 2] ∧
    ((sampleUser customerFull).Customer).map (fun c => c.GroupIDs.toList) = some [] ∧
    ((sampleUser customerFull).Customer).map (fun c => (c.EmailVerified, c.State)) =
      some (true, "chatting") :=
  ⟨rfl, rfl, rfl, rfl, rfl⟩

/-- C15: a JSON value whose common fields decode (the value stripped of every
key that is no common field decodes) decodes as a `User`, resp. as an `Event`,
to the same common fields, whatever its other keys hold; and every
variant-specific field of the decoded envelope holds the encoded value of the
last key of its name, unparsed. -/
theorem C15_envelope_independent_of_fragments (O : Objects) :
    (∀ j x, unmarshalUser O (j.restrict User.commonNames) (User.zero O) = some x →
      ∃ u, unmarshalUser O j (User.zero O) = some u ∧ u.common = x.common) ∧
    (∀ j u name v, unmarshalUser O j (User.zero O) = some u → name ∈ User.fragmentNames →
      j.field name = some v → u.touserSpecific.fragment name = .valid v) ∧
    (∀ j x, unmarshalEvent O (j.restrict Event.commonNames) (Event.zero O) = some x →
      ∃ e, unmarshalEvent O j (Event.zero O) = some e ∧ e.common = x.common) ∧
    (∀ j e name v, unmarshalEvent O j (Event.zero O) = some e → name ∈ Event.fragmentNames →
      j.field name = some v → e.toeventSpecific.fragment name = .valid v) := by
  refine ⟨?_, ?_, ?_, ?_⟩
  · intro j x h
    cases j with
    | obj kvs =>
      obtain ⟨u, e, c⟩ := unmarshalFields_of_restrict (User.fields O) User.commonNames
        User.common (user_common_sim O) (user_fragment_keeps_common O) kvs _ (User.zero O) x h rfl
      exact ⟨u, e, c.symm⟩
    | _ => exact ⟨x, h, rfl⟩
  · intro j u name v h hn hv
    cases j with
    | obj kvs =>
      refine unmarshalFields_stores_fragment (User.fields O) User.commonNames
        (fun n (s : User O) => s.touserSpecific.fragment n) (user_common_keeps_fragments O) (user_fragment_stores O) name ?_ ?_
        kvs v hv _ u h
      · simp only [User.fragmentNames, List.mem_cons, List.mem_singleton, List.mem_nil_iff,
          or_false] at hn
        rcases hn with rfl|rfl|rfl|rfl|rfl|rfl|rfl|rfl|rfl|rfl|rfl|rfl|rfl
        all_goals decide
      · simp only [User.fragmentNames, List.mem_cons, List.mem_singleton, List.mem_nil_iff,
          or_false] at hn
        rcases hn with rfl|rfl|rfl|rfl|rfl|rfl|rfl|rfl|rfl|rfl|rfl|rfl|rfl
        all_goals rfl
    | _ => simp [JSON.field] at hv
  · intro j x h
    cases j with
    | obj kvs =>
      obtain ⟨u, e, c⟩ := unmarshalFields_of_restrict (Event.fields O) Event.commonNames
        Event.common (event_common_sim O) (event_fragment_keeps_common O) kvs _ (Event.zero O) x h rfl
      exact ⟨u, e, c.symm⟩
    | _ => exact ⟨x, h, rfl⟩
  · intro j u name v h hn hv
    cases j with
    | obj kvs =>
      refine unmarshalFields_stores_fragment (Event.fields O) Event.commonNames
        (fun n (s : Event O) => s.toeventSpecific.fragment n) (event_common_keeps_fragments O) (event_fragment_stores O)
        name ?_ ?_ kvs v hv _ u h
      · simp only [Event.fragmentNames, List.mem_cons, List.mem_singleton, List.mem_nil_iff,
          or_false] at hn
        rcases hn with rfl|rfl|rfl|rfl|rfl|rfl|rfl|rfl|rfl|rfl|rfl
        all_goals decide
      · simp only [Event.fragmentNames, List.mem_cons, List.mem_singleton, List.mem_nil_iff,
          or_false] at hn
        rcases hn with rfl|rfl|rfl|rfl|rfl|rfl|rfl|rfl|rfl|rfl|rfl
        all_goals rfl
    | _ => simp [JSON.field] at hv

/-- C15 at `{"type":"message","author_id":"u1","text":5}` and at
`{"type":"agent","id":"a2","routing_status":5}`: the event and the user are
decoded with their common fields, the fragments `text` and `routing_status`
hold the number 5 as it was written, and `Event.Message` and `User.Agent`
return nil. -/
theorem C15_envelope_witness :
    (∃ e, unmarshalEvent sampleObjects messageNumericText (Event.zero sampleObjects) = some e ∧
      e.common = (sampleEvent (messageNumericText.restrict Event.commonNames)).common) ∧
    (sampleEvent messageNumericText).toeventSpecific.fragment "TEXT" = .valid (.int 5) ∧
    ((sampleEvent messageNumericText).Message).isSome = false ∧
    (∃ u, unmarshalUser sampleObjects agentA2Corrupt (User.zero sampleObjects) = some u ∧
      u.common = (sampleUser (agentA2Corrupt.restrict User.commonNames)).common) ∧
    (sampleUser agentA2Corrupt).touserSpecific.fragment "ROUTING_STATUS" = .valid (.int 5) ∧
    ((sampleUser agentA2Corrupt).Agent).isSome = false :=
  ⟨(C15_envelope_independent_of_fragments sampleObjects).2.2.1 messageNumericText
      (sampleEvent (messageNumericText.restrict Event.commonNames)) rfl,
    (C15_envelope_independent_of_fragments sampleObjects).2.2.2 messageNumericText
      (sampleEvent messageNumericText) "TEXT" (.int 5) rfl (by decide) rfl,
    rfl,
    (C15_envelope_independent_of_fragments sampleObjects).1 agentA2Corrupt
      (sampleUser (agentA2Corrupt.restrict User.commonNames)) rfl,
    (C15_envelope_independent_of_fragments sampleObjects).2.1 agentA2Corrupt
      (sampleUser agentA2Corrupt) "ROUTING_STATUS" (.int 5) rfl (by decide) rfl,
    rfl⟩

/-- C16 (the code departs from the claim): the event decoded from
`{"type":"system_message","author_id":"u1","system_message_type":"routing.assigned","text":"hi"}`
has the type "system_message", and each of the four promoters of `Event`
returns nil for it; the source has no promoter that returns a `SystemMessage`. -/
theorem C16_system_message_has_no_promoter :
    unmarshalEvent sampleObjects systemMessageAssigned (Event.zero sampleObjects) =
      some (sampleEvent systemMessageAssigned) ∧
    (sampleEvent systemMessageAssigned).Type_ = "system_message" ∧
    (sampleEvent systemMessageAssigned).Text = .valid (.str "hi") ∧
    ((sampleEvent systemMessageAssigned).FilledForm).isSome = false ∧
    ((sampleEvent systemMessageAssigned).Message).isSome = false ∧
    ((sampleEvent systemMessageAssigned).File).isSome = false ∧
    ((sampleEvent systemMessageAssigned).RichMessage).isSome = false :=
  ⟨rfl, rfl, rfl, rfl, rfl, rfl, rfl⟩

/-- C17 (the code departs from the claim): the agent promoted from
`{"type":"agent","id":"a1","routing_status":"accepting_chats","visibility":""}`
is encoded without `visibility`, and the user decoded from the encoding is no
longer promoted by `User.Agent`; the message promoted from
`{"type":"message","author_id":"u1","text":""}` is encoded without `text`, and
the event decoded from the encoding is no longer promoted by `Event.Message`.
With a non-empty `visibility` and `text` the round trip gives the typed fields
back. -/
theorem C17_round_trip_drops_required_fragment :
    (((sampleUser agentEmptyVisibility).Agent).map (fun a => a.Visibility) = some "" ∧
     (((sampleUser agentEmptyVisibility).Agent).bind (Agent.Marshal sampleEncoders)).bind
        (JSON.field "VISIBILITY") = none ∧
     ((((sampleUser agentEmptyVisibility).Agent).bind (Agent.reUser sampleEncoders)).map
        (fun u => (u.ID, u.Type_, u.Visibility))) = some ("a1", "agent", .nil) ∧
     ((((sampleUser agentEmptyVisibility).Agent).bind (Agent.reUser sampleEncoders)).bind
        User.Agent).isSome = false) ∧
    (((sampleEvent messageEmptyText).Message).map (fun m => m.Text) = some "" ∧
     (((sampleEvent messageEmptyText).Message).bind (Message.Marshal sampleEncoders)).bind
        (JSON.field "TEXT") = none ∧
     ((((sampleEvent messageEmptyText).Message).bind (Message.reEvent sampleEncoders)).map
        (fun e => (e.AuthorID, e.Type_, e.Text))) = some ("u1", "message", .nil) ∧
     ((((sampleEvent messageEmptyText).Message).bind (Message.reEvent sampleEncoders)).bind
        Event.Message).isSome = false) ∧
    ((((sampleUser agentFull).Agent).bind (Agent.reUser sampleEncoders)).bind User.Agent).map
        (fun a => (a.RoutingStatus, a.Visibility)) = some ("accepting_chats", "all") ∧
    ((((sampleEvent messageHi).Message).bind (Message.reEvent sampleEncoders)).bind
        Event.Message).map (fun m => m.Text) = some "hi" :=
  ⟨⟨rfl, rfl, rfl, rfl⟩, ⟨rfl, rfl, rfl, rfl⟩, rfl, rfl⟩

/-- C18: each promoter, run as a call on the memory that holds the envelope,
leaves the envelope as it was, common fields and fragments, whether it returns
nil or a value; what it returns is the value that the promoter computes from
the envelope; and two calls in a row on the same envelope return results that
are both nil or equal, with the envelope still as it was.  Every decode of a
promoter goes into a field of the fresh value itself: a decode into a promoted
selector would write the envelope (`agent_store_promoted`,
`message_store_promoted`). -/
theorem C18_promotion_idempotent_side_effect_free (O : Objects)
    (shared : Event O → String → JSON → Event O) :
    (∀ u : User O, User.AgentCall u = some (u, u.Agent) ∧
      callTwice User.AgentCall u = some (u, u.Agent, u.Agent)) ∧
    (∀ u : User O, User.CustomerCall u = some (u, u.Customer) ∧
      callTwice User.CustomerCall u = some (u, u.Customer, u.Customer)) ∧
    (∀ e : Event O, Event.FilledFormCall shared e = some (e, e.FilledForm) ∧
      callTwice (Event.FilledFormCall shared) e = some (e, e.FilledForm, e.FilledForm)) ∧
    (∀ e : Event O, Event.MessageCall shared e = some (e, e.Message) ∧
      callTwice (Event.MessageCall shared) e = some (e, e.Message, e.Message)) ∧
    (∀ e : Event O, Event.FileCall shared e = some (e, e.File) ∧
      callTwice (Event.FileCall shared) e = some (e, e.File, e.File)) ∧
    (∀ e : Event O, Event.RichMessageCall shared e = some (e, e.RichMessage) ∧
      callTwice (Event.RichMessageCall shared) e = some (e, e.RichMessage, e.RichMessage)) :=
  ⟨fun u => ⟨User.AgentCall_eq u, callTwice_of_eq _ _ User.AgentCall_eq u⟩,
   fun u => ⟨User.CustomerCall_eq u, callTwice_of_eq _ _ User.CustomerCall_eq u⟩,
   fun e => ⟨Event.FilledFormCall_eq shared e,
     callTwice_of_eq _ _ (Event.FilledFormCall_eq shared) e⟩,
   fun e => ⟨Event.MessageCall_eq shared e, callTwice_of_eq _ _ (Event.MessageCall_eq shared) e⟩,
   fun e => ⟨Event.FileCall_eq shared e, callTwice_of_eq _ _ (Event.FileCall_eq shared) e⟩,
   fun e => ⟨Event.RichMessageCall_eq shared e,
     callTwice_of_eq _ _ (Event.RichMessageCall_eq shared) e⟩⟩

/-- C19 (the code departs from the claim): `Chat.UnmarshalJSON` dereferences a
nil pointer on the payloads `{"users":[]}` and `{}`, whose embedded alias
pointer is never allocated, and on a users array in which `{}` or `null`
follows an agent, where the embedded `*User` of the fresh `Agent` is nil. -/
theorem C19_nil_dereference :
    Chat.UnmarshalJSON sampleObjects (.valid (.obj [("users", .arr [])])) = .panic ∧
    Chat.UnmarshalJSON sampleObjects (.valid (.obj [])) = .panic ∧
    Chat.UnmarshalJSON sampleObjects (chatPayload [agentA1, .obj []]) = .panic ∧
    Chat.UnmarshalJSON sampleObjects (chatPayload [agentA1, .null]) = .panic ∧
    Chat.UnmarshalJSON sampleObjects (chatPayload [customerC1, .null]) = .panic :=
  ⟨rfl, rfl, rfl, rfl, rfl⟩

/-- C20 (the code departs from the claim): in the chat decoded from the users
`agentFull` and `customerFull`, the agent "a1" has the routing status
"accepting_chats" and the customer "c1" the state "chatting", and the users
that `Chat.Users` returns have the types "agent" and "customer", hold no
fragment for `routing_status` and `state`, and are promoted by neither
`User.Agent` nor `User.Customer`. -/
theorem C20_users_of_chat_are_not_promoted :
    Chat.UnmarshalJSON sampleObjects (chatPayload [agentFull, customerFull]) =
      .ok (sampleChat (chatPayload [agentFull, customerFull])) ∧
    ((sampleChat (chatPayload [agentFull, customerFull])).Agents.lookup "a1").map
        (fun a => a.map (fun x => x.RoutingStatus)) = some (some "accepting_chats") ∧
    ((sampleChat (chatPayload [agentFull, customerFull])).Customers.lookup "c1").map
        (fun cu => cu.map (fun x => x.State)) = some (some "chatting") ∧
    (sampleChat (chatPayload [agentFull, customerFull])).Users
        (sampleChat (chatPayload [agentFull, customerFull])).Agents
        (sampleChat (chatPayload [agentFull, customerFull])).Customers =
      .ok (sampleChat (chatPayload [agentFull, customerFull]),
        (sampleChat (chatPayload [agentFull, customerFull])).embeddedUsers) ∧
    (sampleChat (chatPayload [agentFull, customerFull])).embeddedUsers.map
        (fun u => u.map (fun usr => (usr.ID, usr.Type_, usr.RoutingStatus, usr.State,
          (usr.Agent).isSome, (usr.Customer).isSome))) =
      [some ("a1", "agent", .nil, .nil, false, false),
       some ("c1", "customer", .nil, .nil, false, false)] :=
  ⟨rfl, rfl, rfl, rfl, rfl⟩

end LcSdk
